import Mathlib

/-!
# Verification of the scrapinapp reconciliation & upsert engine

Shallow embedding of the database-reconciliation logic of the
`stack-flow-data-pull` repository (`scrapinapp/views.py`,
`scrapinapp/utils.py`, schema in `scrapinapp/models.py`).

Modelling conventions:
* Django rows become Lean structures; a table is a `List` of rows in
  insertion order (matching default query order used by the code).
* Unique natural keys (`Certification.name`, `Control.short_name`,
  `Policy.policy_id`, `Policy.policy_reference`) stand in for numeric
  primary keys wherever the code only compares rows by `pk`.
* `get_or_create` is: `find?` on the lookup fields, append a fresh row
  built from the defaults when absent.
* `auto_now` timestamps are modelled as a `Nat` passed in as `now` where
  a claim depends on them, and left at `0` elsewhere.
* Fallible ORM calls (`.get`, row creation hitting a unique constraint)
  return `Except`/an error-carrying result where a claim depends on the
  exception path; the happy-path models assume no constraint violation,
  which is recorded at each definition.
-/

/-- A stored `Certification` row (`sf_certifications`). -/
structure CertRow where
  name : String
  slug : String := ""
  description : String := ""
  url : String := ""
  version : String := ""
  regulation_name : String := ""
deriving DecidableEq

/-- A stored `Clause` row (`sf_clauses`).  The owning certification is
referenced by its unique `name` (standing in for the foreign key). -/
structure ClauseRow where
  certification : String
  reference_id : String
  display_identifier : String := ""
  title : String := ""
  description : String := ""
  original_id : Option String := none
deriving DecidableEq

/-- A stored `Control` row (`sf_controls`). -/
structure ControlRow where
  short_name : String
  custom_short_name : Option String := none
  name : String := ""
  description : String := ""
  original_id : Option String := none
deriving DecidableEq

/-- A stored `Policy` row (`sf_policies`). -/
structure PolicyRow where
  policy_id : String
  policy_reference : String
  policy_doc : Option String := none
  policy_version : Option String := none
  title : String := ""
  policy_template : Option String := none
  policy_gathered_from : Option String := none
  security_group : Option String := none
  updated_at : Nat := 0
deriving DecidableEq

/-- The entity store: all tables touched by the ingestion passes.
Many-to-many edges are stored as pairs of natural keys:
`policyClause`/`controlClause` key clauses by
`(certification name, reference_id)` (the clause's unique-together key)
and `policyControl` pairs `(policy_id, control short_name)`. -/
structure DB where
  certifications : List CertRow := []
  clauses : List ClauseRow := []
  policies : List PolicyRow := []
  controls : List ControlRow := []
  policyClause : List ((String × String) × String) := []
  controlClause : List ((String × String) × String) := []
  policyControl : List (String × String) := []
deriving DecidableEq

/-! ### Python string primitives

Models of the Python string methods the code uses (`str.strip`,
`str.lower`, `str.upper`, `str.split`), written over the character list
so that they evaluate inside the kernel (the ASCII fragment, which is
all the ingested keys use). -/

/-- `str.strip()`: drop leading and trailing whitespace. -/
def pyStrip (s : String) : String :=
  ⟨((s.data.dropWhile Char.isWhitespace).reverse.dropWhile Char.isWhitespace).reverse⟩

/-- `str.lower()` (ASCII). -/
def pyLower (s : String) : String :=
  ⟨s.data.map Char.toLower⟩

/-- `str.upper()` (ASCII). -/
def pyUpper (s : String) : String :=
  ⟨s.data.map Char.toUpper⟩

/-- `str.split(sep)` for a one-character separator, Python semantics:
`"".split("_") == [""]`, `"a__b".split("_") == ["a", "", "b"]`. -/
def pySplitAux (sep : Char) : List Char → List Char → List String
  | [], acc => [⟨acc.reverse⟩]
  | c :: cs, acc =>
      if c = sep then ⟨acc.reverse⟩ :: pySplitAux sep cs []
      else pySplitAux sep cs (c :: acc)

/-- `str.split(sep)`. -/
def pySplit (sep : Char) (s : String) : List String :=
  pySplitAux sep s.data []

/-- Simplified model of `django.utils.text.slugify` (lower-case, spaces
to hyphens).  No modelled claim inspects slug values; only the fact that
some string is stored matters. -/
def slugifyModel (s : String) : String :=
  String.intercalate "-" (pySplit ' ' (pyLower s))

/-- Decidable equality on modelled exception results. -/
instance [DecidableEq ε] [DecidableEq α] : DecidableEq (Except ε α) := fun a b =>
  match a, b with
  | .ok x, .ok y =>
      if h : x = y then .isTrue (by rw [h]) else .isFalse (by intro hc; cases hc; exact h rfl)
  | .error x, .error y =>
      if h : x = y then .isTrue (by rw [h]) else .isFalse (by intro hc; cases hc; exact h rfl)
  | .ok _, .error _ => .isFalse (by intro hc; cases hc)
  | .error _, .ok _ => .isFalse (by intro hc; cases hc)

/-! ## Eramba policy ingestion (`utils.ingest_policies_from_eramba`)

One record of the `security-policies` endpoint (`{index, description,
id, version}`).  `id` is the numeric Eramba id interpolated into
`f"ER-{item.get('id')}"`. -/

structure ErambaPolicyItem where
  index : String := ""
  description : String := ""
  id : Nat := 0
  version : String := ""
deriving DecidableEq

/-- Outcome of ingesting one Eramba policy record. -/
inductive IngestOutcome where
  | skipped
  | created
  | updated
deriving DecidableEq

/-- One iteration of the loop body of `ingest_policies_from_eramba`:
strip title and description, skip blank titles, look the policy up by
`title` (`Policy.objects.get(title=title)`: zero matches falls to the
create branch via `Policy.DoesNotExist`, two or more raise
`MultipleObjectsReturned`, which the code does not catch), update only
`policy_template`/`updated_at` on a match, otherwise create the row
exactly as `Policy.objects.create(...)` does. -/
def ingestItem (now : Nat) (ps : List PolicyRow) (item : ErambaPolicyItem) :
    Except String (List PolicyRow × IngestOutcome) :=
  let t := pyStrip item.index
  let d := pyStrip item.description
  let pid := "ER-" ++ toString item.id
  let ref := pid ++ "-" ++ item.version
  if t = "" ∨ ref = "" then .ok (ps, .skipped)
  else
    match ps.filter (fun p => p.title == t) with
    | [] =>
        .ok (ps ++ [{ policy_id := pid, policy_reference := ref,
                      policy_version := some item.version, title := t,
                      policy_template := some d,
                      policy_gathered_from := some "ER", updated_at := now }], .created)
    | [_] =>
        .ok (ps.map (fun q => if q.title == t
               then { q with policy_template := some d, updated_at := now } else q), .updated)
    | _ => .error "MultipleObjectsReturned"

/-- The record loop of `ingest_policies_from_eramba`, threading the
`created`/`updated` counters. -/
def ingestLoop (now : Nat) : List ErambaPolicyItem → List PolicyRow → Nat → Nat →
    Except String (List PolicyRow × Nat × Nat)
  | [], ps, c, u => .ok (ps, c, u)
  | item :: rest, ps, c, u =>
    match ingestItem now ps item with
    | .error e => .error e
    | .ok (ps', o) =>
        ingestLoop now rest ps'
          (if o = .created then c + 1 else c) (if o = .updated then u + 1 else u)

/-- `ingest_policies_from_eramba` restricted to its database effect:
returns the policy table plus `(created, updated, total)` where `total`
is `len(data)` as reported in the JSON response. -/
def ingest_policies_from_eramba (now : Nat) (data : List ErambaPolicyItem)
    (ps : List PolicyRow) : Except String (List PolicyRow × Nat × Nat × Nat) :=
  match ingestLoop now data ps 0 0 with
  | .error e => .error e
  | .ok (ps', c, u) => .ok (ps', c, u, data.length)

/-! ## TrustCloud section ingestion (`views.populate_database`)

Input shapes of one captured section JSON file (§6 of the spec /
`sections_output/*.json`). -/

structure PolicyMappingData where
  shortName : String := ""
  id : String := ""
  description : String := ""
  title : String := ""
deriving DecidableEq

structure ControlMappingData where
  shortName : String := ""
  customShortName : Option String := none
  name : String := ""
  description : String := ""
  id : String := ""
deriving DecidableEq

structure SubsectionData where
  programControlMapping : List ControlMappingData := []
deriving DecidableEq

structure SectionData where
  referenceId : String := ""
  displayIdentifier : String := ""
  title : String := ""
  description : String := ""
  id : String := ""
  programPolicyMapping : List PolicyMappingData := []
  subsections : List SubsectionData := []
deriving DecidableEq

/-- One file of `OUTPUT_DIR.glob("*.json")`: its stem and parsed
contents. -/
structure SectionFile where
  stem : String
  sections : List SectionData := []
deriving DecidableEq

/-- The `stats` dictionary accumulated by `populate_database`. -/
structure Stats where
  files_processed : Nat := 0
  certifications : Nat := 0
  clauses : Nat := 0
  policies : Nat := 0
  controls : Nat := 0
  policy_clause_links : Nat := 0
  control_clause_links : Nat := 0
  errors : List (String × String) := []
deriving DecidableEq

/-- `' '.join([part.upper() for part in json_file.stem.split('_')])`. -/
def certDisplayName (stem : String) : String :=
  String.intercalate " " ((pySplit '_' stem).map pyUpper)

/-- `Certification.objects.get_or_create(name=cert_name)` (the model's
`save` derives the slug when blank). -/
def getOrCreateCert (db : DB) (n : String) : DB × CertRow × Bool :=
  match db.certifications.find? (fun c => c.name == n) with
  | some c => (db, c, false)
  | none =>
      let c : CertRow := { name := n, slug := slugifyModel n }
      ({ db with certifications := db.certifications ++ [c] }, c, true)

/-- Policy half of the clause body: `Policy.objects.get_or_create(
policy_id=policy_data.get("shortName",""), defaults=...)` followed by the
existence-checked `clause.policies.add(policy)`.  Happy-path model: the
unique constraint on `policy_reference` is assumed not to be hit (see
`processPolicyMappingE` for the constraint-aware variant). -/
def processPolicyMapping (ck : String × String) (m : PolicyMappingData)
    (a : DB × Stats) : DB × Stats :=
  let (db, st) := a
  let found := db.policies.find? (fun p => p.policy_id == m.shortName)
  let db :=
    match found with
    | some _ => db
    | none =>
        { db with policies := db.policies ++
            [{ policy_id := m.shortName, policy_reference := m.id,
               policy_doc := some m.description, title := m.title,
               policy_gathered_from := some "TC" }] }
  let st := match found with
    | some _ => st
    | none => { st with policies := st.policies + 1 }
  if (ck, m.shortName) ∈ db.policyClause then (db, st)
  else ({ db with policyClause := db.policyClause ++ [(ck, m.shortName)] },
        { st with policy_clause_links := st.policy_clause_links + 1 })

/-- Control half of the clause body: `Control.objects.get_or_create(
short_name=..., defaults=...)` followed by the existence-checked
`clause.controls.add(control)`. -/
def processControlMapping (ck : String × String) (cm : ControlMappingData)
    (a : DB × Stats) : DB × Stats :=
  let (db, st) := a
  let found := db.controls.find? (fun c => c.short_name == cm.shortName)
  let db :=
    match found with
    | some _ => db
    | none =>
        { db with controls := db.controls ++
            [{ short_name := cm.shortName, custom_short_name := cm.customShortName,
               name := cm.name, description := cm.description,
               original_id := some cm.id }] }
  let st := match found with
    | some _ => st
    | none => { st with controls := st.controls + 1 }
  if (ck, cm.shortName) ∈ db.controlClause then (db, st)
  else ({ db with controlClause := db.controlClause ++ [(ck, cm.shortName)] },
        { st with control_clause_links := st.control_clause_links + 1 })

/-- One `for section in data` iteration: `Clause.objects.get_or_create(
certification=cert, reference_id=..., defaults=...)` then the nested
policy- and control-mapping loops. -/
def processSection (certN : String) (s : SectionData) (a : DB × Stats) : DB × Stats :=
  let (db, st) := a
  let ck := (certN, s.referenceId)
  let found := db.clauses.find? (fun c => c.certification == certN && c.reference_id == s.referenceId)
  let db :=
    match found with
    | some _ => db
    | none =>
        { db with clauses := db.clauses ++
            [{ certification := certN, reference_id := s.referenceId,
               display_identifier := s.displayIdentifier, title := s.title,
               description := s.description, original_id := some s.id }] }
  let st := match found with
    | some _ => st
    | none => { st with clauses := st.clauses + 1 }
  let a := s.programPolicyMapping.foldl (fun a m => processPolicyMapping ck m a) (db, st)
  s.subsections.foldl
    (fun a sub => sub.programControlMapping.foldl (fun a cm => processControlMapping ck cm a) a) a

/-- One `for json_file in OUTPUT_DIR.glob("*.json")` iteration, happy
path (no per-record exception): bump `files_processed`, get-or-create
the certification, process every section. -/
def processFile (a : DB × Stats) (f : SectionFile) : DB × Stats :=
  let (db, st) := a
  let st := { st with files_processed := st.files_processed + 1 }
  let n := certDisplayName f.stem
  let (db, _, created) := getOrCreateCert db n
  let st := if created then { st with certifications := st.certifications + 1 } else st
  f.sections.foldl (fun a s => processSection n s a) (db, st)

/-- `populate_database` restricted to its database effect, happy path:
fold over the input files with fresh stats.  (The constraint-aware
variant with the file-level `try/except` is `populate_databaseE`
below.) -/
def populate_database (files : List SectionFile) (db : DB) : DB × Stats :=
  files.foldl processFile (db, {})

/-! ## Constraint-aware section ingestion (`views.populate_database`,
per-file `try/except`)

`populate_database` wraps the *whole body of each file's loop iteration*
in `try: ... except Exception as e: stats['errors'].append(...)`, inside
one outer `transaction.atomic()` with its own `try/except` that maps a
transaction-level failure to an HTTP 500 response.

To exercise the exception path we model the one record-level failure
expressible in the relational model: `Policy.objects.get_or_create`
creating a row whose `policy_reference` collides with an existing row's
unique `policy_reference` raises `IntegrityError` (uniqueness on
`Policy.policy_reference`, `models.py`).  Other unique constraints
(`Certification.slug`, `Control.custom_short_name`) and Django's
transaction poisoning/rollback after a caught `IntegrityError` inside
`atomic` are not modelled; this variant is used only to settle where the
`try/except` resumes, which depends purely on its placement. -/

/-- Result of a raising computation: the state reached so far, plus the
error message if an exception escaped.  An exception leaves the
in-memory side effects already performed in place, which plain `Except`
would lose. -/
inductive TryRes (σ : Type) where
  | ok (s : σ)
  | err (s : σ) (msg : String)
deriving DecidableEq

/-- State of a `TryRes`, whether or not an exception is in flight. -/
def TryRes.state : TryRes σ → σ
  | .ok s => s
  | .err s _ => s

/-- Constraint-aware policy step: as `processPolicyMapping`, but the
create path raises `IntegrityError` when another row already holds the
new row's `policy_reference`. -/
def processPolicyMappingE (ck : String × String) (m : PolicyMappingData)
    (a : DB × Stats) : TryRes (DB × Stats) :=
  let (db, st) := a
  match db.policies.find? (fun p => p.policy_id == m.shortName) with
  | some _ =>
      if (ck, m.shortName) ∈ db.policyClause then .ok (db, st)
      else .ok ({ db with policyClause := db.policyClause ++ [(ck, m.shortName)] },
                { st with policy_clause_links := st.policy_clause_links + 1 })
  | none =>
      if db.policies.any (fun q => q.policy_reference == m.id) then
        .err (db, st) "IntegrityError: duplicate policy_reference"
      else
        let db := { db with policies := db.policies ++
            [{ policy_id := m.shortName, policy_reference := m.id,
               policy_doc := some m.description, title := m.title,
               policy_gathered_from := some "TC" }] }
        let st := { st with policies := st.policies + 1 }
        if (ck, m.shortName) ∈ db.policyClause then .ok (db, st)
        else .ok ({ db with policyClause := db.policyClause ++ [(ck, m.shortName)] },
                  { st with policy_clause_links := st.policy_clause_links + 1 })

/-- The policy-mapping loop of one section, stopping at the first
escaped exception. -/
def foldPoliciesE (ck : String × String) : List PolicyMappingData → DB × Stats →
    TryRes (DB × Stats)
  | [], a => .ok a
  | m :: rest, a =>
    match processPolicyMappingE ck m a with
    | .ok a' => foldPoliciesE ck rest a'
    | .err a' e => .err a' e

/-- One section under the constraint-aware model (the control half
raises nothing in this model, so it reuses `processControlMapping`). -/
def processSectionE (certN : String) (s : SectionData) (a : DB × Stats) :
    TryRes (DB × Stats) :=
  let (db, st) := a
  let ck := (certN, s.referenceId)
  let found := db.clauses.find? (fun c => c.certification == certN && c.reference_id == s.referenceId)
  let db :=
    match found with
    | some _ => db
    | none =>
        { db with clauses := db.clauses ++
            [{ certification := certN, reference_id := s.referenceId,
               display_identifier := s.displayIdentifier, title := s.title,
               description := s.description, original_id := some s.id }] }
  let st := match found with
    | some _ => st
    | none => { st with clauses := st.clauses + 1 }
  match foldPoliciesE ck s.programPolicyMapping (db, st) with
  | .err a' e => .err a' e
  | .ok a' =>
      .ok (s.subsections.foldl
        (fun a sub => sub.programControlMapping.foldl (fun a cm => processControlMapping ck cm a) a) a')

/-- The section loop of one file, stopping at the first escaped
exception (nothing catches inside the file body). -/
def foldSectionsE (certN : String) : List SectionData → DB × Stats → TryRes (DB × Stats)
  | [], a => .ok a
  | s :: rest, a =>
    match processSectionE certN s a with
    | .ok a' => foldSectionsE certN rest a'
    | .err a' e => .err a' e

/-- One file iteration with the file-level `except Exception`: a raise
anywhere in the file's body lands in
`stats['errors'].append({'file': json_file.name, 'error': str(e)})`, and
the file loop then moves on to the next file. -/
def processFileE (a : DB × Stats) (f : SectionFile) : DB × Stats :=
  let (db, st) := a
  let st := { st with files_processed := st.files_processed + 1 }
  let n := certDisplayName f.stem
  let (db, _, created) := getOrCreateCert db n
  let st := if created then { st with certifications := st.certifications + 1 } else st
  match foldSectionsE n f.sections (db, st) with
  | .ok a' => a'
  | .err (db', st') e =>
      (db', { st' with errors := st'.errors ++ [(f.stem ++ ".json", e)] })

/-- The JSON response of `populate_database` (HTTP status plus the
`status` field). -/
structure PopulateResponse where
  httpStatus : Nat
  status : String
deriving DecidableEq

/-- `populate_database` with the per-file `try/except`, the missing
input directory check (HTTP 404) and the success/partial response
selection (`200`/`"success"` with no errors, `207`/`"partial"`
otherwise).  In this model no exception escapes a file's iteration, so
the outer `except` branch (HTTP 500, `"error"`) is unreachable once the
directory exists. -/
def populate_databaseE (dirExists : Bool) (files : List SectionFile) (db : DB) :
    DB × Stats × PopulateResponse :=
  if !dirExists then (db, {}, { httpStatus := 404, status := "error" })
  else
    let (db', st) := files.foldl processFileE (db, ({} : Stats))
    if st.errors.isEmpty then (db', st, { httpStatus := 200, status := "success" })
    else (db', st, { httpStatus := 207, status := "partial" })

/-! ## TrustCloud policy-to-control mapping (`views.map_controls_with_policy`)

One item of the captured policies payload
(`{"policy": id, "control_ids": [...], "security_group": ...}` built by
`capture_policies_data`). -/

structure PolicyCaptureItem where
  policy : Option String := none
  control_ids : List String := []
  security_group : Option String := none
deriving DecidableEq

/-- The `result` dictionary of the view. -/
structure MapResult where
  linked : List (Option String × List (Option String)) := []
  unmatched_policies : List (Option String) := []
  unmatched_controls : List (Option String × List String) := []
deriving DecidableEq

/-- `Policy.objects.get(policy_reference=policy_ref)`: no match means
`Policy.DoesNotExist` (caught by the view), two or more matches raise
`MultipleObjectsReturned` (uncaught inside the loop, so it propagates to
the view's outer `except`). -/
def lookupPolicyByRef (db : DB) (ref : Option String) : Except String (Option PolicyRow) :=
  match db.policies.filter (fun p => some p.policy_reference == ref) with
  | [] => .ok none
  | [p] => .ok (some p)
  | _ => .error "MultipleObjectsReturned"

/-- The `for cid in control_ids` loop: `Control.objects.get(
original_id=cid)` collects matches in order, `Control.DoesNotExist`
lands in `missing_controls`, multiple matches raise. -/
def matchControls (db : DB) : List String → Except String (List ControlRow × List String)
  | [] => .ok ([], [])
  | cid :: rest =>
    match db.controls.filter (fun c => c.original_id == some cid) with
    | [] =>
        match matchControls db rest with
        | .error e => .error e
        | .ok (m, miss) => .ok (m, cid :: miss)
    | [c] =>
        match matchControls db rest with
        | .error e => .error e
        | .ok (m, miss) => .ok (c :: m, miss)
    | _ => .error "MultipleObjectsReturned"

/-- First-occurrence deduplication of control short names; Django's
`related manager .set(objs)` treats `objs` as a set. -/
def dedupFirst : List String → List String
  | [] => []
  | x :: xs => x :: (dedupFirst xs).filter (fun y => !(y == x))

/-- `policy.controls.set(matched_controls)`: drop every existing
policy-control edge of this policy, then insert one edge per distinct
matched control. -/
def setPolicyControls (db : DB) (pid : String) (matched : List ControlRow) : DB :=
  { db with policyControl :=
      db.policyControl.filter (fun e => !(e.1 == pid))
        ++ (dedupFirst (matched.map (·.short_name))).map (fun sn => (pid, sn)) }

/-- One `for item in data` iteration of `map_controls_with_policy`.
Note the guard `if matched_controls:` in the source: the `set` call is
only made when the matched-control list is non-empty. -/
def processCaptureItem (db : DB) (res : MapResult) (item : PolicyCaptureItem) :
    Except String (DB × MapResult) :=
  match lookupPolicyByRef db item.policy with
  | .error e => .error e
  | .ok none =>
      .ok (db, { res with unmatched_policies := res.unmatched_policies ++ [item.policy] })
  | .ok (some p) =>
      match matchControls db item.control_ids with
      | .error e => .error e
      | .ok (matched, missing) =>
          let db' := if matched.isEmpty then db else setPolicyControls db p.policy_id matched
          let res :=
            if matched.isEmpty then res
            else { res with linked := res.linked ++ [(item.policy, matched.map (·.original_id))] }
          let res :=
            if missing.isEmpty then res
            else { res with unmatched_controls := res.unmatched_controls ++ [(item.policy, missing)] }
          .ok (db', res)

/-- The first loop of the view. -/
def mapLoop (db : DB) (res : MapResult) : List PolicyCaptureItem → Except String (DB × MapResult)
  | [] => .ok (db, res)
  | item :: rest =>
    match processCaptureItem db res item with
    | .error e => .error e
    | .ok (db', res') => mapLoop db' res' rest

/-- The second loop of the view (`for i in data: ... security_group`):
`filter(...).exists()` guards a `get` that then saves the new
`security_group`. -/
def applyGroups (db : DB) : List PolicyCaptureItem → Except String DB
  | [] => .ok db
  | item :: rest =>
    match db.policies.filter (fun p => some p.policy_reference == item.policy) with
    | [] => applyGroups db rest
    | [_] =>
        applyGroups
          { db with policies := db.policies.map (fun q =>
              if some q.policy_reference == item.policy
              then { q with security_group := item.security_group } else q) } rest
    | _ => .error "MultipleObjectsReturned"

/-- `map_controls_with_policy` restricted to its database effect plus
the `result` payload. -/
def map_controls_with_policy (db : DB) (data : List PolicyCaptureItem) :
    Except String (DB × MapResult) :=
  match mapLoop db {} data with
  | .error e => .error e
  | .ok (db', res) =>
      match applyGroups db' data with
      | .error e => .error e
      | .ok db'' => .ok (db'', res)

/-! ## Eramba clause ingestion (`views.get_eramba_clauses`)

Record shapes of the `compliance-package-regulators&action=show`
payloads after the concurrent fetch has materialized them into one
list.  Logging and the human-readable `warnings` strings are not
modelled; counters and database effects are. -/

structure SecurityPolicyData where
  index : Option String := none
deriving DecidableEq

structure SecurityServiceData where
  name : Option String := none
deriving DecidableEq

structure PackageItemData where
  item_id : Option String := none
  name : Option String := none
  description : String := ""
  id : Option String := none
  security_policies : List SecurityPolicyData := []
  security_services : List SecurityServiceData := []
deriving DecidableEq

structure PackageData where
  compliance_package_items : List PackageItemData := []
deriving DecidableEq

structure CertEntryData where
  name : Option String := none
  description : String := ""
  url : String := ""
  version : String := ""
  regulation_name : String := ""
  compliance_packages : List PackageData := []
deriving DecidableEq

/-- The counters of `get_eramba_clauses`' response. -/
structure ClauseStats where
  certs_processed : Nat := 0
  clauses_created : Nat := 0
  clauses_updated : Nat := 0
  policies_mapped : Nat := 0
  controls_mapped : Nat := 0
  item_errors : Nat := 0
deriving DecidableEq

/-- `Policy.objects.get(title=policy_index)` followed by the unguarded
`clause.policies.add(policy)` and `total_policies_mapped += 1`: the
`.add` of a many-to-many manager does not duplicate a stored edge, but
the counter is incremented on every successful `get`, whether or not
the edge already existed.  Zero matches is the caught `DoesNotExist`
(warning, continue); several matches raise `MultipleObjectsReturned`,
which escapes up to the item-level `except`. -/
def erambaMapPolicy (ck : String × String) (pd : SecurityPolicyData)
    (a : DB × ClauseStats) : TryRes (DB × ClauseStats) :=
  let (db, st) := a
  match pd.index with
  | none => .ok (db, st)
  | some idx =>
    if idx = "" then .ok (db, st)
    else
      match db.policies.filter (fun p => p.title == idx) with
      | [] => .ok (db, st)
      | [p] =>
          .ok ({ db with policyClause :=
                   if (ck, p.policy_id) ∈ db.policyClause then db.policyClause
                   else db.policyClause ++ [(ck, p.policy_id)] },
               { st with policies_mapped := st.policies_mapped + 1 })
      | _ => .err (db, st) "MultipleObjectsReturned"

/-- `Control.objects.get(name=service_name)` followed by the unguarded
`clause.controls.add(control)` and `total_controls_mapped += 1`; same
shape as `erambaMapPolicy`.  (The "create missing control" block in the
source is commented out and therefore not modelled.) -/
def erambaMapControl (ck : String × String) (sd : SecurityServiceData)
    (a : DB × ClauseStats) : TryRes (DB × ClauseStats) :=
  let (db, st) := a
  match sd.name with
  | none => .ok (db, st)
  | some n =>
    if n = "" then .ok (db, st)
    else
      match db.controls.filter (fun c => c.name == n) with
      | [] => .ok (db, st)
      | [c] =>
          .ok ({ db with controlClause :=
                   if (ck, c.short_name) ∈ db.controlClause then db.controlClause
                   else db.controlClause ++ [(ck, c.short_name)] },
               { st with controls_mapped := st.controls_mapped + 1 })
      | _ => .err (db, st) "MultipleObjectsReturned"

/-- Loop over a list with an exception-propagating body. -/
def foldTry (f : α → DB × ClauseStats → TryRes (DB × ClauseStats)) :
    List α → DB × ClauseStats → TryRes (DB × ClauseStats)
  | [], a => .ok a
  | x :: rest, a =>
    match f x a with
    | .ok a' => foldTry f rest a'
    | .err a' e => .err a' e

/-- One `for item in package_items` iteration: skip items missing
`item_id` or `name`, get-or-create the clause keyed on
`(certification, reference_id=item_id)`, then run the two mapping
loops; the whole body is wrapped in an `except Exception` that records
the error and continues with the next item. -/
def processPackageItem (certN : String) (item : PackageItemData)
    (a : DB × ClauseStats) : DB × ClauseStats :=
  let (db, st) := a
  match item.item_id, item.name with
  | some iid, some iname =>
    if iid = "" ∨ iname = "" then (db, st)
    else
      let ck := (certN, iid)
      let found := db.clauses.find? (fun c => c.certification == certN && c.reference_id == iid)
      let db :=
        match found with
        | some _ => db
        | none =>
            { db with clauses := db.clauses ++
                [{ certification := certN, reference_id := iid,
                   display_identifier := iid, title := iname,
                   description := item.description,
                   original_id := match item.id with
                     | some s => if s = "" then none else some s
                     | none => none }] }
      let st := match found with
        | some _ => { st with clauses_updated := st.clauses_updated + 1 }
        | none => { st with clauses_created := st.clauses_created + 1 }
      match foldTry (erambaMapPolicy ck) item.security_policies (db, st) with
      | .err (db', st') _ => (db', { st' with item_errors := st'.item_errors + 1 })
      | .ok a' =>
          match foldTry (erambaMapControl ck) item.security_services a' with
          | .err (db', st') _ => (db', { st' with item_errors := st'.item_errors + 1 })
          | .ok a'' => a''
  | _, _ => (db, st)

/-- One `for clause_entry in clauses` iteration: skip entries with no
certification name, get-or-create the `Certification`, bump
`total_certs_processed`, then process every package item. -/
def processCertEntry (a : DB × ClauseStats) (entry : CertEntryData) : DB × ClauseStats :=
  let (db, st) := a
  match entry.name with
  | none => (db, st)
  | some certN =>
    if certN = "" then (db, st)
    else
      let found := db.certifications.find? (fun c => c.name == certN)
      let db :=
        match found with
        | some _ => db
        | none =>
            { db with certifications := db.certifications ++
                [{ name := certN, slug := slugifyModel certN,
                   description := entry.description, url := entry.url,
                   version := entry.version, regulation_name := entry.regulation_name }] }
      let st := { st with certs_processed := st.certs_processed + 1 }
      entry.compliance_packages.foldl
        (fun a pkg => pkg.compliance_package_items.foldl
          (fun a item => processPackageItem certN item a) a) (db, st)

/-- `get_eramba_clauses` restricted to its database effect, starting
from the already-fetched clause entries. -/
def get_eramba_clauses (entries : List CertEntryData) (db : DB) : DB × ClauseStats :=
  entries.foldl processCertEntry (db, {})

/-! ## Eramba control ingestion (`views.get_eramba_controls`)

Record shape of the `security-services` payload.  The synthetic
`policy_id`/`policy_reference` values use `uuid.uuid4().hex[:10]`; the
hex supply is passed in as a function from an in-pass counter, since the
claims never inspect the generated values. -/

structure ServicePolicyData where
  index : Option String := none
deriving DecidableEq

structure ServiceItemData where
  id : Option String := none
  name : String := ""
  objective : String := ""
  audit_metric_description : String := ""
  audit_success_criteria : String := ""
  security_policies : List ServicePolicyData := []
deriving DecidableEq

/-- The counters of `get_eramba_controls`' response. -/
structure ControlsPassStats where
  controls_processed : Nat := 0
  policies_processed : Nat := 0
  policies_linked : Nat := 0
deriving DecidableEq

/-- One `for policy_entry in policies_data` iteration: skip blank
titles, `Policy.objects.filter(title=...).first()`, create a policy
with synthetic ids when absent, then the existence-checked
`current_control.policies.add(policy_obj)`. -/
def processServicePolicy (uuidHex : Nat → String) (cur : ControlRow)
    (a : DB × ControlsPassStats × Nat) (pe : ServicePolicyData) :
    DB × ControlsPassStats × Nat :=
  let (db, st, ctr) := a
  match pe.index with
  | none => (db, st, ctr)
  | some t =>
    if t = "" then (db, st, ctr)
    else
      let found := db.policies.find? (fun p => p.title == t)
      let (db, pobj, st, ctr) :=
        match found with
        | some p => (db, p, st, ctr)
        | none =>
            let p : PolicyRow :=
              { policy_id := slugifyModel t ++ "-" ++ uuidHex ctr,
                policy_reference := slugifyModel t ++ "-ref-" ++ uuidHex (ctr + 1),
                title := t, policy_gathered_from := some "ER" }
            ({ db with policies := db.policies ++ [p] }, p,
             { st with policies_processed := st.policies_processed + 1 }, ctr + 2)
      if (pobj.policy_id, cur.short_name) ∈ db.policyControl then (db, st, ctr)
      else ({ db with policyControl := db.policyControl ++ [(pobj.policy_id, cur.short_name)] },
            { st with policies_linked := st.policies_linked + 1 }, ctr)

/-- One `for item in data` iteration of `get_eramba_controls`:
`short_name = item.get("id")`; `Control.objects.filter(short_name=...)
.first()` resolves an existing control, otherwise a new one is created.
A record with no `id` would attempt to store `short_name=None`, which
violates the NOT NULL constraint; that `IntegrityError` is caught by the
source's `except IntegrityError: continue`, so the whole item is
skipped. -/
def processServiceItem (uuidHex : Nat → String) (a : DB × ControlsPassStats × Nat)
    (item : ServiceItemData) : DB × ControlsPassStats × Nat :=
  let (db, st, ctr) := a
  match item.id with
  | none => (db, st, ctr)
  | some sn =>
      let strippedDescription :=
        pyStrip (item.objective ++ " " ++ item.audit_metric_description ++ " "
          ++ item.audit_success_criteria)
      let found := db.controls.find? (fun c => c.short_name == sn)
      let (db, cur, st) :=
        match found with
        | some c => (db, c, st)
        | none =>
            let c : ControlRow := { short_name := sn, name := item.name,
                                    description := strippedDescription }
            ({ db with controls := db.controls ++ [c] }, c,
             { st with controls_processed := st.controls_processed + 1 })
      item.security_policies.foldl (processServicePolicy uuidHex cur) (db, st, ctr)

/-- `get_eramba_controls` restricted to its database effect, starting
from the fetched `data` list. -/
def get_eramba_controls (uuidHex : Nat → String) (data : List ServiceItemData)
    (db : DB) : DB × ControlsPassStats :=
  let r := data.foldl (processServiceItem uuidHex) (db, {}, 0)
  (r.1, r.2.1)

/-- One ingestion operation touching the `Control` table: a TrustCloud
section pass or an Eramba control pass (the two places the core creates
controls). -/
inductive IngestOp where
  | tcSection (files : List SectionFile)
  | erControls (uuidHex : Nat → String) (data : List ServiceItemData)

/-- Database effect of one ingestion operation. -/
def applyIngestOp (db : DB) : IngestOp → DB
  | .tcSection files => (populate_database files db).1
  | .erControls u data => (get_eramba_controls u data db).1

/-! ## Standard-mapping batcher (`utils.map_controls_to_standards`)

`FrameworkStandard` rows get an explicit numeric `pk` because
`bulk_update` targets specific row objects while the unique-together
key `(control, framework, standard_id)` may transiently be duplicated
by `bulk_create` within a batch.  The owning control is referenced by
its unique `short_name` (the code keys `controls_map` by `short_name`
and the DB key by the control's pk; the two are in bijection). -/

structure FSDefaults where
  name : Option String := none
  description : Option String := none
  sectionVal : Option String := none
deriving DecidableEq

structure FSRow where
  pk : Nat
  control : String
  framework : String
  standard_id : Option String
  name : Option String := none
  description : Option String := none
  sectionVal : Option String := none
deriving DecidableEq

/-- One element of the `all_standards` work list:
`(control, display_name, controlId, defaults)`. -/
structure FSTuple where
  control : String
  framework : String
  standard_id : Option String
  defaults : FSDefaults
deriving DecidableEq

/-- The `sf_framework_standards` table plus the pk sequence. -/
structure FSState where
  rows : List FSRow := []
  nextPk : Nat := 0
deriving DecidableEq

/-- One control item of the captured
`controls?includeComplianceMapping=true` payload; `mappings` is the
JSON dictionary `frameworkKey -> {"controls": [...]}`. -/
structure MappedControlData where
  controlId : Option String := none
  name : Option String := none
  description : Option String := none
  sectionVal : Option String := none
deriving DecidableEq

structure ComplianceItemData where
  shortName : Option String := none
  mappedStandards : List String := []
  mappings : List (String × List MappedControlData) := []
deriving DecidableEq

/-- The `STANDARD_MAPPING` translation table, verbatim from
`utils.py`. -/
def STANDARD_MAPPING : List (String × String) :=
  [("soc2", "SOC2 (TSC 2017)"),
   ("soc2type2", "SOC2TYPE 2"),
   ("cmmc_l1", ""),
   ("cmmc_l2", ""),
   ("hipaa", ""),
   ("iso27001", ""),
   ("iso27001_2022", "ISO 27001:2022"),
   ("nist_csf", "NIST CSF 1.1"),
   ("nist_sp_800_171", ""),
   ("cis_v8", "CIS v8"),
   ("pci_dss_4", "PCI DSS 4.0"),
   ("iso27701", "ISO27701 PROCESSOR"),
   ("iso22301", "ISO 22301:2019"),
   ("iso27002_2022", "ISO 27002:2022"),
   ("dora", "EU Digital Operational Resilience Act (DORA)"),
   ("nis2", "NIS2 Directive"),
   ("nist_ai_rmf", "NIST AI RMF"),
   ("iso42001", "ISO42001"),
   ("nca_ecc_1_2018", "NCA ECC 1 : 2018"),
   ("iso27701_controller", ""),
   ("pci_dss", ""),
   ("gdpr", ""),
   ("gdpr_privacy", "")]

/-- `STANDARD_MAPPING.get(key, "")`. -/
def standardMappingGet (k : String) : String :=
  ((STANDARD_MAPPING.find? (fun e => e.1 == k)).map (·.2)).getD ""

/-- `mappings.get(framework_key, {}).get("controls", [])`. -/
def lookupMappings (m : List (String × List MappedControlData)) (fk : String) :
    List MappedControlData :=
  ((m.find? (fun e => e.1 == fk)).map (·.2)).getD []

/-- The `defaults` dictionary built per mapped control:
`control_data.get("name") or None` collapses an empty name to `None`;
`description` and `section` are taken as-is. -/
def tupleDefaults (cd : MappedControlData) : FSDefaults :=
  { name := match cd.name with
      | some s => if s = "" then none else some s
      | none => none,
    description := cd.description, sectionVal := cd.sectionVal }

/-- The `all_standards` work-list construction: drop items whose
`shortName` is falsy or not among the stored controls (`controls_map`),
drop framework keys whose case-insensitive translation is empty, and
flatten the remaining mapped controls in input order.  `controlsDb`
lists the `short_name`s of existing `Control` rows. -/
def buildStandards (data : List ComplianceItemData) (controlsDb : List String) :
    List FSTuple :=
  data.foldl (fun acc item =>
    match item.shortName with
    | none => acc
    | some sn =>
      if sn = "" ∨ sn ∉ controlsDb then acc
      else
        item.mappedStandards.foldl (fun acc2 fk =>
          let dn := standardMappingGet (pyLower fk)
          if dn = "" then acc2
          else
            acc2 ++ (lookupMappings item.mappings fk).map (fun cd =>
              { control := sn, framework := dn, standard_id := cd.controlId,
                defaults := tupleDefaults cd })) acc) []

/-- Key of a stored row: `(e.control_id, e.framework, e.standard_id)`. -/
def rkey (r : FSRow) : String × String × Option String :=
  (r.control, r.framework, r.standard_id)

/-- Key of a work-list tuple: `(control.id, framework, standard_id)`. -/
def tkey (t : FSTuple) : String × String × Option String :=
  (t.control, t.framework, t.standard_id)

/-- In-place field overwrite performed by the `setattr` loop. -/
def applyDefaultsRow (r : FSRow) (d : FSDefaults) : FSRow :=
  { r with name := d.name, description := d.description, sectionVal := d.sectionVal }

/-- The `needs_update` comparison: every `defaults` field equal. -/
def rowMatchesDefaults (r : FSRow) (d : FSDefaults) : Bool :=
  r.name == d.name && r.description == d.description && r.sectionVal == d.sectionVal

/-- Insert/overwrite one entry of the in-memory `existing_map`. -/
def assocUpsert (k : String × String × Option String) (v : FSRow) :
    List ((String × String × Option String) × FSRow) →
    List ((String × String × Option String) × FSRow)
  | [] => [(k, v)]
  | e :: es => if e.1 = k then (k, v) :: es else e :: assocUpsert k v es

/-- `existing_map = {(e.control_id, e.framework, e.standard_id): e for e
in existing}`: later entries override earlier ones. -/
def buildExistingMap (rows : List FSRow) :
    List ((String × String × Option String) × FSRow) :=
  rows.foldl (fun m r => assocUpsert (rkey r) r m) []

/-- Dictionary lookup. -/
def assocFind (m : List ((String × String × Option String) × FSRow))
    (k : String × String × Option String) : Option FSRow :=
  (m.find? (fun e => e.1 == k)).map (·.2)

/-- One `for control, framework, standard_id, defaults in batch`
iteration: a key present in `existing_map` mutates the shared row
object field-by-field and records it for `bulk_update` when anything
changed; an absent key builds a fresh object for `bulk_create` (and
does *not* enter `existing_map`). -/
def batchStep (acc : List ((String × String × Option String) × FSRow) × List FSTuple × List Nat)
    (t : FSTuple) :
    List ((String × String × Option String) × FSRow) × List FSTuple × List Nat :=
  let (m, toCreate, toUpd) := acc
  match assocFind m (tkey t) with
  | some obj =>
      if rowMatchesDefaults obj t.defaults then (m, toCreate, toUpd)
      else (assocUpsert (tkey t) (applyDefaultsRow obj t.defaults) m, toCreate, toUpd ++ [obj.pk])
  | none => (m, toCreate ++ [t], toUpd)

/-- `bulk_create`: materialize the created objects with fresh pks. -/
def mkCreatedRows (startPk : Nat) : List FSTuple → List FSRow
  | [] => []
  | t :: ts =>
      { pk := startPk, control := t.control, framework := t.framework,
        standard_id := t.standard_id, name := t.defaults.name,
        description := t.defaults.description, sectionVal := t.defaults.sectionVal }
        :: mkCreatedRows (startPk + 1) ts

/-- `bulk_update` + `bulk_create`: rows queued for update take their
mutated in-memory value (located via their pk in `existing_map`), then
the created rows are appended. -/
def finishBatch (st : FSState) (m : List ((String × String × Option String) × FSRow))
    (toCreate : List FSTuple) (toUpd : List Nat) : FSState × Nat × Nat :=
  let rows' := st.rows.map (fun r =>
    if r.pk ∈ toUpd then
      match m.find? (fun e => e.2.pk == r.pk) with
      | some e => e.2
      | none => r
    else r)
  ({ rows := rows' ++ mkCreatedRows st.nextPk toCreate,
     nextPk := st.nextPk + toCreate.length },
   toCreate.length, toUpd.length)

/-- One batch of at most 500 tuples: one existence query over the
batch's keys, the split into `to_create`/`to_update`, then the two bulk
writes.  Returns the new state and `(created, updated)` write counts. -/
def processBatch (st : FSState) (batch : List FSTuple) : FSState × Nat × Nat :=
  let keys := batch.map tkey
  let existingRows := st.rows.filter (fun r => rkey r ∈ keys)
  let m0 := buildExistingMap existingRows
  let acc := batch.foldl batchStep (m0, [], [])
  finishBatch st acc.1 acc.2.1 acc.2.2

/-- `all_standards[i:i + batch_size]` slicing, fuel-structural so that
it evaluates in the kernel (`fuel ≥ l.length` always holds at the call
site). -/
def chunksOfAux (n : Nat) : Nat → List FSTuple → List (List FSTuple)
  | _, [] => []
  | 0, l => [l]
  | fuel + 1, l => l.take n :: chunksOfAux n fuel (l.drop n)

/-- Split a list into consecutive chunks of size `n`. -/
def chunksOf (n : Nat) (l : List FSTuple) : List (List FSTuple) :=
  chunksOfAux n l.length l

/-- `map_controls_to_standards` restricted to its database effect:
build `all_standards`, then process it in batches of 500 inside one
transaction.  Returns `(state, total bulk-created rows, total
bulk-updated rows)`. -/
def map_controls_to_standards (data : List ComplianceItemData)
    (controlsDb : List String) (st : FSState) : FSState × Nat × Nat :=
  let tuples := buildStandards data controlsDb
  (chunksOf 500 tuples).foldl
    (fun acc b =>
      let r := processBatch acc.1 b
      (r.1, acc.2.1 + r.2.1, acc.2.2 + r.2.2)) (st, 0, 0)

/-- Iterated runs of the batcher over the same input. -/
def map_controls_to_standards_iter (data : List ComplianceItemData)
    (controlsDb : List String) : Nat → FSState → FSState
  | 0, st => st
  | n + 1, st =>
      map_controls_to_standards_iter data controlsDb n
        (map_controls_to_standards data controlsDb st).1

/-! ## Invariant predicates used by the verification -/

/-- The policy half of a section record has been absorbed: a policy row
with the record's `shortName` as `policy_id` exists and the
clause-policy edge is stored. -/
def PolicyDone (db : DB) (ck : String × String) (m : PolicyMappingData) : Prop :=
  (∃ p ∈ db.policies, p.policy_id = m.shortName) ∧ (ck, m.shortName) ∈ db.policyClause

/-- The control half of a section record has been absorbed. -/
def ControlDone (db : DB) (ck : String × String) (cm : ControlMappingData) : Prop :=
  (∃ c ∈ db.controls, c.short_name = cm.shortName) ∧ (ck, cm.shortName) ∈ db.controlClause

/-- A clause with the given unique-together key exists. -/
def ClausePresent (db : DB) (certN refId : String) : Prop :=
  ∃ c ∈ db.clauses, c.certification = certN ∧ c.reference_id = refId

/-- A whole section record has been absorbed. -/
def SectionDone (db : DB) (certN : String) (s : SectionData) : Prop :=
  ClausePresent db certN s.referenceId ∧
  (∀ m ∈ s.programPolicyMapping, PolicyDone db (certN, s.referenceId) m) ∧
  (∀ sub ∈ s.subsections, ∀ cm ∈ sub.programControlMapping,
      ControlDone db (certN, s.referenceId) cm)

/-- A whole section file has been absorbed. -/
def FileDone (db : DB) (f : SectionFile) : Prop :=
  (∃ c ∈ db.certifications, c.name = certDisplayName f.stem) ∧
  (∀ s ∈ f.sections, SectionDone db (certDisplayName f.stem) s)

/-- Table-wise containment of database states; the section pass only
ever appends rows and edges, so it is monotone for this order. -/
def DBLe (d1 d2 : DB) : Prop :=
  d1.certifications ⊆ d2.certifications ∧ d1.clauses ⊆ d2.clauses ∧
  d1.policies ⊆ d2.policies ∧ d1.controls ⊆ d2.controls ∧
  d1.policyClause ⊆ d2.policyClause ∧ d1.controlClause ⊆ d2.controlClause ∧
  d1.policyControl ⊆ d2.policyControl

/-- The last stored `FrameworkStandard` row carrying a given key; this
is the row the batcher's `existing_map` dictionary retains for that key
(later dictionary insertions override earlier ones). -/
def lastWith (k : String × String × Option String) : List FSRow → Option FSRow
  | [] => none
  | r :: rs =>
    match lastWith k rs with
    | some x => some x
    | none => if rkey r = k then some r else none

/-- Any two surviving work-list tuples with the same
`(control, framework, standard_id)` key carry the same
name/description/section payload. -/
def KeyConsistent (ts : List FSTuple) : Prop :=
  ∀ t1 ∈ ts, ∀ t2 ∈ ts, tkey t1 = tkey t2 → t1.defaults = t2.defaults

/-- Well-formed `FrameworkStandard` store: pairwise-distinct pks, all
below the pk sequence value (true of a real autoincrement table). -/
def WFState (st : FSState) : Prop :=
  (st.rows.map (·.pk)).Nodup ∧ ∀ r ∈ st.rows, r.pk < st.nextPk

/-- The store reflects a work list: for every tuple, the row its key
resolves to in `existing_map` already carries the tuple's payload. -/
def Reflects (rows : List FSRow) (ts : List FSTuple) : Prop :=
  ∀ t ∈ ts, ∃ r, lastWith (tkey t) rows = some r ∧ rowMatchesDefaults r t.defaults = true

/-! ## Concrete inputs used for counterexamples and witnesses -/

/-- A database holding one policy (reference `R1`) already linked to
two controls. -/
def exC1DB : DB :=
  { policies := [{ policy_id := "P1", policy_reference := "R1" }],
    controls := [{ short_name := "A", original_id := some "OA" },
                 { short_name := "B", original_id := some "OB" }],
    policyControl := [("P1", "A"), ("P1", "B")] }

/-- A captured policies payload whose only item maps policy `R1` to an
empty control-id list. -/
def exC1Data : List PolicyCaptureItem := [⟨some "R1", [], none⟩]

/-- A payload mapping policy `R1` to the single control `OA`. -/
def exC1Data2 : List PolicyCaptureItem := [⟨some "R1", ["OA"], none⟩]

/-- A database holding one policy whose `policy_id` is `S` and whose
`policy_reference` is `R1`. -/
def exC2DB : DB := { policies := [{ policy_id := "S", policy_reference := "R1" }] }

/-- A section file whose policy-mapping record carries
`shortName = "S"` and `id = "R2"`: resolution by `policy_id` finds the
existing row even though the record's `id` differs from the stored
`policy_reference`, while resolution by `policy_reference` would miss
it and create a fresh row carrying reference `R2`. -/
def exC2File : SectionFile := ⟨"iso",
  [{ referenceId := "A.1", programPolicyMapping := [{ shortName := "S", id := "R2" }] }]⟩

/-- A section file exercising one certification, clause, policy and
control. -/
def exC3File : SectionFile := ⟨"iso_27001",
  [{ referenceId := "A.1",
     programPolicyMapping := [{ shortName := "POL-1", id := "R1" }],
     subsections := [{ programControlMapping := [{ shortName := "C-1", id := "O1" }] }] }]⟩

/-- A captured compliance payload whose single control carries the same
`(control, framework, standard_id)` key twice with differing
descriptions. -/
def exC4Data : List ComplianceItemData :=
  [{ shortName := some "C1",
     mappedStandards := ["soc2"],
     mappings := [("soc2", [{ controlId := some "S1", description := some "d1" },
                            { controlId := some "S1", description := some "d2" }])] }]

/-- A duplicate-free variant of `exC4Data` (distinct standard ids). -/
def exC4Data2 : List ComplianceItemData :=
  [{ shortName := some "C1",
     mappedStandards := ["soc2", "cmmc_l1"],
     mappings := [("soc2", [{ controlId := some "S1", description := some "d1" },
                            { controlId := some "S2", description := some "d2" }]),
                  ("cmmc_l1", [{ controlId := some "S3", description := some "d3" }])] }]

/-- One file whose second section's first policy record collides on
`policy_reference` with a row created by the first section, while a
later record (`shortName = "C"`) of the same file is well-formed. -/
def exC6File : SectionFile := ⟨"iso",
  [{ referenceId := "S1", programPolicyMapping := [{ shortName := "A", id := "R" }] },
   { referenceId := "S2", programPolicyMapping := [{ shortName := "B", id := "R" },
                                                   { shortName := "C", id := "R2" }] }]⟩

/-- A database holding one policy titled `T`. -/
def exC7DB : DB := { policies := [{ policy_id := "P", policy_reference := "R", title := "T" }] }

/-- A fetched Eramba clause entry whose single package item references
policy title `T` twice. -/
def exC7Entry : CertEntryData :=
  { name := some "CERT",
    compliance_packages := [{ compliance_package_items :=
        [{ item_id := some "A.1", name := some "Item",
           security_policies := [⟨some "T"⟩, ⟨some "T"⟩] }] }] }

/-- An Eramba security-services payload whose control id collides with
the control created by `exC3File`. -/
def exC9Data : List ServiceItemData :=
  [{ id := some "C-1", name := "Dup of TrustCloud control" },
   { id := some "SVC-9", name := "Fresh control",
     security_policies := [⟨some "Pol T"⟩] }]

/-- An Eramba security-policies payload with one blank-titled record. -/
def exC10Data : List ErambaPolicyItem :=
  [⟨"A", "d", 1, "1"⟩, ⟨"  ", "d", 2, "1"⟩, ⟨"A", "e", 3, "1"⟩]

/-! # Theorems -/

/-! ## Shared facts about the Eramba policy ingestion step -/

theorem er_ref_ne_empty (x v : String) : "ER-" ++ x ++ "-" ++ v ≠ "" := by
  intro h
  have h' := congrArg String.length h
  simp [String.length_append] at h'
  exact absurd h'.1.2 (by decide)

theorem ingestItem_blank (now : Nat) (ps : List PolicyRow) (item : ErambaPolicyItem)
    (ht : pyStrip item.index = "") : ingestItem now ps item = .ok (ps, .skipped) := by
  simp only [ingestItem]
  rw [if_pos (Or.inl ht)]

theorem ingestItem_create (now : Nat) (ps : List PolicyRow) (item : ErambaPolicyItem)
    (ht : pyStrip item.index ≠ "")
    (h : ps.filter (fun p => p.title == pyStrip item.index) = []) :
    ingestItem now ps item = .ok (ps ++
      [{ policy_id := "ER-" ++ toString item.id,
         policy_reference := "ER-" ++ toString item.id ++ "-" ++ item.version,
         policy_version := some item.version, title := pyStrip item.index,
         policy_template := some (pyStrip item.description),
         policy_gathered_from := some "ER", updated_at := now }], .created) := by
  simp only [ingestItem]
  rw [if_neg (by push_neg; exact ⟨ht, er_ref_ne_empty _ _⟩), h]

theorem ingestItem_update (now : Nat) (ps : List PolicyRow) (item : ErambaPolicyItem)
    (p : PolicyRow) (ht : pyStrip item.index ≠ "")
    (h : ps.filter (fun q => q.title == pyStrip item.index) = [p]) :
    ingestItem now ps item = .ok (ps.map (fun q =>
      if q.title == pyStrip item.index
      then { q with policy_template := some (pyStrip item.description), updated_at := now }
      else q), .updated) := by
  simp only [ingestItem]
  rw [if_neg (by push_neg; exact ⟨ht, er_ref_ne_empty _ _⟩), h]

/-- Claim C5: Eramba policy ingestion of a record `{index: t,
description: d, id: n, version: v}` with non-blank (stripped) title `t`
creates, when no policy with title `t` exists, a policy with
`policy_id = "ER-" ++ n` and `policy_reference = "ER-" ++ n ++ "-" ++ v`;
when the policy with title `t` already exists it overwrites only
`policy_template` (with the stripped description) and `updated_at`,
leaving `policy_id`, `policy_reference`, `policy_version`, `title` and
every other field of every row unchanged, and adds no row. -/
theorem C5_eramba_policy_upsert (now : Nat) (ps : List PolicyRow)
    (item : ErambaPolicyItem) (ht : pyStrip item.index ≠ "") :
    (ps.filter (fun p => p.title == pyStrip item.index) = [] →
      ingestItem now ps item = .ok (ps ++
        [{ policy_id := "ER-" ++ toString item.id,
           policy_reference := "ER-" ++ toString item.id ++ "-" ++ item.version,
           policy_version := some item.version, title := pyStrip item.index,
           policy_template := some (pyStrip item.description),
           policy_gathered_from := some "ER", updated_at := now }], .created)) ∧
    (∀ p, ps.filter (fun q => q.title == pyStrip item.index) = [p] →
      ingestItem now ps item = .ok (ps.map (fun q =>
        if q.title == pyStrip item.index
        then { q with policy_template := some (pyStrip item.description), updated_at := now }
        else q), .updated)) :=
  ⟨fun h => ingestItem_create now ps item ht h,
   fun p h => ingestItem_update now ps item p ht h⟩

/-- Witness for C5 at the spec's end-to-end scenario 2 record. -/
theorem C5_witness :
    ingestItem 5 [] ⟨"Access Control Policy", "desc", 7, "2"⟩ =
      .ok ([{ policy_id := "ER-7", policy_reference := "ER-7-2",
              policy_version := some "2", title := "Access Control Policy",
              policy_template := some "desc", policy_gathered_from := some "ER",
              updated_at := 5 }], .created) := by
  have h := (C5_eramba_policy_upsert 5 [] ⟨"Access Control Policy", "desc", 7, "2"⟩
    (by decide)).1 (by decide)
  exact h.trans (by decide)

/-! ## Counting facts for the ingestion loop (C10) -/

theorem filter_length_eq_iff {α : Type} (p : α → Bool) :
    ∀ l : List α, ((l.filter p).length = l.length ↔ ∀ a ∈ l, p a = true)
  | [] => by simp
  | x :: xs => by
    by_cases hx : p x = true
    · simp only [List.filter_cons, hx, if_pos]
      simp only [List.length_cons, Nat.add_right_cancel_iff, List.mem_cons]
      rw [filter_length_eq_iff p xs]
      constructor
      · rintro h a (rfl | ha)
        · exact hx
        · exact h a ha
      · intro h a ha
        exact h a (Or.inr ha)
    · have hfc : List.filter p (x :: xs) = List.filter p xs := by
        simp [List.filter_cons, hx]
      rw [hfc, List.length_cons]
      constructor
      · intro h
        have hle := List.length_filter_le p xs
        omega
      · intro h
        exact absurd (h x (List.mem_cons_self x xs)) hx

theorem pairwise_titles_filter_le (ps : List PolicyRow) (t : String)
    (h : ps.Pairwise (fun p q => p.title ≠ q.title)) :
    (ps.filter (fun p => p.title == t)).length ≤ 1 := by
  induction ps with
  | nil => simp
  | cons p rest ih =>
    have h1 := List.pairwise_cons.mp h
    by_cases hp : p.title == t
    · simp only [List.filter_cons, hp, if_pos, List.length_cons]
      have hnil : rest.filter (fun q => q.title == t) = [] := by
        rw [List.filter_eq_nil_iff]
        intro q hq
        have hne := h1.1 q hq
        simp only [beq_iff_eq] at hp ⊢
        rw [hp] at hne
        simp [Ne.symm hne]
      rw [hnil]
      simp
    · simp only [List.filter_cons, hp]
      exact ih h1.2

theorem title_preserved_by_update (now : Nat) (d : String) (t : String) (q : PolicyRow) :
    (if q.title == t
     then { q with policy_template := some d, updated_at := now } else q).title = q.title := by
  by_cases h : q.title == t <;> simp [h]

/-- Abstract form of the create branch: some row with the stripped
title is appended. -/
theorem ingestItem_create_abs (now : Nat) (ps : List PolicyRow) (item : ErambaPolicyItem)
    (ht : pyStrip item.index ≠ "")
    (h : ps.filter (fun p => p.title == pyStrip item.index) = []) :
    ∃ r : PolicyRow, ingestItem now ps item = .ok (ps ++ [r], .created) ∧
      r.title = pyStrip item.index :=
  ⟨_, ingestItem_create now ps item ht h, rfl⟩

theorem pairwise_titles_append_one (ps : List PolicyRow) (r : PolicyRow)
    (hne : ∀ a ∈ ps, ¬(a.title == r.title))
    (hd : ps.Pairwise (fun p q => p.title ≠ q.title)) :
    (ps ++ [r]).Pairwise (fun p q => p.title ≠ q.title) := by
  rw [List.pairwise_append]
  refine ⟨hd, by simp, ?_⟩
  intro a ha b hb
  simp only [List.mem_singleton] at hb
  subst hb
  have := hne a ha
  simpa using this

theorem ingestLoop_count (now : Nat) :
    ∀ (data : List ErambaPolicyItem) (ps : List PolicyRow) (c u : Nat),
    ps.Pairwise (fun p q => p.title ≠ q.title) →
    ∃ ps' c' u', ingestLoop now data ps c u = .ok (ps', c', u') ∧
      c' + u' = c + u + (data.filter (fun i => !(pyStrip i.index == ""))).length ∧
      ps'.Pairwise (fun p q => p.title ≠ q.title)
  | [], ps, c, u, hd => ⟨ps, c, u, rfl, by simp, hd⟩
  | item :: rest, ps, c, u, hd => by
    by_cases hb : pyStrip item.index = ""
    · have hstep := ingestItem_blank now ps item hb
      obtain ⟨ps', c', u', hrun, hcount, hd'⟩ := ingestLoop_count now rest ps c u hd
      refine ⟨ps', c', u', ?_, ?_, hd'⟩
      · simp only [ingestLoop, hstep]
        exact hrun
      · simp only [List.filter_cons, hb]
        simpa using hcount
    · have hfl := pairwise_titles_filter_le ps (pyStrip item.index) hd
      rcases hmatch : ps.filter (fun p => p.title == pyStrip item.index) with _ | ⟨p, ptail⟩
      · -- create branch
        obtain ⟨r, hstep, hrt⟩ := ingestItem_create_abs now ps item hb hmatch
        have hd2 : (ps ++ [r]).Pairwise (fun p q => p.title ≠ q.title) := by
          refine pairwise_titles_append_one ps r ?_ hd
          intro a ha
          have := List.filter_eq_nil_iff.mp hmatch a ha
          rw [hrt]
          exact this
        obtain ⟨ps', c', u', hrun, hcount, hd'⟩ := ingestLoop_count now rest (ps ++ [r]) (c + 1) u hd2
        refine ⟨ps', c', u', ?_, ?_, hd'⟩
        · simp only [ingestLoop, hstep]
          simpa using hrun
        · rw [hcount]
          have hfc : List.filter (fun i => !(pyStrip i.index == "")) (item :: rest) =
              item :: List.filter (fun i => !(pyStrip i.index == "")) rest := by
            simp [List.filter_cons, hb]
          rw [hfc, List.length_cons]
          omega
      · -- update branch: the filter has length ≤ 1, so the tail is empty
        have htail : ptail = [] := by
          have hlen := hmatch ▸ hfl
          simp only [List.length_cons] at hlen
          exact List.length_eq_zero.mp (by omega)
        subst htail
        have hstep := ingestItem_update now ps item p hb hmatch
        have hd2 : (ps.map (fun q => if q.title == pyStrip item.index
            then { q with policy_template := some (pyStrip item.description), updated_at := now }
            else q)).Pairwise (fun p q => p.title ≠ q.title) := by
          refine List.Pairwise.map _ ?_ hd
          intro a b hab
          rwa [title_preserved_by_update, title_preserved_by_update]
        obtain ⟨ps', c', u', hrun, hcount, hd'⟩ := ingestLoop_count now rest _ c (u + 1) hd2
        refine ⟨ps', c', u', ?_, ?_, hd'⟩
        · simp only [ingestLoop, hstep]
          simpa using hrun
        · rw [hcount]
          have hfc : List.filter (fun i => !(pyStrip i.index == "")) (item :: rest) =
              item :: List.filter (fun i => !(pyStrip i.index == "")) rest := by
            simp [List.filter_cons, hb]
          rw [hfc, List.length_cons]
          omega

/-- Claim C10 (implicit): in Eramba policy ingestion every record whose
`index` strips to the empty string is silently skipped (no create, no
update, no counter), yet still counts toward the reported total
(`len(data)`); hence `created + updated ≤ total`, with equality exactly
when no record's stripped title is blank.  (Stated for policy tables
with pairwise-distinct titles, so that `Policy.objects.get(title=...)`
cannot raise `MultipleObjectsReturned`.) -/
theorem C10_blank_records (now : Nat) (data : List ErambaPolicyItem)
    (ps : List PolicyRow) (hd : ps.Pairwise (fun p q => p.title ≠ q.title)) :
    (∀ (ps₀ : List PolicyRow) (item : ErambaPolicyItem), pyStrip item.index = "" →
      ingestItem now ps₀ item = .ok (ps₀, .skipped)) ∧
    ∃ ps' c u, ingest_policies_from_eramba now data ps = .ok (ps', c, u, data.length) ∧
      c + u ≤ data.length ∧
      (c + u = data.length ↔ ∀ item ∈ data, pyStrip item.index ≠ "") := by
  refine ⟨fun ps₀ item h => ingestItem_blank now ps₀ item h, ?_⟩
  obtain ⟨ps', c', u', hrun, hcount, _⟩ := ingestLoop_count now data ps 0 0 hd
  refine ⟨ps', c', u', ?_, ?_, ?_⟩
  · simp only [ingest_policies_from_eramba, hrun]
  · rw [hcount]
    simpa using List.length_filter_le _ data
  · rw [hcount]
    simp only [Nat.zero_add]
    rw [filter_length_eq_iff]
    constructor
    · intro h item hitem
      have := h item hitem
      simpa using this
    · intro h item hitem
      simpa using h item hitem

/-- Witness for C10: one blank record among three. -/
theorem C10_witness :
    ∃ ps' c u, ingest_policies_from_eramba 0 exC10Data [] = .ok (ps', c, u, exC10Data.length) ∧
      c + u ≤ exC10Data.length ∧
      (c + u = exC10Data.length ↔ ∀ item ∈ exC10Data, pyStrip item.index ≠ "") :=
  (C10_blank_records 0 exC10Data [] (by decide)).2

/-! ## The policy-control replace operation (C1) -/

theorem dedupFirst_mem (y : String) : ∀ l : List String, (y ∈ dedupFirst l ↔ y ∈ l)
  | [] => Iff.rfl
  | x :: xs => by
    simp only [dedupFirst, List.mem_cons]
    constructor
    · rintro (rfl | h)
      · exact Or.inl rfl
      · have := (List.mem_filter.mp h).1
        exact Or.inr ((dedupFirst_mem y xs).mp this)
    · rintro (rfl | h)
      · exact Or.inl rfl
      · by_cases hyx : y = x
        · exact Or.inl hyx
        · refine Or.inr (List.mem_filter.mpr ⟨(dedupFirst_mem y xs).mpr h, ?_⟩)
          simp [hyx]

theorem mem_setPolicyControls_self (db : DB) (pid : String) (matched : List ControlRow)
    (sn : String) :
    ((pid, sn) ∈ (setPolicyControls db pid matched).policyControl) ↔
      sn ∈ matched.map (·.short_name) := by
  simp only [setPolicyControls, List.mem_append, List.mem_filter]
  constructor
  · rintro (⟨_, hne⟩ | h)
    · simp at hne
    · obtain ⟨a, ha, heq⟩ := List.mem_map.mp h
      cases heq
      exact (dedupFirst_mem _ _).mp ha
  · intro h
    exact Or.inr (List.mem_map.mpr ⟨sn, (dedupFirst_mem _ _).mpr h, rfl⟩)

theorem mem_setPolicyControls_other (db : DB) (pid x : String)
    (matched : List ControlRow) (sn : String) (hx : x ≠ pid) :
    ((x, sn) ∈ (setPolicyControls db pid matched).policyControl) ↔
      (x, sn) ∈ db.policyControl := by
  simp only [setPolicyControls, List.mem_append, List.mem_filter]
  constructor
  · rintro (⟨h, _⟩ | h)
    · exact h
    · obtain ⟨a, _, heq⟩ := List.mem_map.mp h
      cases heq
      exact absurd rfl hx
  · intro h
    refine Or.inl ⟨h, by simp [hx]⟩

/-- Claim C1 counterexample: with policy `P1` (reference `R1`)
previously linked to controls `A` and `B`, running
`map_controls_with_policy` on an item whose matched-control set is
empty leaves both prior policy-control edges in place — not the empty
edge set the claim requires. -/
theorem C1_counterexample :
    (map_controls_with_policy exC1DB exC1Data).map (fun r => r.1.policyControl) =
      .ok [("P1", "A"), ("P1", "B")] := by decide

/-- Claim C1 as amended: the TrustCloud mapping pass replaces a
policy's control set only when the matched-control set is non-empty (in
which case the policy's edges become exactly the matched controls and
no other policy's edges change); when the matched set is empty, the
`controls.set` call is skipped and the policy keeps all of its prior
edges (the whole store is untouched by that item). -/
theorem C1_replace_only_when_nonempty (db : DB) (res : MapResult)
    (item : PolicyCaptureItem) (p : PolicyRow) (matched : List ControlRow)
    (missing : List String)
    (hp : lookupPolicyByRef db item.policy = .ok (some p))
    (hm : matchControls db item.control_ids = .ok (matched, missing)) :
    ∃ res' db', processCaptureItem db res item = .ok (db', res') ∧
      (matched = [] → db' = db) ∧
      (matched ≠ [] →
        (∀ sn, ((p.policy_id, sn) ∈ db'.policyControl ↔ sn ∈ matched.map (·.short_name))) ∧
        (∀ x sn, x ≠ p.policy_id →
          ((x, sn) ∈ db'.policyControl ↔ (x, sn) ∈ db.policyControl)) ∧
        db'.policies = db.policies ∧ db'.controls = db.controls) := by
  cases matched with
  | nil =>
      refine ⟨(if missing.isEmpty then res
               else { res with unmatched_controls := res.unmatched_controls
                        ++ [(item.policy, missing)] }),
        db, ?_, fun _ => rfl, fun hne => absurd rfl hne⟩
      simp [processCaptureItem, hp, hm]
  | cons c cs =>
      refine ⟨(if missing.isEmpty
          then { res with linked := res.linked ++ [(item.policy, (c :: cs).map (·.original_id))] }
          else { res with
                   linked := res.linked ++ [(item.policy, (c :: cs).map (·.original_id))],
                   unmatched_controls := res.unmatched_controls ++ [(item.policy, missing)] }),
        setPolicyControls db p.policy_id (c :: cs), ?_, ?_, ?_⟩
      · simp [processCaptureItem, hp, hm]
      · intro h
        exact absurd h (by simp)
      · intro _
        refine ⟨fun sn => mem_setPolicyControls_self db p.policy_id (c :: cs) sn,
                fun x sn hx => mem_setPolicyControls_other db p.policy_id x (c :: cs) sn hx,
                rfl, rfl⟩

/-- Witness for the amended C1: a non-empty matched set replaces the
edge set of `P1` with exactly the matched control. -/
theorem C1_witness :
    ∃ res' db', processCaptureItem exC1DB {} ⟨some "R1", ["OA"], none⟩ = .ok (db', res') ∧
      (([{ short_name := "A", original_id := some "OA" }] : List ControlRow) = [] →
        db' = exC1DB) ∧
      (([{ short_name := "A", original_id := some "OA" }] : List ControlRow) ≠ [] →
        (∀ sn, (("P1", sn) ∈ db'.policyControl ↔
          sn ∈ ([{ short_name := "A", original_id := some "OA" }] : List ControlRow).map
            (·.short_name))) ∧
        (∀ x sn, x ≠ "P1" →
          ((x, sn) ∈ db'.policyControl ↔ (x, sn) ∈ exC1DB.policyControl)) ∧
        db'.policies = exC1DB.policies ∧ db'.controls = exC1DB.controls) :=
  C1_replace_only_when_nonempty exC1DB {} ⟨some "R1", ["OA"], none⟩
    { policy_id := "P1", policy_reference := "R1" }
    [{ short_name := "A", original_id := some "OA" }] [] (by decide) (by decide)

/-! ## Identity resolution of policies (C2) -/

theorem processPolicyMapping_found (ck : String × String) (m : PolicyMappingData)
    (db : DB) (st : Stats) (p : PolicyRow)
    (h : db.policies.find? (fun q => q.policy_id == m.shortName) = some p) :
    (processPolicyMapping ck m (db, st)).1.policies = db.policies := by
  simp only [processPolicyMapping, h]
  split <;> rfl

theorem processPolicyMapping_create (ck : String × String) (m : PolicyMappingData)
    (db : DB) (st : Stats)
    (h : db.policies.find? (fun q => q.policy_id == m.shortName) = none) :
    (processPolicyMapping ck m (db, st)).1.policies = db.policies ++
      [{ policy_id := m.shortName, policy_reference := m.id,
         policy_doc := some m.description, title := m.title,
         policy_gathered_from := some "TC" }] := by
  simp only [processPolicyMapping, h]
  split <;> rfl

theorem lookupPolicyByRef_some (db : DB) (ref : Option String) (p : PolicyRow)
    (h : lookupPolicyByRef db ref = .ok (some p)) :
    p ∈ db.policies ∧ some p.policy_reference = ref := by
  unfold lookupPolicyByRef at h
  rcases hf : db.policies.filter (fun q => some q.policy_reference == ref) with _ | ⟨q, tail⟩
  · rw [hf] at h
    cases h
  · rw [hf] at h
    cases tail with
    | nil =>
        simp only [Except.ok.injEq, Option.some.injEq] at h
        subst h
        have hq : q ∈ db.policies.filter (fun q => some q.policy_reference == ref) := by
          rw [hf]; exact List.mem_singleton_self q
        have := List.mem_filter.mp hq
        exact ⟨this.1, by simpa using this.2⟩
    | cons _ _ => cases h

/-- Claim C2 counterexample: with one stored policy
(`policy_id = "S"`, `policy_reference = "R1"`), ingesting a section
record carrying `shortName = "S"` and `id = "R2"` resolves to that row
and creates nothing, linking the clause to policy `S` — even though no
stored row matches the record's `id` `R2` on `policy_reference`.  Had
the section pass looked the record up by `policy_reference` as the
claim states, the lookup would have missed and the pass would have
created a row carrying reference `R2`; instead the table keeps its
single row, the create counter stays 0, and no row with reference
`R2` exists. -/
theorem C2_counterexample :
    (populate_database [exC2File] exC2DB).1.policies.length = 1 ∧
    (populate_database [exC2File] exC2DB).2.policies = 0 ∧
    (populate_database [exC2File] exC2DB).1.policies.filter
      (fun q => q.policy_reference == "R2") = [] ∧
    (("ISO", "A.1"), "S") ∈ (populate_database [exC2File] exC2DB).1.policyClause := by
  decide

/-- Claim C2 as amended: records resolve to policies by
source-specific keys, but the TrustCloud *section-ingestion* pass keys
each policy-mapping record on `policy_id` (the record's `shortName`),
not on `policy_reference`; it is the TrustCloud *policy-to-control
mapping* pass that keys on `policy_reference`; Eramba records resolve
by exact match on `title`. -/
theorem C2_policy_identity_keys :
    (∀ (ck : String × String) (m : PolicyMappingData) (db : DB) (st : Stats) (p : PolicyRow),
      db.policies.find? (fun q => q.policy_id == m.shortName) = some p →
      (processPolicyMapping ck m (db, st)).1.policies = db.policies) ∧
    (∀ (ck : String × String) (m : PolicyMappingData) (db : DB) (st : Stats),
      db.policies.find? (fun q => q.policy_id == m.shortName) = none →
      (processPolicyMapping ck m (db, st)).1.policies = db.policies ++
        [{ policy_id := m.shortName, policy_reference := m.id,
           policy_doc := some m.description, title := m.title,
           policy_gathered_from := some "TC" }]) ∧
    (∀ (db : DB) (ref : Option String) (p : PolicyRow),
      lookupPolicyByRef db ref = .ok (some p) →
      p ∈ db.policies ∧ some p.policy_reference = ref) ∧
    (∀ (db : DB) (ref : Option String),
      db.policies.filter (fun q => some q.policy_reference == ref) = [] →
      lookupPolicyByRef db ref = .ok none) ∧
    (∀ (now : Nat) (ps : List PolicyRow) (item : ErambaPolicyItem) (p : PolicyRow),
      pyStrip item.index ≠ "" →
      ps.filter (fun q => q.title == pyStrip item.index) = [p] →
      ingestItem now ps item = .ok (ps.map (fun q =>
        if q.title == pyStrip item.index
        then { q with policy_template := some (pyStrip item.description), updated_at := now }
        else q), .updated)) ∧
    (∀ (now : Nat) (ps : List PolicyRow) (item : ErambaPolicyItem),
      pyStrip item.index ≠ "" →
      ps.filter (fun q => q.title == pyStrip item.index) = [] →
      ∃ r : PolicyRow, ingestItem now ps item = .ok (ps ++ [r], .created) ∧
        r.title = pyStrip item.index) := by
  refine ⟨processPolicyMapping_found, processPolicyMapping_create, lookupPolicyByRef_some,
    ?_, ?_, ?_⟩
  · intro db ref h
    unfold lookupPolicyByRef
    rw [h]
  · intro now ps item p ht h
    exact ingestItem_update now ps item p ht h
  · intro now ps item ht h
    exact ingestItem_create_abs now ps item ht h

/-- Witness for the amended C2: the section pass resolves a record with
`shortName = "S"` against the stored policy whose `policy_id` is `S`
(and whose reference differs from the record's `id`), creating
nothing. -/
theorem C2_witness :
    (processPolicyMapping ("ISO", "A.1") { shortName := "S", id := "RR" }
      (exC2DB, {})).1.policies = exC2DB.policies :=
  C2_policy_identity_keys.1 ("ISO", "A.1") { shortName := "S", id := "RR" } exC2DB {}
    { policy_id := "S", policy_reference := "R1" } (by decide)

/-! ## Idempotence of the section pass (C3): monotonicity -/

theorem DBLe_refl (db : DB) : DBLe db db :=
  ⟨fun _ h => h, fun _ h => h, fun _ h => h, fun _ h => h, fun _ h => h, fun _ h => h,
   fun _ h => h⟩

theorem DBLe_trans {d1 d3 : DB} (d2 : DB) (h1 : DBLe d1 d2) (h2 : DBLe d2 d3) : DBLe d1 d3 :=
  ⟨fun _ h => h2.1 (h1.1 h),
   fun _ h => h2.2.1 (h1.2.1 h),
   fun _ h => h2.2.2.1 (h1.2.2.1 h),
   fun _ h => h2.2.2.2.1 (h1.2.2.2.1 h),
   fun _ h => h2.2.2.2.2.1 (h1.2.2.2.2.1 h),
   fun _ h => h2.2.2.2.2.2.1 (h1.2.2.2.2.2.1 h),
   fun _ h => h2.2.2.2.2.2.2 (h1.2.2.2.2.2.2 h)⟩

theorem processPolicyMapping_le (ck : String × String) (m : PolicyMappingData)
    (a : DB × Stats) : DBLe a.1 (processPolicyMapping ck m a).1 := by
  obtain ⟨db, st⟩ := a
  simp only [processPolicyMapping]
  cases db.policies.find? (fun q => q.policy_id == m.shortName) <;> split <;>
    refine ⟨?_, ?_, ?_, ?_, ?_, ?_, ?_⟩ <;>
    first
      | exact fun _ h => h
      | exact fun x h => List.mem_append_left _ h

theorem processControlMapping_le (ck : String × String) (cm : ControlMappingData)
    (a : DB × Stats) : DBLe a.1 (processControlMapping ck cm a).1 := by
  obtain ⟨db, st⟩ := a
  simp only [processControlMapping]
  cases db.controls.find? (fun c => c.short_name == cm.shortName) <;> split <;>
    refine ⟨?_, ?_, ?_, ?_, ?_, ?_, ?_⟩ <;>
    first
      | exact fun _ h => h
      | exact fun x h => List.mem_append_left _ h

theorem foldl_DBLe {β : Type} (f : DB × Stats → β → DB × Stats)
    (hf : ∀ a x, DBLe a.1 (f a x).1) :
    ∀ (l : List β) (a : DB × Stats), DBLe a.1 (l.foldl f a).1
  | [], a => DBLe_refl a.1
  | x :: xs, a => DBLe_trans _ (hf a x) (foldl_DBLe f hf xs (f a x))

theorem processSection_le (certN : String) (s : SectionData) (a : DB × Stats) :
    DBLe a.1 (processSection certN s a).1 := by
  obtain ⟨db, st⟩ := a
  have hfold : ∀ (b : DB × Stats), DBLe b.1 ((s.subsections.foldl
      (fun a sub => sub.programControlMapping.foldl
        (fun a cm => processControlMapping (certN, s.referenceId) cm a) a)
      (s.programPolicyMapping.foldl
        (fun a m => processPolicyMapping (certN, s.referenceId) m a) b))).1 := by
    intro b
    exact DBLe_trans _
      (foldl_DBLe _ (fun a m => processPolicyMapping_le (certN, s.referenceId) m a)
        s.programPolicyMapping b)
      (foldl_DBLe _ (fun a sub => foldl_DBLe _
          (fun a cm => processControlMapping_le (certN, s.referenceId) cm a)
          sub.programControlMapping a) s.subsections _)
  simp only [processSection]
  cases hf : db.clauses.find?
      (fun c => c.certification == certN && c.reference_id == s.referenceId) with
  | some c => exact hfold (db, st)
  | none =>
      exact DBLe_trans ({ db with clauses := db.clauses ++
          [{ certification := certN, reference_id := s.referenceId,
             display_identifier := s.displayIdentifier, title := s.title,
             description := s.description, original_id := some s.id }] })
        ⟨fun _ h => h, fun _ h => List.mem_append_left _ h, fun _ h => h, fun _ h => h,
         fun _ h => h, fun _ h => h, fun _ h => h⟩
        (hfold ({ db with clauses := db.clauses ++
            [{ certification := certN, reference_id := s.referenceId,
               display_identifier := s.displayIdentifier, title := s.title,
               description := s.description, original_id := some s.id }] },
          { st with clauses := st.clauses + 1 }))

theorem processFile_le (a : DB × Stats) (f : SectionFile) :
    DBLe a.1 (processFile a f).1 := by
  obtain ⟨db, st⟩ := a
  simp only [processFile, getOrCreateCert]
  cases hf : db.certifications.find? (fun c => c.name == certDisplayName f.stem) with
  | some c =>
      exact foldl_DBLe _ (fun a s => processSection_le (certDisplayName f.stem) s a)
        f.sections (db, { st with files_processed := st.files_processed + 1 })
  | none =>
      exact DBLe_trans ({ db with certifications := db.certifications ++
          [{ name := certDisplayName f.stem, slug := slugifyModel (certDisplayName f.stem) }] })
        ⟨fun _ h => List.mem_append_left _ h, fun _ h => h, fun _ h => h, fun _ h => h,
         fun _ h => h, fun _ h => h, fun _ h => h⟩
        (foldl_DBLe _ (fun a s => processSection_le (certDisplayName f.stem) s a) f.sections
          ({ db with certifications := db.certifications ++
              [{ name := certDisplayName f.stem,
                 slug := slugifyModel (certDisplayName f.stem) }] },
            { st with files_processed := st.files_processed + 1,
                      certifications := st.certifications + 1 }))

/-! ## Idempotence of the section pass (C3): preservation and
establishment -/

theorem PolicyDone_mono {d1 d2 : DB} (h : DBLe d1 d2) (ck : String × String)
    (m : PolicyMappingData) : PolicyDone d1 ck m → PolicyDone d2 ck m :=
  fun ⟨⟨p, hp, he⟩, hedge⟩ => ⟨⟨p, h.2.2.1 hp, he⟩, h.2.2.2.2.1 hedge⟩

theorem ControlDone_mono {d1 d2 : DB} (h : DBLe d1 d2) (ck : String × String)
    (cm : ControlMappingData) : ControlDone d1 ck cm → ControlDone d2 ck cm :=
  fun ⟨⟨c, hc, he⟩, hedge⟩ => ⟨⟨c, h.2.2.2.1 hc, he⟩, h.2.2.2.2.2.1 hedge⟩

theorem ClausePresent_mono {d1 d2 : DB} (h : DBLe d1 d2) (certN refId : String) :
    ClausePresent d1 certN refId → ClausePresent d2 certN refId :=
  fun ⟨c, hc, he⟩ => ⟨c, h.2.1 hc, he⟩

theorem SectionDone_mono {d1 d2 : DB} (h : DBLe d1 d2) (certN : String) (s : SectionData) :
    SectionDone d1 certN s → SectionDone d2 certN s :=
  fun ⟨hcl, hpol, hctl⟩ =>
    ⟨ClausePresent_mono h certN s.referenceId hcl,
     fun m hm => PolicyDone_mono h _ m (hpol m hm),
     fun sub hsub cm hcm => ControlDone_mono h _ cm (hctl sub hsub cm hcm)⟩

theorem FileDone_mono {d1 d2 : DB} (h : DBLe d1 d2) (f : SectionFile) :
    FileDone d1 f → FileDone d2 f :=
  fun ⟨⟨c, hc, he⟩, hs⟩ =>
    ⟨⟨c, h.1 hc, he⟩, fun s hsm => SectionDone_mono h _ s (hs s hsm)⟩

theorem processPolicyMapping_establishes (ck : String × String) (m : PolicyMappingData)
    (a : DB × Stats) : PolicyDone (processPolicyMapping ck m a).1 ck m := by
  obtain ⟨db, st⟩ := a
  simp only [processPolicyMapping]
  cases hf : db.policies.find? (fun q => q.policy_id == m.shortName) with
  | some p =>
      have hp : p ∈ db.policies := List.mem_of_find?_eq_some hf
      have hpid : p.policy_id = m.shortName := by
        have := List.find?_some hf
        simpa using this
      split
      · next hmem => exact ⟨⟨p, hp, hpid⟩, hmem⟩
      · exact ⟨⟨p, hp, hpid⟩, by simp⟩
  | none =>
      split
      · next hmem =>
          exact ⟨⟨_, List.mem_append_right _ (List.mem_singleton_self _), rfl⟩, hmem⟩
      · exact ⟨⟨_, List.mem_append_right _ (List.mem_singleton_self _), rfl⟩, by simp⟩

theorem processControlMapping_establishes (ck : String × String) (cm : ControlMappingData)
    (a : DB × Stats) : ControlDone (processControlMapping ck cm a).1 ck cm := by
  obtain ⟨db, st⟩ := a
  simp only [processControlMapping]
  cases hf : db.controls.find? (fun c => c.short_name == cm.shortName) with
  | some c =>
      have hc : c ∈ db.controls := List.mem_of_find?_eq_some hf
      have hcid : c.short_name = cm.shortName := by
        have := List.find?_some hf
        simpa using this
      split
      · next hmem => exact ⟨⟨c, hc, hcid⟩, hmem⟩
      · exact ⟨⟨c, hc, hcid⟩, by simp⟩
  | none =>
      split
      · next hmem =>
          exact ⟨⟨_, List.mem_append_right _ (List.mem_singleton_self _), rfl⟩, hmem⟩
      · exact ⟨⟨_, List.mem_append_right _ (List.mem_singleton_self _), rfl⟩, by simp⟩

theorem foldPolicies_establishes (ck : String × String) :
    ∀ (ms : List PolicyMappingData) (a : DB × Stats) (m : PolicyMappingData), m ∈ ms →
      PolicyDone ((ms.foldl (fun a m => processPolicyMapping ck m a) a)).1 ck m
  | [], _, m, hm => absurd hm (List.not_mem_nil m)
  | m' :: rest, a, m, hm => by
    rcases List.mem_cons.mp hm with rfl | hm'
    · simp only [List.foldl_cons]
      exact PolicyDone_mono
        (foldl_DBLe _ (fun a x => processPolicyMapping_le ck x a) rest _) ck m
        (processPolicyMapping_establishes ck m a)
    · simp only [List.foldl_cons]
      exact foldPolicies_establishes ck rest (processPolicyMapping ck m' a) m hm'

theorem foldControls_establishes (ck : String × String) :
    ∀ (cms : List ControlMappingData) (a : DB × Stats) (cm : ControlMappingData), cm ∈ cms →
      ControlDone ((cms.foldl (fun a cm => processControlMapping ck cm a) a)).1 ck cm
  | [], _, cm, hm => absurd hm (List.not_mem_nil cm)
  | cm' :: rest, a, cm, hm => by
    rcases List.mem_cons.mp hm with rfl | hm'
    · simp only [List.foldl_cons]
      exact ControlDone_mono
        (foldl_DBLe _ (fun a x => processControlMapping_le ck x a) rest _) ck cm
        (processControlMapping_establishes ck cm a)
    · simp only [List.foldl_cons]
      exact foldControls_establishes ck rest (processControlMapping ck cm' a) cm hm'

theorem foldSubs_establishes (ck : String × String) :
    ∀ (subs : List SubsectionData) (a : DB × Stats) (sub : SubsectionData), sub ∈ subs →
      ∀ cm ∈ sub.programControlMapping,
      ControlDone ((subs.foldl (fun a sub => sub.programControlMapping.foldl
        (fun a cm => processControlMapping ck cm a) a) a)).1 ck cm
  | [], _, sub, hsub => absurd hsub (List.not_mem_nil sub)
  | sub' :: rest, a, sub, hsub => by
    rcases List.mem_cons.mp hsub with rfl | hsub'
    · intro cm hcm
      simp only [List.foldl_cons]
      refine ControlDone_mono (foldl_DBLe _ (fun a x => foldl_DBLe _
          (fun a cm => processControlMapping_le ck cm a) x.programControlMapping a) rest _)
        ck cm ?_
      exact foldControls_establishes ck sub.programControlMapping a cm hcm
    · intro cm hcm
      simp only [List.foldl_cons]
      exact foldSubs_establishes ck rest _ sub hsub' cm hcm

theorem processSection_establishes (certN : String) (s : SectionData) (a : DB × Stats) :
    SectionDone (processSection certN s a).1 certN s := by
  obtain ⟨db, st⟩ := a
  have hfoldle : ∀ (b : DB × Stats), DBLe b.1 ((s.subsections.foldl
      (fun a sub => sub.programControlMapping.foldl
        (fun a cm => processControlMapping (certN, s.referenceId) cm a) a) b)).1 :=
    fun b => foldl_DBLe _ (fun a sub => foldl_DBLe _
      (fun a cm => processControlMapping_le (certN, s.referenceId) cm a)
      sub.programControlMapping a) s.subsections b
  simp only [processSection]
  cases hf : db.clauses.find?
      (fun c => c.certification == certN && c.reference_id == s.referenceId) with
  | some c =>
      have hc : c ∈ db.clauses := List.mem_of_find?_eq_some hf
      have hcp : c.certification = certN ∧ c.reference_id = s.referenceId := by
        have := List.find?_some hf
        simp only [Bool.and_eq_true, beq_iff_eq] at this
        exact this
      refine ⟨?_, ?_, ?_⟩
      · exact ClausePresent_mono (DBLe_trans _
          (foldl_DBLe _ (fun a m => processPolicyMapping_le (certN, s.referenceId) m a)
            s.programPolicyMapping (db, st)) (hfoldle _)) certN s.referenceId
          ⟨c, hc, hcp.1, hcp.2⟩
      · intro m hm
        exact PolicyDone_mono (hfoldle _) _ m
          (foldPolicies_establishes (certN, s.referenceId) s.programPolicyMapping (db, st) m hm)
      · intro sub hsub cm hcm
        exact foldSubs_establishes (certN, s.referenceId) s.subsections _ sub hsub cm hcm
  | none =>
      refine ⟨?_, ?_, ?_⟩
      · refine ClausePresent_mono (DBLe_trans _
          (foldl_DBLe _ (fun a m => processPolicyMapping_le (certN, s.referenceId) m a)
            s.programPolicyMapping ({ db with clauses := db.clauses ++
              [{ certification := certN, reference_id := s.referenceId,
                 display_identifier := s.displayIdentifier, title := s.title,
                 description := s.description, original_id := some s.id }] },
              { st with clauses := st.clauses + 1 })) (hfoldle _)) certN s.referenceId
          ⟨_, List.mem_append_right _ (List.mem_singleton_self _), rfl, rfl⟩
      · intro m hm
        exact PolicyDone_mono (hfoldle _) _ m
          (foldPolicies_establishes (certN, s.referenceId) s.programPolicyMapping
            ({ db with clauses := db.clauses ++
              [{ certification := certN, reference_id := s.referenceId,
                 display_identifier := s.displayIdentifier, title := s.title,
                 description := s.description, original_id := some s.id }] },
              { st with clauses := st.clauses + 1 }) m hm)
      · intro sub hsub cm hcm
        exact foldSubs_establishes (certN, s.referenceId) s.subsections _ sub hsub cm hcm

theorem foldSections_establishes (certN : String) :
    ∀ (ss : List SectionData) (a : DB × Stats) (s : SectionData), s ∈ ss →
      SectionDone ((ss.foldl (fun a s => processSection certN s a) a)).1 certN s
  | [], _, s, hs => absurd hs (List.not_mem_nil s)
  | s' :: rest, a, s, hs => by
    rcases List.mem_cons.mp hs with rfl | hs'
    · simp only [List.foldl_cons]
      exact SectionDone_mono (foldl_DBLe _ (fun a x => processSection_le certN x a) rest _)
        certN s (processSection_establishes certN s a)
    · simp only [List.foldl_cons]
      exact foldSections_establishes certN rest _ s hs'

theorem processFile_establishes (a : DB × Stats) (f : SectionFile) :
    FileDone (processFile a f).1 f := by
  obtain ⟨db, st⟩ := a
  simp only [processFile, getOrCreateCert]
  cases hf : db.certifications.find? (fun c => c.name == certDisplayName f.stem) with
  | some c =>
      have hc : c ∈ db.certifications := List.mem_of_find?_eq_some hf
      have hcn : c.name = certDisplayName f.stem := by simpa using List.find?_some hf
      refine ⟨⟨c, ?_, hcn⟩, ?_⟩
      · exact (foldl_DBLe _ (fun a s => processSection_le (certDisplayName f.stem) s a)
          f.sections (db, { st with files_processed := st.files_processed + 1 })).1 hc
      · intro s hs
        exact foldSections_establishes (certDisplayName f.stem) f.sections _ s hs
  | none =>
      refine ⟨⟨{ name := certDisplayName f.stem,
                 slug := slugifyModel (certDisplayName f.stem) }, ?_, rfl⟩, ?_⟩
      · refine (foldl_DBLe _ (fun a s => processSection_le (certDisplayName f.stem) s a)
          f.sections ({ db with certifications := db.certifications ++
              [{ name := certDisplayName f.stem,
                 slug := slugifyModel (certDisplayName f.stem) }] },
            { st with files_processed := st.files_processed + 1,
                      certifications := st.certifications + 1 })).1 ?_
        exact List.mem_append_right _ (List.mem_singleton_self _)
      · intro s hs
        exact foldSections_establishes (certDisplayName f.stem) f.sections _ s hs

theorem populate_establishes :
    ∀ (files : List SectionFile) (a : DB × Stats) (f : SectionFile), f ∈ files →
      FileDone ((files.foldl processFile a)).1 f
  | [], _, f, hf => absurd hf (List.not_mem_nil f)
  | f' :: rest, a, f, hf => by
    rcases List.mem_cons.mp hf with rfl | hf'
    · simp only [List.foldl_cons]
      exact FileDone_mono (foldl_DBLe _ processFile_le rest _) f (processFile_establishes a f)
    · simp only [List.foldl_cons]
      exact populate_establishes rest _ f hf'

/-! ## Idempotence of the section pass (C3): second-run no-ops -/

theorem processPolicyMapping_noop (ck : String × String) (m : PolicyMappingData)
    (db : DB) (st : Stats) (h : PolicyDone db ck m) :
    processPolicyMapping ck m (db, st) = (db, st) := by
  obtain ⟨⟨p, hp, hpid⟩, hedge⟩ := h
  have hf : (db.policies.find? (fun q => q.policy_id == m.shortName)).isSome := by
    rw [List.find?_isSome]
    exact ⟨p, hp, by simp [hpid]⟩
  obtain ⟨q, hq⟩ := Option.isSome_iff_exists.mp hf
  simp only [processPolicyMapping, hq]
  rw [if_pos hedge]

theorem processControlMapping_noop (ck : String × String) (cm : ControlMappingData)
    (db : DB) (st : Stats) (h : ControlDone db ck cm) :
    processControlMapping ck cm (db, st) = (db, st) := by
  obtain ⟨⟨c, hc, hcid⟩, hedge⟩ := h
  have hf : (db.controls.find? (fun q => q.short_name == cm.shortName)).isSome := by
    rw [List.find?_isSome]
    exact ⟨c, hc, by simp [hcid]⟩
  obtain ⟨q, hq⟩ := Option.isSome_iff_exists.mp hf
  simp only [processControlMapping, hq]
  rw [if_pos hedge]

theorem foldPolicies_noop (ck : String × String) :
    ∀ (ms : List PolicyMappingData) (db : DB) (st : Stats),
      (∀ m ∈ ms, PolicyDone db ck m) →
      ms.foldl (fun a m => processPolicyMapping ck m a) (db, st) = (db, st)
  | [], _, _, _ => rfl
  | m :: rest, db, st, h => by
    simp only [List.foldl_cons,
      processPolicyMapping_noop ck m db st (h m (List.mem_cons_self m rest))]
    exact foldPolicies_noop ck rest db st (fun x hx => h x (List.mem_cons_of_mem m hx))

theorem foldControls_noop (ck : String × String) :
    ∀ (cms : List ControlMappingData) (db : DB) (st : Stats),
      (∀ cm ∈ cms, ControlDone db ck cm) →
      cms.foldl (fun a cm => processControlMapping ck cm a) (db, st) = (db, st)
  | [], _, _, _ => rfl
  | cm :: rest, db, st, h => by
    simp only [List.foldl_cons,
      processControlMapping_noop ck cm db st (h cm (List.mem_cons_self cm rest))]
    exact foldControls_noop ck rest db st (fun x hx => h x (List.mem_cons_of_mem cm hx))

theorem foldSubs_noop (ck : String × String) :
    ∀ (subs : List SubsectionData) (db : DB) (st : Stats),
      (∀ sub ∈ subs, ∀ cm ∈ sub.programControlMapping, ControlDone db ck cm) →
      subs.foldl (fun a sub => sub.programControlMapping.foldl
        (fun a cm => processControlMapping ck cm a) a) (db, st) = (db, st)
  | [], _, _, _ => rfl
  | sub :: rest, db, st, h => by
    simp only [List.foldl_cons,
      foldControls_noop ck sub.programControlMapping db st
        (h sub (List.mem_cons_self sub rest))]
    exact foldSubs_noop ck rest db st (fun x hx => h x (List.mem_cons_of_mem sub hx))

theorem processSection_noop (certN : String) (s : SectionData) (db : DB) (st : Stats)
    (h : SectionDone db certN s) : processSection certN s (db, st) = (db, st) := by
  obtain ⟨⟨c, hc, hcert, href⟩, hpol, hctl⟩ := h
  have hf : (db.clauses.find?
      (fun c => c.certification == certN && c.reference_id == s.referenceId)).isSome := by
    rw [List.find?_isSome]
    exact ⟨c, hc, by simp [hcert, href]⟩
  obtain ⟨q, hq⟩ := Option.isSome_iff_exists.mp hf
  simp only [processSection, hq]
  rw [foldPolicies_noop (certN, s.referenceId) s.programPolicyMapping db st hpol]
  exact foldSubs_noop (certN, s.referenceId) s.subsections db st hctl

theorem processFile_noop (db : DB) (st : Stats) (f : SectionFile) (h : FileDone db f) :
    processFile (db, st) f =
      (db, { st with files_processed := st.files_processed + 1 }) := by
  obtain ⟨⟨c, hc, hcn⟩, hs⟩ := h
  have hf : (db.certifications.find? (fun x => x.name == certDisplayName f.stem)).isSome := by
    rw [List.find?_isSome]
    exact ⟨c, hc, by simp [hcn]⟩
  obtain ⟨q, hq⟩ := Option.isSome_iff_exists.mp hf
  simp only [processFile, getOrCreateCert, hq]
  have : ∀ (ss : List SectionData), (∀ s ∈ ss, SectionDone db (certDisplayName f.stem) s) →
      ss.foldl (fun a s => processSection (certDisplayName f.stem) s a)
        (db, { st with files_processed := st.files_processed + 1 }) =
        (db, { st with files_processed := st.files_processed + 1 }) := by
    intro ss
    induction ss with
    | nil => intro _; rfl
    | cons s rest ih =>
        intro hss
        simp only [List.foldl_cons,
          processSection_noop (certDisplayName f.stem) s db _
            (hss s (List.mem_cons_self s rest))]
        exact ih (fun x hx => hss x (List.mem_cons_of_mem s hx))
  exact this f.sections hs

theorem populate_noop :
    ∀ (files : List SectionFile) (db : DB) (st : Stats),
      (∀ f ∈ files, FileDone db f) →
      files.foldl processFile (db, st) =
        (db, { st with files_processed := st.files_processed + files.length })
  | [], db, st, _ => by simp
  | f :: rest, db, st, h => by
    simp only [List.foldl_cons, processFile_noop db st f (h f (List.mem_cons_self f rest))]
    rw [populate_noop rest db _ (fun x hx => h x (List.mem_cons_of_mem f hx))]
    show (db, { st with files_processed := st.files_processed + 1 + rest.length }) =
      (db, { st with files_processed := st.files_processed + (f :: rest).length })
    have harith : st.files_processed + 1 + rest.length =
        st.files_processed + (f :: rest).length := by
      simp only [List.length_cons]
      omega
    rw [harith]

/-- Claim C3: the section-based ingestion pass is idempotent.  For every
input file set and starting store, running `populate_database` a second
time immediately after a first run leaves the store exactly as the
first run left it (so no Certification, Clause, Policy or Control row
is added and no existing row changes), and the second run's stats
report zero created entities, zero new policy-clause and control-clause
edges, and no errors — only `files_processed` advances. -/
theorem C3_section_pass_idempotent (files : List SectionFile) (db0 : DB) :
    populate_database files (populate_database files db0).1 =
      ((populate_database files db0).1,
       { files_processed := files.length }) := by
  have hdone : ∀ f ∈ files, FileDone (populate_database files db0).1 f :=
    fun f hf => populate_establishes files (db0, {}) f hf
  have h := populate_noop files (populate_database files db0).1 {} hdone
  simpa [populate_database] using h

/-- Witness exercising C3 on a one-file input (end-to-end scenario 1
shape): the second run returns the first run's store unchanged with
only `files_processed` set. -/
theorem C3_witness :
    populate_database [exC3File] (populate_database [exC3File] {}).1 =
      ((populate_database [exC3File] {}).1, { files_processed := 1 }) :=
  C3_section_pass_idempotent [exC3File] {}

/-! ## Error handling of the section pass (C6) -/

theorem processPolicyMappingE_frame (ck : String × String) (m : PolicyMappingData)
    (a : DB × Stats) :
    (processPolicyMappingE ck m a).state.2.files_processed = a.2.files_processed ∧
    (processPolicyMappingE ck m a).state.2.errors = a.2.errors := by
  obtain ⟨db, st⟩ := a
  refine ⟨?_, ?_⟩ <;> (simp only [processPolicyMappingE]; repeat' split) <;> rfl

theorem processControlMapping_frame (ck : String × String) (cm : ControlMappingData)
    (a : DB × Stats) :
    (processControlMapping ck cm a).2.files_processed = a.2.files_processed ∧
    (processControlMapping ck cm a).2.errors = a.2.errors := by
  obtain ⟨db, st⟩ := a
  refine ⟨?_, ?_⟩ <;> (simp only [processControlMapping]; repeat' split) <;> rfl

theorem foldControls_frame (ck : String × String) :
    ∀ (cms : List ControlMappingData) (a : DB × Stats),
    ((cms.foldl (fun a cm => processControlMapping ck cm a) a)).2.files_processed =
      a.2.files_processed ∧
    ((cms.foldl (fun a cm => processControlMapping ck cm a) a)).2.errors = a.2.errors
  | [], a => ⟨rfl, rfl⟩
  | cm :: rest, a => by
    simp only [List.foldl_cons]
    have h1 := processControlMapping_frame ck cm a
    have h2 := foldControls_frame ck rest (processControlMapping ck cm a)
    exact ⟨h2.1.trans h1.1, h2.2.trans h1.2⟩

theorem foldSubs_frame (ck : String × String) :
    ∀ (subs : List SubsectionData) (a : DB × Stats),
    ((subs.foldl (fun a sub => sub.programControlMapping.foldl
        (fun a cm => processControlMapping ck cm a) a) a)).2.files_processed =
      a.2.files_processed ∧
    ((subs.foldl (fun a sub => sub.programControlMapping.foldl
        (fun a cm => processControlMapping ck cm a) a) a)).2.errors = a.2.errors
  | [], a => ⟨rfl, rfl⟩
  | sub :: rest, a => by
    simp only [List.foldl_cons]
    have h1 := foldControls_frame ck sub.programControlMapping a
    have h2 := foldSubs_frame ck rest
      (sub.programControlMapping.foldl (fun a cm => processControlMapping ck cm a) a)
    exact ⟨h2.1.trans h1.1, h2.2.trans h1.2⟩

theorem foldPoliciesE_frame (ck : String × String) :
    ∀ (ms : List PolicyMappingData) (a : DB × Stats),
    (foldPoliciesE ck ms a).state.2.files_processed = a.2.files_processed ∧
    (foldPoliciesE ck ms a).state.2.errors = a.2.errors
  | [], a => ⟨rfl, rfl⟩
  | m :: rest, a => by
    have h1 := processPolicyMappingE_frame ck m a
    simp only [foldPoliciesE]
    cases hstep : processPolicyMappingE ck m a with
    | ok a' =>
        have h2 := foldPoliciesE_frame ck rest a'
        rw [hstep] at h1
        exact ⟨h2.1.trans h1.1, h2.2.trans h1.2⟩
    | err a' e =>
        rw [hstep] at h1
        exact h1

theorem processSectionE_frame (certN : String) (s : SectionData) (a : DB × Stats) :
    (processSectionE certN s a).state.2.files_processed = a.2.files_processed ∧
    (processSectionE certN s a).state.2.errors = a.2.errors := by
  obtain ⟨db, st⟩ := a
  simp only [processSectionE]
  cases hcl : db.clauses.find?
      (fun c => c.certification == certN && c.reference_id == s.referenceId) with
  | some c =>
      have h1 := foldPoliciesE_frame (certN, s.referenceId) s.programPolicyMapping (db, st)
      cases hfold : foldPoliciesE (certN, s.referenceId) s.programPolicyMapping (db, st) with
      | ok a' =>
          rw [hfold] at h1
          have h2 := foldSubs_frame (certN, s.referenceId) s.subsections a'
          exact ⟨h2.1.trans h1.1, h2.2.trans h1.2⟩
      | err a' e =>
          rw [hfold] at h1
          exact h1
  | none =>
      have h1 := foldPoliciesE_frame (certN, s.referenceId) s.programPolicyMapping
        ({ db with clauses := db.clauses ++
            [{ certification := certN, reference_id := s.referenceId,
               display_identifier := s.displayIdentifier, title := s.title,
               description := s.description, original_id := some s.id }] },
          { st with clauses := st.clauses + 1 })
      cases hfold : foldPoliciesE (certN, s.referenceId) s.programPolicyMapping
          ({ db with clauses := db.clauses ++
              [{ certification := certN, reference_id := s.referenceId,
                 display_identifier := s.displayIdentifier, title := s.title,
                 description := s.description, original_id := some s.id }] },
            { st with clauses := st.clauses + 1 }) with
      | ok a' =>
          rw [hfold] at h1
          have h2 := foldSubs_frame (certN, s.referenceId) s.subsections a'
          exact ⟨h2.1.trans h1.1, h2.2.trans h1.2⟩
      | err a' e =>
          rw [hfold] at h1
          exact h1

theorem foldSectionsE_frame (certN : String) :
    ∀ (ss : List SectionData) (a : DB × Stats),
    (foldSectionsE certN ss a).state.2.files_processed = a.2.files_processed ∧
    (foldSectionsE certN ss a).state.2.errors = a.2.errors
  | [], a => ⟨rfl, rfl⟩
  | s :: rest, a => by
    have h1 := processSectionE_frame certN s a
    simp only [foldSectionsE]
    cases hstep : processSectionE certN s a with
    | ok a' =>
        have h2 := foldSectionsE_frame certN rest a'
        rw [hstep] at h1
        exact ⟨h2.1.trans h1.1, h2.2.trans h1.2⟩
    | err a' e =>
        rw [hstep] at h1
        exact h1

theorem processFileE_frame (a : DB × Stats) (f : SectionFile) :
    (processFileE a f).2.files_processed = a.2.files_processed + 1 ∧
    ∃ tail, (processFileE a f).2.errors = a.2.errors ++ tail ∧
      ∀ e ∈ tail, e.1 = f.stem ++ ".json" := by
  obtain ⟨db, st⟩ := a
  have key : ∀ (b : DB × Stats),
      (match foldSectionsE (certDisplayName f.stem) f.sections b with
        | .ok a' => a'
        | .err (db', st') e =>
            (db', { st' with errors := st'.errors ++ [(f.stem ++ ".json", e)] })).2.files_processed
        = b.2.files_processed ∧
      ∃ tail, (match foldSectionsE (certDisplayName f.stem) f.sections b with
        | .ok a' => a'
        | .err (db', st') e =>
            (db', { st' with errors := st'.errors ++ [(f.stem ++ ".json", e)] })).2.errors
        = b.2.errors ++ tail ∧ ∀ e ∈ tail, e.1 = f.stem ++ ".json" := by
    intro b
    have h1 := foldSectionsE_frame (certDisplayName f.stem) f.sections b
    cases hfold : foldSectionsE (certDisplayName f.stem) f.sections b with
    | ok a' =>
        rw [hfold] at h1
        exact ⟨h1.1, [], by simpa using h1.2, by simp⟩
    | err a' e =>
        obtain ⟨db', st'⟩ := a'
        rw [hfold] at h1
        simp only [TryRes.state] at h1
        exact ⟨h1.1, [(f.stem ++ ".json", e)], by simp [h1.2], by simp⟩
  have heq : processFileE (db, st) f =
      (match foldSectionsE (certDisplayName f.stem) f.sections
          ((getOrCreateCert db (certDisplayName f.stem)).1,
           if (getOrCreateCert db (certDisplayName f.stem)).2.2
           then { st with files_processed := st.files_processed + 1,
                          certifications := st.certifications + 1 }
           else { st with files_processed := st.files_processed + 1 }) with
        | .ok a' => a'
        | .err (db', st') e =>
            (db', { st' with errors := st'.errors ++ [(f.stem ++ ".json", e)] })) := rfl
  rw [heq]
  generalize hb : ((getOrCreateCert db (certDisplayName f.stem)).1,
      if (getOrCreateCert db (certDisplayName f.stem)).2.2
      then { st with files_processed := st.files_processed + 1,
                     certifications := st.certifications + 1 }
      else { st with files_processed := st.files_processed + 1 }) = b
  have hfp : b.2.files_processed = st.files_processed + 1 := by
    rw [← hb]
    split <;> rfl
  have herr : b.2.errors = st.errors := by
    rw [← hb]
    split <;> rfl
  obtain ⟨h1, tail, htail, hname⟩ := key b
  exact ⟨h1.trans hfp, tail, by rw [htail, herr], hname⟩

theorem foldFilesE_frame :
    ∀ (files : List SectionFile) (a : DB × Stats),
    ((files.foldl processFileE a)).2.files_processed =
      a.2.files_processed + files.length ∧
    ∀ e ∈ ((files.foldl processFileE a)).2.errors,
      e.1 ∈ files.map (fun f => f.stem ++ ".json") ∨ e ∈ a.2.errors
  | [], a => ⟨rfl, fun e he => Or.inr he⟩
  | f :: rest, a => by
    simp only [List.foldl_cons]
    obtain ⟨hfp, tail, herr, htail⟩ := processFileE_frame a f
    obtain ⟨hfp2, herr2⟩ := foldFilesE_frame rest (processFileE a f)
    constructor
    · rw [hfp2, hfp, List.length_cons]
      omega
    · intro e he
      rcases herr2 e he with h | h
      · exact Or.inl (by simp only [List.map_cons, List.mem_cons]; exact Or.inr h)
      · rw [herr] at h
        rcases List.mem_append.mp h with h' | h'
        · exact Or.inr h'
        · exact Or.inl (by
            simp only [List.map_cons, List.mem_cons]
            exact Or.inl (htail e h'))

/-- Claim C6 counterexample: inside one file, the first policy record
of section `S2` raises (duplicate `policy_reference`) and the later
record `shortName = "C"` of the *same file* is then never processed —
the pass does not "continue with the next record of the same file", it
abandons the remainder of the file.  The error is recorded keyed by the
file and the run still answers 207/"partial". -/
theorem C6_counterexample :
    (populate_databaseE true [exC6File] {}).1.policies.map (fun p => p.policy_id) = ["A"] ∧
    (populate_databaseE true [exC6File] {}).2.1.errors =
      [("iso.json", "IntegrityError: duplicate policy_reference")] ∧
    (populate_databaseE true [exC6File] {}).2.2 =
      { httpStatus := 207, status := "partial" } := by decide

/-- Claim C6 as amended: any per-record exception is caught, appended
to the error list keyed by the source file, and the pass abandons the
*rest of that file* and continues with the next file (every input file
is attempted exactly once); the pass as a whole returns an error status
only when the outer setup fails (missing input directory, HTTP 404) —
record-level errors yield 207/"partial", never the 500/"error" path. -/
theorem C6_record_errors_nonfatal (files : List SectionFile) (db : DB) :
    (populate_databaseE false files db = (db, {}, { httpStatus := 404, status := "error" })) ∧
    ((populate_databaseE true files db).2.2 = { httpStatus := 200, status := "success" } ∨
     (populate_databaseE true files db).2.2 = { httpStatus := 207, status := "partial" }) ∧
    (populate_databaseE true files db).2.2.httpStatus ≠ 500 ∧
    (populate_databaseE true files db).2.2.status ≠ "error" ∧
    (populate_databaseE true files db).2.1.files_processed = files.length ∧
    (∀ e ∈ (populate_databaseE true files db).2.1.errors,
      e.1 ∈ files.map (fun f => f.stem ++ ".json")) ∧
    ((populate_databaseE true files db).2.1.errors = [] ↔
      (populate_databaseE true files db).2.2 = { httpStatus := 200, status := "success" }) := by
  have hframe := foldFilesE_frame files (db, ({} : Stats))
  have hunfold : populate_databaseE true files db =
      (if ((files.foldl processFileE (db, ({} : Stats)))).2.errors.isEmpty
       then ((files.foldl processFileE (db, ({} : Stats))).1,
             (files.foldl processFileE (db, ({} : Stats))).2,
             { httpStatus := 200, status := "success" })
       else ((files.foldl processFileE (db, ({} : Stats))).1,
             (files.foldl processFileE (db, ({} : Stats))).2,
             { httpStatus := 207, status := "partial" })) := rfl
  refine ⟨rfl, ?_, ?_, ?_, ?_, ?_, ?_⟩
  · rw [hunfold]
    split <;> simp
  · rw [hunfold]
    split <;> simp
  · rw [hunfold]
    split <;> simp
  · rw [hunfold]
    split <;> simpa using hframe.1
  · intro e he
    rw [hunfold] at he
    have he' : e ∈ ((files.foldl processFileE (db, ({} : Stats)))).2.errors := by
      revert he
      split <;> (intro he; simpa using he)
    rcases hframe.2 e he' with h | h
    · exact h
    · simp at h
  · rw [hunfold]
    split
    · next hemp =>
        rw [List.isEmpty_iff] at hemp
        simp [hemp]
    · next hemp =>
        rw [List.isEmpty_iff] at hemp
        simp [hemp]

/-- Witness for the amended C6: the error entry of the counterexample
run is keyed by its source file's name. -/
theorem C6_witness :
    ("iso.json", "IntegrityError: duplicate policy_reference").1 ∈
      [exC6File].map (fun f => f.stem ++ ".json") :=
  (C6_record_errors_nonfatal [exC6File] {}).2.2.2.2.2.1
    ("iso.json", "IntegrityError: duplicate policy_reference") (by decide)

/-! ## Relationship-linker counters (C7) -/

theorem processPolicyMapping_counter (ck : String × String) (m : PolicyMappingData)
    (db : DB) (st : Stats) (h : (ck, m.shortName) ∉ db.policyClause) :
    (processPolicyMapping ck m (db, st)).1.policyClause.count (ck, m.shortName) =
      db.policyClause.count (ck, m.shortName) + 1 ∧
    (processPolicyMapping ck m (db, st)).2.policy_clause_links =
      st.policy_clause_links + 1 := by
  simp only [processPolicyMapping]
  cases db.policies.find? (fun q => q.policy_id == m.shortName) with
  | some p =>
      rw [if_neg h]
      constructor
      · simp [List.count_append]
      · rfl
  | none =>
      rw [if_neg h]
      constructor
      · simp [List.count_append]
      · rfl

/-- Claim C7 counterexample: in the Eramba clause pass, one package
item referencing the same policy title twice stores a single
clause-policy edge but increments `total_policies_mapped` to 2 — not
"exactly once" as the claim requires of every ingestion pass. -/
theorem C7_counterexample :
    (get_eramba_clauses [exC7Entry] exC7DB).1.policyClause = [(("CERT", "A.1"), "P")] ∧
    (get_eramba_clauses [exC7Entry] exC7DB).2.policies_mapped = 2 := by decide

/-- Claim C7 as amended: in the TrustCloud section pass the linker
checks edge existence first, so an existing edge causes no insert and
no counter increment, the combined get-or-create-and-link step is
idempotent, and linking a fresh pair stores exactly one edge and
increments the counter exactly once.  In the Eramba clause pass
(`get_eramba_clauses`) the stored edge also stays single (`.add` skips
storage duplicates), but `total_policies_mapped` is incremented on
*every* successful title lookup — calling the linker twice with the
same pair increments it by two. -/
theorem C7_linker_edges_and_counters :
    (∀ (ck : String × String) (m : PolicyMappingData) (db : DB) (st : Stats),
      PolicyDone db ck m → processPolicyMapping ck m (db, st) = (db, st)) ∧
    (∀ (ck : String × String) (m : PolicyMappingData) (a : DB × Stats),
      processPolicyMapping ck m (processPolicyMapping ck m a) = processPolicyMapping ck m a) ∧
    (∀ (ck : String × String) (m : PolicyMappingData) (db : DB) (st : Stats),
      (ck, m.shortName) ∉ db.policyClause →
      (processPolicyMapping ck m (db, st)).1.policyClause.count (ck, m.shortName) =
        db.policyClause.count (ck, m.shortName) + 1 ∧
      (processPolicyMapping ck m (db, st)).2.policy_clause_links =
        st.policy_clause_links + 1) ∧
    (∀ (ck : String × String) (pd : SecurityPolicyData) (db : DB) (st : ClauseStats)
        (idx : String) (p : PolicyRow),
      pd.index = some idx → idx ≠ "" →
      db.policies.filter (fun q => q.title == idx) = [p] →
      ∃ db1 st1, erambaMapPolicy ck pd (db, st) = .ok (db1, st1) ∧
        st1.policies_mapped = st.policies_mapped + 1 ∧
        ∃ db2 st2, erambaMapPolicy ck pd (db1, st1) = .ok (db2, st2) ∧
          db2.policyClause = db1.policyClause ∧
          st2.policies_mapped = st.policies_mapped + 2 ∧
          ((ck, p.policy_id) ∉ db.policyClause →
            db1.policyClause.count (ck, p.policy_id) = 1)) := by
  refine ⟨fun ck m db st h => processPolicyMapping_noop ck m db st h, ?_, ?_, ?_⟩
  · intro ck m a
    obtain ⟨db, st⟩ := a
    rcases hstep : processPolicyMapping ck m (db, st) with ⟨db1, st1⟩
    have hdone : PolicyDone db1 ck m := by
      have := processPolicyMapping_establishes ck m (db, st)
      rwa [hstep] at this
    exact processPolicyMapping_noop ck m db1 st1 hdone
  · exact fun ck m db st h => processPolicyMapping_counter ck m db st h
  · intro ck pd db st idx p hidx hne hfilter
    simp only [erambaMapPolicy, hidx]
    rw [if_neg hne, hfilter]
    refine ⟨_, _, rfl, rfl, ?_⟩
    have hpol2 : ({ db with policyClause :=
        if (ck, p.policy_id) ∈ db.policyClause then db.policyClause
        else db.policyClause ++ [(ck, p.policy_id)] } : DB).policies = db.policies := rfl
    simp only [erambaMapPolicy, hidx]
    rw [if_neg hne, hpol2, hfilter]
    have hmem : (ck, p.policy_id) ∈ (if (ck, p.policy_id) ∈ db.policyClause
        then db.policyClause else db.policyClause ++ [(ck, p.policy_id)]) := by
      split
      · next hin => exact hin
      · exact List.mem_append_right _ (List.mem_singleton_self _)
    refine ⟨_, _, rfl, ?_, rfl, ?_⟩
    · simp only [hmem, if_pos]
    · intro hout
      rw [if_neg hout]
      simp [List.count_append, List.count_eq_zero.mpr hout]

/-- Witness for the amended C7 at the counterexample's input: two calls
of the Eramba-clause linker on the same pair leave one stored edge and
a counter of two. -/
theorem C7_witness :
    ∃ db1 st1, erambaMapPolicy ("CERT", "A.1") ⟨some "T"⟩ (exC7DB, {}) = .ok (db1, st1) ∧
      st1.policies_mapped = ({} : ClauseStats).policies_mapped + 1 ∧
      ∃ db2 st2, erambaMapPolicy ("CERT", "A.1") ⟨some "T"⟩ (db1, st1) = .ok (db2, st2) ∧
        db2.policyClause = db1.policyClause ∧
        st2.policies_mapped = ({} : ClauseStats).policies_mapped + 2 ∧
        ((("CERT", "A.1"), "P") ∉ exC7DB.policyClause →
          db1.policyClause.count (("CERT", "A.1"), "P") = 1) :=
  C7_linker_edges_and_counters.2.2.2 ("CERT", "A.1") ⟨some "T"⟩ exC7DB {} "T"
    { policy_id := "P", policy_reference := "R", title := "T" } rfl (by decide) (by decide)

/-! ## Control short_name uniqueness (C9) -/

theorem processPolicyMapping_controls (ck : String × String) (m : PolicyMappingData)
    (a : DB × Stats) : (processPolicyMapping ck m a).1.controls = a.1.controls := by
  obtain ⟨db, st⟩ := a
  simp only [processPolicyMapping]
  cases db.policies.find? (fun q => q.policy_id == m.shortName) <;> split <;> rfl

theorem processControlMapping_nodup (ck : String × String) (cm : ControlMappingData)
    (a : DB × Stats) (h : (a.1.controls.map (fun c => c.short_name)).Nodup) :
    ((processControlMapping ck cm a).1.controls.map (fun c => c.short_name)).Nodup := by
  obtain ⟨db, st⟩ := a
  simp only [processControlMapping]
  cases hf : db.controls.find? (fun c => c.short_name == cm.shortName) with
  | some c => split <;> exact h
  | none =>
      have hnot : cm.shortName ∉ db.controls.map (fun c => c.short_name) := by
        intro hmem
        obtain ⟨c, hc, hceq⟩ := List.mem_map.mp hmem
        have := List.find?_eq_none.mp hf c hc
        simp [hceq] at this
      split <;>
        · rw [List.map_append, List.nodup_append_comm]
          simp only [List.map_cons, List.map_nil, List.singleton_append, List.nodup_cons]
          exact ⟨hnot, h⟩

theorem foldControls_nodup (ck : String × String) :
    ∀ (cms : List ControlMappingData) (a : DB × Stats),
      (a.1.controls.map (fun c => c.short_name)).Nodup →
      (((cms.foldl (fun a cm => processControlMapping ck cm a) a)).1.controls.map
        (fun c => c.short_name)).Nodup
  | [], _, h => h
  | cm :: rest, a, h => by
    simp only [List.foldl_cons]
    exact foldControls_nodup ck rest _ (processControlMapping_nodup ck cm a h)

theorem foldSubs_nodup (ck : String × String) :
    ∀ (subs : List SubsectionData) (a : DB × Stats),
      (a.1.controls.map (fun c => c.short_name)).Nodup →
      (((subs.foldl (fun a sub => sub.programControlMapping.foldl
          (fun a cm => processControlMapping ck cm a) a) a)).1.controls.map
        (fun c => c.short_name)).Nodup
  | [], _, h => h
  | sub :: rest, a, h => by
    simp only [List.foldl_cons]
    exact foldSubs_nodup ck rest _ (foldControls_nodup ck sub.programControlMapping a h)

theorem foldPolicies_controls (ck : String × String) :
    ∀ (ms : List PolicyMappingData) (a : DB × Stats),
    ((ms.foldl (fun a m => processPolicyMapping ck m a) a)).1.controls = a.1.controls
  | [], _ => rfl
  | m :: rest, a => by
    simp only [List.foldl_cons]
    exact (foldPolicies_controls ck rest _).trans (processPolicyMapping_controls ck m a)

theorem processSection_nodup (certN : String) (s : SectionData) (a : DB × Stats)
    (h : (a.1.controls.map (fun c => c.short_name)).Nodup) :
    ((processSection certN s a).1.controls.map (fun c => c.short_name)).Nodup := by
  obtain ⟨db, st⟩ := a
  simp only [processSection]
  cases hf : db.clauses.find?
      (fun c => c.certification == certN && c.reference_id == s.referenceId) with
  | some c =>
      refine foldSubs_nodup (certN, s.referenceId) s.subsections _ ?_
      rw [foldPolicies_controls (certN, s.referenceId) s.programPolicyMapping (db, st)]
      exact h
  | none =>
      refine foldSubs_nodup (certN, s.referenceId) s.subsections _ ?_
      rw [foldPolicies_controls (certN, s.referenceId) s.programPolicyMapping _]
      exact h

theorem processFile_nodup (a : DB × Stats) (f : SectionFile)
    (h : (a.1.controls.map (fun c => c.short_name)).Nodup) :
    ((processFile a f).1.controls.map (fun c => c.short_name)).Nodup := by
  obtain ⟨db, st⟩ := a
  have hfold : ∀ (ss : List SectionData) (b : DB × Stats),
      (b.1.controls.map (fun c => c.short_name)).Nodup →
      (((ss.foldl (fun a s => processSection (certDisplayName f.stem) s a) b)).1.controls.map
        (fun c => c.short_name)).Nodup := by
    intro ss
    induction ss with
    | nil => exact fun b hb => hb
    | cons s rest ih =>
        intro b hb
        simp only [List.foldl_cons]
        exact ih _ (processSection_nodup (certDisplayName f.stem) s b hb)
  simp only [processFile, getOrCreateCert]
  cases hcf : db.certifications.find? (fun c => c.name == certDisplayName f.stem) with
  | some c => exact hfold f.sections _ h
  | none => exact hfold f.sections _ h

theorem populate_nodup :
    ∀ (files : List SectionFile) (a : DB × Stats),
      (a.1.controls.map (fun c => c.short_name)).Nodup →
      (((files.foldl processFile a)).1.controls.map (fun c => c.short_name)).Nodup
  | [], _, h => h
  | f :: rest, a, h => by
    simp only [List.foldl_cons]
    exact populate_nodup rest _ (processFile_nodup a f h)

theorem processServicePolicy_controls (u : Nat → String) (cur : ControlRow)
    (a : DB × ControlsPassStats × Nat) (pe : ServicePolicyData) :
    (processServicePolicy u cur a pe).1.controls = a.1.controls := by
  obtain ⟨db, st, ctr⟩ := a
  simp only [processServicePolicy]
  cases pe.index with
  | none => rfl
  | some t => (repeat' split) <;> rfl

theorem foldServicePolicies_controls (u : Nat → String) (cur : ControlRow) :
    ∀ (pes : List ServicePolicyData) (a : DB × ControlsPassStats × Nat),
    ((pes.foldl (processServicePolicy u cur) a)).1.controls = a.1.controls
  | [], _ => rfl
  | pe :: rest, a => by
    simp only [List.foldl_cons]
    exact (foldServicePolicies_controls u cur rest _).trans
      (processServicePolicy_controls u cur a pe)

theorem processServiceItem_nodup (u : Nat → String) (a : DB × ControlsPassStats × Nat)
    (item : ServiceItemData)
    (h : (a.1.controls.map (fun c => c.short_name)).Nodup) :
    ((processServiceItem u a item).1.controls.map (fun c => c.short_name)).Nodup := by
  obtain ⟨db, st, ctr⟩ := a
  simp only [processServiceItem]
  cases item.id with
  | none => exact h
  | some sn =>
      dsimp only
      cases hf : db.controls.find? (fun c => c.short_name == sn) with
      | some c =>
          dsimp only
          rw [foldServicePolicies_controls u c item.security_policies (db, st, ctr)]
          exact h
      | none =>
          have hnot : sn ∉ db.controls.map (fun c => c.short_name) := by
            intro hmem
            obtain ⟨c, hc, hceq⟩ := List.mem_map.mp hmem
            have := List.find?_eq_none.mp hf c hc
            simp [hceq] at this
          dsimp only
          rw [foldServicePolicies_controls u _ item.security_policies _]
          dsimp only
          rw [List.map_append, List.nodup_append_comm]
          simp only [List.map_cons, List.map_nil, List.singleton_append, List.nodup_cons]
          exact ⟨hnot, h⟩

theorem get_eramba_controls_nodup (u : Nat → String) (data : List ServiceItemData)
    (db : DB) (h : (db.controls.map (fun c => c.short_name)).Nodup) :
    (((get_eramba_controls u data db)).1.controls.map (fun c => c.short_name)).Nodup := by
  have hfold : ∀ (items : List ServiceItemData) (a : DB × ControlsPassStats × Nat),
      (a.1.controls.map (fun c => c.short_name)).Nodup →
      (((items.foldl (processServiceItem u) a)).1.controls.map (fun c => c.short_name)).Nodup := by
    intro items
    induction items with
    | nil => exact fun a ha => ha
    | cons item rest ih =>
        intro a ha
        simp only [List.foldl_cons]
        exact ih _ (processServiceItem_nodup u a item ha)
  exact hfold data (db, {}, 0) h

/-- Claim C9: control `short_name` uniqueness is preserved by every
ingestion operation.  After any sequence of TrustCloud section passes
and Eramba control passes starting from a store with pairwise-distinct
control `short_name`s, the `short_name`s are still pairwise distinct;
and in both passes, ingesting a control record whose `short_name`
already exists resolves to the existing row (the control table is
unchanged) instead of creating a duplicate. -/
theorem C9_control_short_name_unique :
    (∀ (ops : List IngestOp) (db : DB),
      (db.controls.map (fun c => c.short_name)).Nodup →
      (((ops.foldl applyIngestOp db)).controls.map (fun c => c.short_name)).Nodup) ∧
    (∀ (ck : String × String) (cm : ControlMappingData) (db : DB) (st : Stats),
      (∃ c ∈ db.controls, c.short_name = cm.shortName) →
      (processControlMapping ck cm (db, st)).1.controls = db.controls) ∧
    (∀ (u : Nat → String) (item : ServiceItemData) (db : DB) (st : ControlsPassStats)
        (ctr : Nat) (sn : String), item.id = some sn →
      (∃ c ∈ db.controls, c.short_name = sn) →
      (processServiceItem u (db, st, ctr) item).1.controls = db.controls) := by
  refine ⟨?_, ?_, ?_⟩
  · intro ops
    induction ops with
    | nil => exact fun db h => h
    | cons op rest ih =>
        intro db h
        simp only [List.foldl_cons]
        refine ih _ ?_
        cases op with
        | tcSection files => exact populate_nodup files (db, {}) h
        | erControls u data => exact get_eramba_controls_nodup u data db h
  · intro ck cm db st ⟨c, hc, hsn⟩
    have hf : (db.controls.find? (fun q => q.short_name == cm.shortName)).isSome := by
      rw [List.find?_isSome]
      exact ⟨c, hc, by simp [hsn]⟩
    obtain ⟨q, hq⟩ := Option.isSome_iff_exists.mp hf
    simp only [processControlMapping, hq]
    split <;> rfl
  · intro u item db st ctr sn hid ⟨c, hc, hsn⟩
    have hf : (db.controls.find? (fun q => q.short_name == sn)).isSome := by
      rw [List.find?_isSome]
      exact ⟨c, hc, by simp [hsn]⟩
    obtain ⟨q, hq⟩ := Option.isSome_iff_exists.mp hf
    simp only [processServiceItem, hid, hq]
    exact foldServicePolicies_controls u q item.security_policies _

/-- Witness for C9: a TrustCloud pass followed by an Eramba controls
pass whose first record reuses the control short name `C-1` created by
the TrustCloud pass; the short names stay pairwise distinct. -/
theorem C9_witness :
    ((([IngestOp.tcSection [exC3File],
        IngestOp.erControls (fun _ => "u") exC9Data]).foldl applyIngestOp
      ({} : DB)).controls.map (fun c => c.short_name)).Nodup :=
  C9_control_short_name_unique.1
    [IngestOp.tcSection [exC3File], IngestOp.erControls (fun _ => "u") exC9Data]
    {} (by decide)

/-! ## Framework translation drop rule (C8) -/

theorem foldl_mem_origin {α β : Type} (P : α → Prop) (step : List α → β → List α)
    (h : ∀ acc x t, t ∈ step acc x → t ∈ acc ∨ P t) :
    ∀ (l : List β) (acc : List α) (t : α), t ∈ l.foldl step acc → t ∈ acc ∨ P t
  | [], _, _, ht => Or.inl ht
  | x :: xs, acc, t, ht => by
    rcases foldl_mem_origin P step h xs (step acc x) t ht with h' | h'
    · exact h acc x t h'
    · exact Or.inr h'

theorem standardMappingGet_mem (k : String) (h : standardMappingGet k ≠ "") :
    ∃ e ∈ STANDARD_MAPPING, e.2 = standardMappingGet k := by
  unfold standardMappingGet at *
  cases hf : STANDARD_MAPPING.find? (fun e => e.1 == k) with
  | none =>
      rw [hf] at h
      simp at h
  | some e => exact ⟨e, List.mem_of_find?_eq_some hf, by simp⟩

theorem buildStandards_framework (data : List ComplianceItemData) (cdb : List String)
    (t : FSTuple) (ht : t ∈ buildStandards data cdb) :
    t.framework ≠ "" ∧ ∃ e ∈ STANDARD_MAPPING, e.2 = t.framework := by
  have hres := foldl_mem_origin
    (fun t => t.framework ≠ "" ∧ ∃ e ∈ STANDARD_MAPPING, e.2 = t.framework) _
    ?_ data [] t ht
  · rcases hres with h | h
    · exact absurd h (List.not_mem_nil t)
    · exact h
  · intro acc item t' ht'
    revert ht'
    cases item.shortName with
    | none => exact fun ht' => Or.inl ht'
    | some sn =>
        dsimp only
        split
        · exact fun ht' => Or.inl ht'
        · intro ht'
          have hres2 := foldl_mem_origin
            (fun t => t.framework ≠ "" ∧ ∃ e ∈ STANDARD_MAPPING, e.2 = t.framework) _
            ?_ item.mappedStandards acc t' ht'
          · exact hres2
          · intro acc2 fk t'' ht''
            revert ht''
            dsimp only
            split
            · exact fun ht'' => Or.inl ht''
            · next hdn =>
                intro ht''
                rcases List.mem_append.mp ht'' with h' | h'
                · exact Or.inl h'
                · obtain ⟨cd, _, heq⟩ := List.mem_map.mp h'
                  refine Or.inr ?_
                  subst heq
                  exact ⟨hdn, standardMappingGet_mem _ hdn⟩

theorem assocUpsert_mem (k : String × String × Option String) (v : FSRow) :
    ∀ (m : List ((String × String × Option String) × FSRow)) (e),
      e ∈ assocUpsert k v m → e = (k, v) ∨ e ∈ m
  | [], e, he => by
      simp only [assocUpsert, List.mem_singleton] at he
      exact Or.inl he
  | e' :: es, e, he => by
      simp only [assocUpsert] at he
      split at he
      · rcases List.mem_cons.mp he with rfl | h
        · exact Or.inl rfl
        · exact Or.inr (List.mem_cons_of_mem e' h)
      · rcases List.mem_cons.mp he with rfl | h
        · exact Or.inr (List.mem_cons_self e es)
        · rcases assocUpsert_mem k v es e h with h' | h'
          · exact Or.inl h'
          · exact Or.inr (List.mem_cons_of_mem e' h')

theorem foldl_mem_origin_mem {α β : Type} (P : α → Prop) (step : List α → β → List α) :
    ∀ (l : List β), (∀ acc x, x ∈ l → ∀ t ∈ step acc x, t ∈ acc ∨ P t) →
    ∀ (acc : List α) (t : α), t ∈ l.foldl step acc → t ∈ acc ∨ P t
  | [], _, _, _, ht => Or.inl ht
  | x :: xs, h, acc, t, ht => by
    rcases foldl_mem_origin_mem P step xs
        (fun acc2 y hy => h acc2 y (List.mem_cons_of_mem x hy)) (step acc x) t ht with h' | h'
    · exact h acc x (List.mem_cons_self x xs) t h'
    · exact Or.inr h'

theorem buildExistingMap_mem (rows : List FSRow) :
    ∀ e ∈ buildExistingMap rows, ∃ r0 ∈ rows, e.2 = r0 := by
  intro e he
  have hres := foldl_mem_origin_mem (fun e => ∃ r0 ∈ rows, e.2 = r0)
    (fun m r => assocUpsert (rkey r) r m) rows ?_ [] e he
  · rcases hres with h | h
    · exact absurd h (List.not_mem_nil e)
    · exact h
  · intro acc x hx e' he'
    rcases assocUpsert_mem (rkey x) x acc e' he' with rfl | h
    · exact Or.inr ⟨x, hx, rfl⟩
    · exact Or.inl h

theorem assocFind_mem (m : List ((String × String × Option String) × FSRow))
    (k : String × String × Option String) (v : FSRow) (h : assocFind m k = some v) :
    ∃ e ∈ m, e.2 = v := by
  unfold assocFind at h
  cases hf : m.find? (fun e => e.1 == k) with
  | none =>
      rw [hf] at h
      simp at h
  | some e =>
      rw [hf] at h
      simp only [Option.map_some', Option.some.injEq] at h
      exact ⟨e, List.mem_of_find?_eq_some hf, h⟩

theorem batchFold_origin (R : List FSRow) (batch0 : List FSTuple) :
    ∀ (ts : List FSTuple)
      (acc : List ((String × String × Option String) × FSRow) × List FSTuple × List Nat),
      (∀ t ∈ ts, t ∈ batch0) →
      (∀ e ∈ acc.1, ∃ r0 ∈ R, rkey e.2 = rkey r0) →
      (∀ t ∈ acc.2.1, t ∈ batch0) →
      (∀ e ∈ (ts.foldl batchStep acc).1, ∃ r0 ∈ R, rkey e.2 = rkey r0) ∧
      (∀ t ∈ (ts.foldl batchStep acc).2.1, t ∈ batch0)
  | [], acc, _, hm, hc => ⟨hm, hc⟩
  | t :: ts', acc, hts, hm, hc => by
    simp only [List.foldl_cons]
    refine batchFold_origin R batch0 ts' (batchStep acc t)
      (fun x hx => hts x (List.mem_cons_of_mem t hx)) ?_ ?_
    · obtain ⟨m, cre, upd⟩ := acc
      simp only [batchStep]
      cases hfind : assocFind m (tkey t) with
      | none =>
          dsimp only
          exact hm
      | some obj =>
          dsimp only
          split
          · exact hm
          · intro e he
            rcases assocUpsert_mem (tkey t) (applyDefaultsRow obj t.defaults) m e he with rfl | h
            · obtain ⟨e0, he0, heq⟩ := assocFind_mem m (tkey t) obj hfind
              obtain ⟨r0, hr0, hkey⟩ := hm e0 he0
              refine ⟨r0, hr0, ?_⟩
              rw [← hkey, heq]
              rfl
            · exact hm e h
    · obtain ⟨m, cre, upd⟩ := acc
      simp only [batchStep]
      cases hfind : assocFind m (tkey t) with
      | none =>
          dsimp only
          intro x hx
          rcases List.mem_append.mp hx with h | h
          · exact hc x h
          · rw [List.mem_singleton.mp h]
            exact hts t (List.mem_cons_self t ts')
      | some obj =>
          dsimp only
          split <;> exact hc

theorem mkCreatedRows_mem :
    ∀ (startPk : Nat) (ts : List FSTuple) (r : FSRow), r ∈ mkCreatedRows startPk ts →
      ∃ t ∈ ts, r.framework = t.framework
  | _, [], r, hr => absurd hr (List.not_mem_nil r)
  | startPk, t :: ts', r, hr => by
    simp only [mkCreatedRows] at hr
    rcases List.mem_cons.mp hr with rfl | h
    · exact ⟨t, List.mem_cons_self t ts', rfl⟩
    · obtain ⟨t', ht', heq⟩ := mkCreatedRows_mem (startPk + 1) ts' r h
      exact ⟨t', List.mem_cons_of_mem t ht', heq⟩

theorem processBatch_framework_origin (st : FSState) (batch : List FSTuple) :
    ∀ r ∈ (processBatch st batch).1.rows,
      (∃ r0 ∈ st.rows, r.framework = r0.framework) ∨
      ∃ t ∈ batch, r.framework = t.framework := by
  intro r hr
  simp only [processBatch, finishBatch] at hr
  have hbase := batchFold_origin (st.rows.filter (fun r => rkey r ∈ batch.map tkey)) batch
    batch (buildExistingMap (st.rows.filter (fun r => rkey r ∈ batch.map tkey)), [], [])
    (fun t ht => ht)
    (fun e he => by
      obtain ⟨r0, hr0, heq⟩ := buildExistingMap_mem _ e he
      exact ⟨r0, hr0, by rw [heq]⟩)
    (fun t ht => absurd ht (List.not_mem_nil t))
  rcases List.mem_append.mp hr with hmapped | hcreated
  · obtain ⟨r0, hr0, heq⟩ := List.mem_map.mp hmapped
    by_cases hupd : r0.pk ∈ (batch.foldl batchStep
        (buildExistingMap (st.rows.filter (fun r => rkey r ∈ batch.map tkey)), [], [])).2.2
    · rw [if_pos hupd] at heq
      cases hfind : (batch.foldl batchStep
          (buildExistingMap (st.rows.filter (fun r => rkey r ∈ batch.map tkey)), [], [])).1.find?
          (fun e => e.2.pk == r0.pk) with
      | none =>
          rw [hfind] at heq
          exact Or.inl ⟨r0, hr0, heq ▸ rfl⟩
      | some e =>
          rw [hfind] at heq
          obtain ⟨r1, hr1, hkey⟩ := hbase.1 e (List.mem_of_find?_eq_some hfind)
          refine Or.inl ⟨r1, List.mem_filter.mp hr1 |>.1, ?_⟩
          subst heq
          have : (rkey e.2).2.1 = (rkey r1).2.1 := by rw [hkey]
          exact this
    · rw [if_neg hupd] at heq
      exact Or.inl ⟨r0, hr0, heq ▸ rfl⟩
  · obtain ⟨t, ht, heq⟩ := mkCreatedRows_mem _ _ r hcreated
    exact Or.inr ⟨t, hbase.2 t ht, heq⟩

theorem chunksOfAux_subset (n : Nat) :
    ∀ (fuel : Nat) (l : List FSTuple) (c : List FSTuple), c ∈ chunksOfAux n fuel l → c ⊆ l
  | 0, [], c, hc => absurd hc (List.not_mem_nil c)
  | _ + 1, [], c, hc => absurd hc (List.not_mem_nil c)
  | 0, x :: xs, c, hc => by
      have hcs : c = x :: xs := List.mem_singleton.mp hc
      subst hcs
      exact fun a ha => ha
  | fuel + 1, x :: xs, c, hc => by
      rcases List.mem_cons.mp hc with rfl | hmem
      · exact List.take_subset n (x :: xs)
      · exact fun a ha => List.drop_subset n (x :: xs)
          (chunksOfAux_subset n fuel _ c hmem ha)

theorem chunksOf_subset (n : Nat) (l : List FSTuple) (c : List FSTuple)
    (hc : c ∈ chunksOf n l) : c ⊆ l :=
  chunksOfAux_subset n l.length l c hc

theorem foldBatches_framework_origin :
    ∀ (bs : List (List FSTuple)) (acc : FSState × Nat × Nat),
      (∀ b ∈ bs, ∀ t ∈ b, t.framework ≠ "" ∧ ∃ e ∈ STANDARD_MAPPING, e.2 = t.framework) →
      ∀ r ∈ ((bs.foldl (fun acc b =>
          let r := processBatch acc.1 b
          (r.1, acc.2.1 + r.2.1, acc.2.2 + r.2.2)) acc)).1.rows,
        (∃ r0 ∈ acc.1.rows, r.framework = r0.framework) ∨
        (r.framework ≠ "" ∧ ∃ e ∈ STANDARD_MAPPING, e.2 = r.framework)
  | [], _, _, r, hr => Or.inl ⟨r, hr, rfl⟩
  | b :: bs', acc, hb, r, hr => by
    simp only [List.foldl_cons] at hr
    rcases foldBatches_framework_origin bs' _
        (fun b' hb' => hb b' (List.mem_cons_of_mem b hb')) r hr with h | h
    · obtain ⟨r0, hr0, heq⟩ := h
      rcases processBatch_framework_origin acc.1 b r0 hr0 with h' | h'
      · obtain ⟨r1, hr1, heq1⟩ := h'
        exact Or.inl ⟨r1, hr1, heq.trans heq1⟩
      · obtain ⟨t, ht, heq1⟩ := h'
        have := hb b (List.mem_cons_self b bs') t ht
        exact Or.inr ⟨heq.trans heq1 ▸ this.1, by
          obtain ⟨e, he, he2⟩ := this.2
          exact ⟨e, he, by rw [he2, ← heq1, ← heq]⟩⟩
    · exact Or.inr h

theorem map_controls_to_standards_framework_origin (data : List ComplianceItemData)
    (cdb : List String) (st : FSState) :
    ∀ r ∈ (map_controls_to_standards data cdb st).1.rows,
      (∃ r0 ∈ st.rows, r.framework = r0.framework) ∨
      (r.framework ≠ "" ∧ ∃ e ∈ STANDARD_MAPPING, e.2 = r.framework) := by
  intro r hr
  refine foldBatches_framework_origin (chunksOf 500 (buildStandards data cdb)) (st, 0, 0)
    ?_ r hr
  intro b hb t ht
  exact buildStandards_framework data cdb t (chunksOf_subset 500 _ b hb ht)

/-- Claim C8: a `FrameworkStandard` row only ever carries a non-empty
canonical framework name taken from the translation table: however many
times the batcher runs, every stored row's framework either already
appeared on a pre-existing row or is a non-empty value of
`STANDARD_MAPPING`; and the raw key `"cmmc_l1"` translates to the empty
string, so its tuples are dropped and can never produce a row. -/
theorem C8_nonempty_framework_only (data : List ComplianceItemData) (cdb : List String) :
    (∀ (st : FSState) (n : Nat), ∀ r ∈ (map_controls_to_standards_iter data cdb n st).rows,
      (∃ r0 ∈ st.rows, r.framework = r0.framework) ∨
      (r.framework ≠ "" ∧ ∃ e ∈ STANDARD_MAPPING, e.2 = r.framework)) ∧
    standardMappingGet (pyLower "cmmc_l1") = "" := by
  constructor
  · intro st n
    induction n generalizing st with
    | zero => exact fun r hr => Or.inl ⟨r, hr, rfl⟩
    | succ k ih =>
        intro r hr
        simp only [map_controls_to_standards_iter] at hr
        rcases ih (map_controls_to_standards data cdb st).1 r hr with h | h
        · obtain ⟨r0, hr0, heq⟩ := h
          rcases map_controls_to_standards_framework_origin data cdb st r0 hr0 with h' | h'
          · obtain ⟨r1, hr1, heq1⟩ := h'
            exact Or.inl ⟨r1, hr1, heq.trans heq1⟩
          · exact Or.inr ⟨heq ▸ h'.1, by
              obtain ⟨e, he, he2⟩ := h'.2
              exact ⟨e, he, by rw [he2, ← heq]⟩⟩
        · exact Or.inr h
  · rfl

/-- Witness for C8: a run over a payload whose keys include the dropped
`cmmc_l1` creates rows, and the conclusion holds of one of them. -/
theorem C8_witness :
    (∃ r0 ∈ ({} : FSState).rows,
      (⟨0, "C1", "SOC2 (TSC 2017)", some "S1", none, some "d1", none⟩ : FSRow).framework
        = r0.framework) ∨
    ((⟨0, "C1", "SOC2 (TSC 2017)", some "S1", none, some "d1", none⟩ : FSRow).framework ≠ "" ∧
      ∃ e ∈ STANDARD_MAPPING,
        e.2 = (⟨0, "C1", "SOC2 (TSC 2017)", some "S1", none, some "d1", none⟩ : FSRow).framework) :=
  (C8_nonempty_framework_only exC4Data2 ["C1"]).1 {} 1
    ⟨0, "C1", "SOC2 (TSC 2017)", some "S1", none, some "d1", none⟩ (by decide)

/-! ## Idempotence of the standard-mapping batcher (C4): dictionary
facts -/

theorem assocFind_cons (e : (String × String × Option String) × FSRow)
    (es : List ((String × String × Option String) × FSRow))
    (k : String × String × Option String) :
    assocFind (e :: es) k = if e.1 = k then some e.2 else assocFind es k := by
  simp only [assocFind, List.find?]
  by_cases h : e.1 = k
  · simp [h]
  · have hb : (e.1 == k) = false := by simp [h]
    simp [hb, h]

theorem assocFind_upsert (k k' : String × String × Option String) (v : FSRow) :
    ∀ m, assocFind (assocUpsert k' v m) k = if k = k' then some v else assocFind m k
  | [] => by
      simp only [assocUpsert]
      by_cases hk : k = k'
      · subst hk
        simp [assocFind_cons]
      · simp [assocFind_cons, hk, Ne.symm hk]
  | e :: es => by
      simp only [assocUpsert]
      by_cases he : e.1 = k'
      · rw [if_pos he]
        by_cases hk : k = k'
        · subst hk
          simp [assocFind_cons]
        · simp [assocFind_cons, hk, Ne.symm hk, he]
      · rw [if_neg he]
        by_cases hek : e.1 = k
        · have hkk : ¬ (k = k') := fun h => he (hek.trans h)
          simp [assocFind_cons, hek, hkk]
        · simp [assocFind_cons, hek, assocFind_upsert k k' v es]

theorem lastWith_mem (k : String × String × Option String) :
    ∀ (l : List FSRow) (r : FSRow), lastWith k l = some r → r ∈ l ∧ rkey r = k
  | [], r, h => by cases h
  | x :: xs, r, h => by
      simp only [lastWith] at h
      cases hx : lastWith k xs with
      | some y =>
          rw [hx] at h
          dsimp only at h
          have hy := lastWith_mem k xs y hx
          have hyr : y = r := Option.some.inj h
          subst hyr
          exact ⟨List.mem_cons_of_mem x hy.1, hy.2⟩
      | none =>
          rw [hx] at h
          dsimp only at h
          by_cases hrk : rkey x = k
          · rw [if_pos hrk] at h
            have hxr : x = r := Option.some.inj h
            subst hxr
            exact ⟨List.mem_cons_self x xs, hrk⟩
          · rw [if_neg hrk] at h
            cases h

theorem lastWith_eq_none (k : String × String × Option String) :
    ∀ (l : List FSRow), lastWith k l = none ↔ ∀ r ∈ l, rkey r ≠ k
  | [] => by simp [lastWith]
  | x :: xs => by
      simp only [lastWith]
      cases hx : lastWith k xs with
      | some y =>
          dsimp only
          obtain ⟨hmem, hkey⟩ := lastWith_mem k xs y hx
          simp only [reduceCtorEq, false_iff, not_forall]
          exact ⟨y, List.mem_cons_of_mem x hmem, by simp [hkey]⟩
      | none =>
          dsimp only
          constructor
          · intro h r hr
            rcases List.mem_cons.mp hr with rfl | hr'
            · intro hk
              rw [if_pos hk] at h
              cases h
            · exact (lastWith_eq_none k xs).mp hx r hr'
          · intro h
            rw [if_neg (h x (List.mem_cons_self x xs))]

theorem buildMapAux_lookup (k : String × String × Option String) :
    ∀ (rows : List FSRow) (m : List ((String × String × Option String) × FSRow)),
      assocFind (rows.foldl (fun m r => assocUpsert (rkey r) r m) m) k =
        match lastWith k rows with
        | some r => some r
        | none => assocFind m k
  | [], m => rfl
  | r :: rs, m => by
      simp only [List.foldl_cons, lastWith]
      rw [buildMapAux_lookup k rs (assocUpsert (rkey r) r m)]
      cases lastWith k rs with
      | some x => rfl
      | none =>
          dsimp only
          rw [assocFind_upsert]
          by_cases hk : k = rkey r
          · rw [if_pos hk, if_pos hk.symm]
          · rw [if_neg hk, if_neg (fun h => hk h.symm)]

theorem buildExistingMap_lookup (rows : List FSRow) (k : String × String × Option String) :
    assocFind (buildExistingMap rows) k = lastWith k rows := by
  unfold buildExistingMap
  rw [buildMapAux_lookup k rows []]
  cases lastWith k rows with
  | some r => rfl
  | none => rfl

theorem assocFind_mem_entry (k : String × String × Option String) (v : FSRow) :
    ∀ m, assocFind m k = some v → (k, v) ∈ m
  | [], h => by cases h
  | e :: es, h => by
      rw [assocFind_cons] at h
      by_cases he : e.1 = k
      · rw [if_pos he] at h
        have hv : e.2 = v := Option.some.inj h
        have : (k, v) = e := by
          rw [← he, ← hv]
        rw [this]
        exact List.mem_cons_self e es
      · rw [if_neg he] at h
        exact List.mem_cons_of_mem e (assocFind_mem_entry k v es h)

theorem assocFind_none_iff (k : String × String × Option String) :
    ∀ m, assocFind m k = none ↔ k ∉ m.map (fun e => e.1)
  | [] => by simp [assocFind]
  | e :: es => by
      rw [assocFind_cons]
      by_cases he : e.1 = k
      · rw [if_pos he]
        simp [he]
      · rw [if_neg he]
        rw [assocFind_none_iff k es]
        simp only [List.map_cons, List.mem_cons]
        constructor
        · intro h hor
          rcases hor with h1 | h2
          · exact he h1.symm
          · exact h h2
        · intro h h2
          exact h (Or.inr h2)

theorem assocUpsert_keys (k : String × String × Option String) (v : FSRow) :
    ∀ m, k ∈ m.map (fun e => e.1) →
      (assocUpsert k v m).map (fun e => e.1) = m.map (fun e => e.1)
  | [], h => by cases h
  | e :: es, h => by
      simp only [assocUpsert]
      by_cases he : e.1 = k
      · rw [if_pos he]
        simp [he]
      · rw [if_neg he]
        simp only [List.map_cons]
        rw [List.map_cons] at h
        rcases List.mem_cons.mp h with h1 | h2
        · exact absurd h1.symm he
        · rw [assocUpsert_keys k v es h2]

theorem assocUpsert_pks (k : String × String × Option String) (v w : FSRow)
    (hpk : v.pk = w.pk) :
    ∀ m, assocFind m k = some w →
      (assocUpsert k v m).map (fun e => e.2.pk) = m.map (fun e => e.2.pk)
  | [], h => by cases h
  | e :: es, h => by
      rw [assocFind_cons] at h
      simp only [assocUpsert]
      by_cases he : e.1 = k
      · rw [if_pos he] at h
        rw [if_pos he]
        simp only [List.map_cons]
        rw [hpk, Option.some.inj h]
      · rw [if_neg he] at h
        rw [if_neg he]
        simp only [List.map_cons]
        rw [assocUpsert_pks k v w hpk es h]

theorem applyDefaultsRow_pk (r : FSRow) (d : FSDefaults) :
    (applyDefaultsRow r d).pk = r.pk := rfl

theorem applyDefaultsRow_rkey (r : FSRow) (d : FSDefaults) :
    rkey (applyDefaultsRow r d) = rkey r := rfl

theorem rowMatches_applyDefaults (r : FSRow) (d : FSDefaults) :
    rowMatchesDefaults (applyDefaultsRow r d) d = true := by
  simp [applyDefaultsRow, rowMatchesDefaults]

theorem lastWith_append (k : String × String × Option String) :
    ∀ l1 l2, lastWith k (l1 ++ l2) =
      match lastWith k l2 with
      | some r => some r
      | none => lastWith k l1
  | [], l2 => by
      rw [List.nil_append]
      cases hx : lastWith k l2 <;> rfl
  | x :: l1, l2 => by
      simp only [List.cons_append, List.append_eq, lastWith]
      rw [lastWith_append k l1 l2]
      cases hx : lastWith k l2 with
      | some r => rfl
      | none => rfl

theorem lastWith_map (k : String × String × Option String) (f : FSRow → FSRow) :
    ∀ l, (∀ r ∈ l, rkey (f r) = rkey r) →
      lastWith k (l.map f) = (lastWith k l).map f
  | [], _ => rfl
  | x :: xs, hf => by
      simp only [List.map_cons, lastWith]
      rw [lastWith_map k f xs (fun r hr => hf r (List.mem_cons_of_mem x hr))]
      cases hx : lastWith k xs with
      | some y => rfl
      | none =>
          dsimp only
          rw [hf x (List.mem_cons_self x xs)]
          by_cases hk : rkey x = k
          · rw [if_pos hk, if_pos hk]
            rfl
          · rw [if_neg hk, if_neg hk]
            rfl

theorem mkCreatedRows_fields :
    ∀ (ts : List FSTuple) (startPk : Nat) (r : FSRow), r ∈ mkCreatedRows startPk ts →
      ∃ t ∈ ts, rkey r = tkey t ∧ rowMatchesDefaults r t.defaults = true ∧ startPk ≤ r.pk
  | [], _, r, h => absurd h (List.not_mem_nil r)
  | t :: ts, startPk, r, h => by
      simp only [mkCreatedRows] at h
      rcases List.mem_cons.mp h with rfl | hmem
      · refine ⟨t, List.mem_cons_self t ts, rfl, ?_, Nat.le_refl _⟩
        simp [rowMatchesDefaults]
      · obtain ⟨t', ht', hk, hm, hpk⟩ := mkCreatedRows_fields ts (startPk + 1) r hmem
        exact ⟨t', List.mem_cons_of_mem t ht', hk, hm, Nat.le_of_succ_le hpk⟩

theorem mkCreatedRows_pk_lt :
    ∀ (ts : List FSTuple) (startPk : Nat) (r : FSRow), r ∈ mkCreatedRows startPk ts →
      r.pk < startPk + ts.length
  | [], _, r, h => absurd h (List.not_mem_nil r)
  | t :: ts, startPk, r, h => by
      simp only [mkCreatedRows] at h
      rcases List.mem_cons.mp h with rfl | hmem
      · simp only [List.length_cons]
        omega
      · have := mkCreatedRows_pk_lt ts (startPk + 1) r hmem
        simp only [List.length_cons]
        omega

theorem mkCreatedRows_pks_nodup :
    ∀ (ts : List FSTuple) (startPk : Nat),
      ((mkCreatedRows startPk ts).map (fun r => r.pk)).Nodup
  | [], _ => List.nodup_nil
  | t :: ts, startPk => by
      simp only [mkCreatedRows, List.map_cons, List.nodup_cons]
      refine ⟨?_, mkCreatedRows_pks_nodup ts (startPk + 1)⟩
      intro hmem
      obtain ⟨r, hr, hpk⟩ := List.mem_map.mp hmem
      obtain ⟨_, _, _, _, hge⟩ := mkCreatedRows_fields ts (startPk + 1) r hr
      omega

theorem mkCreated_lastWith (k : String × String × Option String) (d : FSDefaults) :
    ∀ (ts : List FSTuple) (startPk : Nat), (∃ t ∈ ts, tkey t = k) →
      (∀ t ∈ ts, tkey t = k → t.defaults = d) →
      ∃ r, lastWith k (mkCreatedRows startPk ts) = some r ∧
        rowMatchesDefaults r d = true
  | [], _, hex, _ => absurd hex (by simp)
  | t :: ts, startPk, hex, hcon => by
      by_cases h2 : ∃ t' ∈ ts, tkey t' = k
      · obtain ⟨r, hr, hm⟩ := mkCreated_lastWith k d ts (startPk + 1) h2
          (fun t' ht' hk => hcon t' (List.mem_cons_of_mem t ht') hk)
        refine ⟨r, ?_, hm⟩
        simp only [mkCreatedRows, lastWith, hr]
      · have htk : tkey t = k := by
          obtain ⟨u, hu, hku⟩ := hex
          rcases List.mem_cons.mp hu with rfl | hmem
          · exact hku
          · exact absurd ⟨u, hmem, hku⟩ h2
        have hnone : lastWith k (mkCreatedRows (startPk + 1) ts) = none := by
          rw [lastWith_eq_none]
          intro r hr
          obtain ⟨t', ht', hkey, _⟩ := mkCreatedRows_fields ts (startPk + 1) r hr
          rw [hkey]
          exact fun hc => h2 ⟨t', ht', hc⟩
        have hd : t.defaults = d := hcon t (List.mem_cons_self t ts) htk
        have htk' : (t.control, t.framework, t.standard_id) = k := htk
        refine ⟨{ pk := startPk, control := t.control, framework := t.framework,
                  standard_id := t.standard_id, name := t.defaults.name,
                  description := t.defaults.description,
                  sectionVal := t.defaults.sectionVal }, ?_, ?_⟩
        · simp only [mkCreatedRows, lastWith]
          rw [hnone]
          dsimp only [rkey]
          rw [if_pos htk']
        · rw [← hd]
          simp [rowMatchesDefaults]

theorem pk_inj (rows : List FSRow) (hnd : (rows.map (fun r => r.pk)).Nodup)
    (r1 r2 : FSRow) (h1 : r1 ∈ rows) (h2 : r2 ∈ rows) (hpk : r1.pk = r2.pk) :
    r1 = r2 :=
  List.inj_on_of_nodup_map hnd h1 h2 hpk

theorem find_by_pk :
    ∀ (m : List ((String × String × Option String) × FSRow)),
      ((m.map (fun e => e.2.pk)).Nodup) →
      ∀ (k : String × String × Option String) (v : FSRow), (k, v) ∈ m →
        m.find? (fun e => e.2.pk == v.pk) = some (k, v)
  | [], _, k, v, hmem => absurd hmem (List.not_mem_nil (k, v))
  | e :: es, hnd, k, v, hmem => by
      simp only [List.map_cons, List.nodup_cons] at hnd
      simp only [List.find?]
      rcases List.mem_cons.mp hmem with heq | hmem'
      · have hb : (e.2.pk == v.pk) = true := by
          rw [← heq]
          simp
        rw [hb]
        dsimp only
        rw [← heq]
      · have hv : v.pk ∈ es.map (fun e => e.2.pk) :=
          List.mem_map.mpr ⟨(k, v), hmem', rfl⟩
        have hb : (e.2.pk == v.pk) = false := by
          simp only [beq_eq_false_iff_ne, ne_eq]
          exact fun hc => hnd.1 (by rw [hc]; exact hv)
        rw [hb]
        dsimp only
        exact find_by_pk es hnd.2 k v hmem'

theorem lastWith_filter (k : String × String × Option String) (p : FSRow → Bool)
    (hp : ∀ r, rkey r = k → p r = true) :
    ∀ rows, lastWith k (rows.filter p) = lastWith k rows
  | [] => rfl
  | r :: rs => by
      simp only [List.filter_cons]
      by_cases hpr : p r = true
      · rw [if_pos hpr]
        simp only [lastWith]
        rw [lastWith_filter k p hp rs]
      · rw [if_neg hpr]
        rw [lastWith_filter k p hp rs]
        simp only [lastWith]
        cases hx : lastWith k rs with
        | some y => rfl
        | none =>
            dsimp only
            rw [if_neg (fun hc => hpr (hp r hc))]

theorem buildMapAux_keyOk :
    ∀ (rows : List FSRow) (m : List ((String × String × Option String) × FSRow)),
      (∀ e ∈ m, rkey e.2 = e.1) →
      ∀ e ∈ rows.foldl (fun m r => assocUpsert (rkey r) r m) m, rkey e.2 = e.1
  | [], _, hm => hm
  | r :: rs, m, hm => by
      simp only [List.foldl_cons]
      refine buildMapAux_keyOk rs (assocUpsert (rkey r) r m) ?_
      intro e he
      rcases assocUpsert_mem (rkey r) r m e he with heq | hmem
      · rw [heq]
      · exact hm e hmem

theorem assocUpsert_keys_new (k : String × String × Option String) (v : FSRow) :
    ∀ m, k ∉ m.map (fun e => e.1) →
      (assocUpsert k v m).map (fun e => e.1) = m.map (fun e => e.1) ++ [k]
  | [], _ => rfl
  | e :: es, h => by
      simp only [List.map_cons, List.mem_cons, not_or] at h
      simp only [assocUpsert]
      rw [if_neg (fun hc => h.1 hc.symm)]
      simp only [List.map_cons, List.cons_append]
      rw [assocUpsert_keys_new k v es h.2]

theorem buildMapAux_keysNodup :
    ∀ (rows : List FSRow) (m : List ((String × String × Option String) × FSRow)),
      ((m.map (fun e => e.1)).Nodup) →
      (((rows.foldl (fun m r => assocUpsert (rkey r) r m) m).map (fun e => e.1)).Nodup)
  | [], _, hm => hm
  | r :: rs, m, hm => by
      simp only [List.foldl_cons]
      refine buildMapAux_keysNodup rs _ ?_
      by_cases hk : rkey r ∈ m.map (fun e => e.1)
      · rw [assocUpsert_keys (rkey r) r m hk]
        exact hm
      · rw [assocUpsert_keys_new (rkey r) r m hk]
        rw [List.nodup_append_comm]
        exact List.nodup_cons.mpr ⟨hk, hm⟩

theorem buildExistingMap_keyOk (rows : List FSRow) :
    ∀ e ∈ buildExistingMap rows, rkey e.2 = e.1 :=
  buildMapAux_keyOk rows [] (fun e he => absurd he (List.not_mem_nil e))

theorem buildExistingMap_keysNodup (rows : List FSRow) :
    ((buildExistingMap rows).map (fun e => e.1)).Nodup :=
  buildMapAux_keysNodup rows [] List.nodup_nil

theorem buildExistingMap_pksNodup (rows : List FSRow)
    (hnd : ((rows.map (fun r => r.pk)).Nodup)) :
    (((buildExistingMap rows).map (fun e => e.2.pk)).Nodup) := by
  have hker := buildExistingMap_keyOk rows
  have hkeys := buildExistingMap_keysNodup rows
  have hmnd : (buildExistingMap rows).Nodup := List.Nodup.of_map _ hkeys
  refine List.Nodup.map_on ?_ hmnd
  intro e1 h1 e2 h2 hpk
  obtain ⟨r1, hr1, hv1⟩ := buildExistingMap_mem rows e1 h1
  obtain ⟨r2, hr2, hv2⟩ := buildExistingMap_mem rows e2 h2
  have hveq : e1.2 = e2.2 := by
    rw [hv1, hv2]
    exact pk_inj rows hnd r1 r2 hr1 hr2 (by rw [← hv1, ← hv2]; exact hpk)
  have hkeq : e1.1 = e2.1 := by
    rw [← hker e1 h1, ← hker e2 h2, hveq]
  exact Prod.ext hkeq hveq

theorem filter_pks_nodup (rows : List FSRow) (p : FSRow → Bool)
    (hnd : ((rows.map (fun r => r.pk)).Nodup)) :
    (((rows.filter p).map (fun r => r.pk)).Nodup) :=
  List.Nodup.sublist (List.Sublist.map _ (List.filter_sublist rows)) hnd

theorem assocFind_of_mem_nodup :
    ∀ (m : List ((String × String × Option String) × FSRow)),
      ((m.map (fun e => e.1)).Nodup) →
      ∀ (k : String × String × Option String) (v : FSRow), (k, v) ∈ m →
        assocFind m k = some v
  | [], _, k, v, hmem => absurd hmem (List.not_mem_nil (k, v))
  | e :: es, hnd, k, v, hmem => by
      simp only [List.map_cons, List.nodup_cons] at hnd
      rw [assocFind_cons]
      rcases List.mem_cons.mp hmem with heq | hmem'
      · rw [← heq]
        simp
      · have hne : ¬ (e.1 = k) := by
          intro hc
          exact hnd.1 (hc ▸ List.mem_map.mpr ⟨(k, v), hmem', rfl⟩)
        rw [if_neg hne]
        exact assocFind_of_mem_nodup es hnd.2 k v hmem'

theorem assocFind_key_mem (m : List ((String × String × Option String) × FSRow))
    (k : String × String × Option String) (v : FSRow) (h : assocFind m k = some v) :
    k ∈ m.map (fun e => e.1) :=
  List.mem_map.mpr ⟨(k, v), assocFind_mem_entry k v m h, rfl⟩

theorem mem_snoc_append {α : Type} (u t : α) (done ts : List α)
    (h : u ∈ done ++ t :: ts) : u ∈ (done ++ [t]) ++ ts := by
  simp only [List.append_assoc, List.singleton_append]
  exact h

theorem batchFold_main (B : List FSTuple)
    (hcon : ∀ t1 ∈ B, ∀ t2 ∈ B, tkey t1 = tkey t2 → t1.defaults = t2.defaults)
    (m0 : List ((String × String × Option String) × FSRow)) :
    ∀ (ts done : List FSTuple)
      (m : List ((String × String × Option String) × FSRow))
      (cre : List FSTuple) (upd : List Nat),
      (∀ t ∈ ts, t ∈ B) → (∀ t ∈ done, t ∈ B) →
      m.map (fun e => e.1) = m0.map (fun e => e.1) →
      m.map (fun e => e.2.pk) = m0.map (fun e => e.2.pk) →
      (∀ e ∈ m, rkey e.2 = e.1) →
      (∀ k, Option.map (fun v => v.pk) (assocFind m k) =
        Option.map (fun v => v.pk) (assocFind m0 k)) →
      (∀ k v0, assocFind m0 k = some v0 → v0.pk ∉ upd → assocFind m k = some v0) →
      (∀ t' ∈ cre, t' ∈ B ∧ assocFind m (tkey t') = none) →
      (∀ p ∈ upd, ∃ k, Option.map (fun v => v.pk) (assocFind m0 k) = some p) →
      (∀ u ∈ done,
        (∃ v, assocFind m (tkey u) = some v ∧ rowMatchesDefaults v u.defaults = true) ∨
        (assocFind m (tkey u) = none ∧ ∃ t' ∈ cre, tkey t' = tkey u)) →
      ((ts.foldl batchStep (m, cre, upd)).1.map (fun e => e.1) = m0.map (fun e => e.1)) ∧
      ((ts.foldl batchStep (m, cre, upd)).1.map (fun e => e.2.pk) =
        m0.map (fun e => e.2.pk)) ∧
      (∀ e ∈ (ts.foldl batchStep (m, cre, upd)).1, rkey e.2 = e.1) ∧
      (∀ k, Option.map (fun v => v.pk) (assocFind (ts.foldl batchStep (m, cre, upd)).1 k) =
        Option.map (fun v => v.pk) (assocFind m0 k)) ∧
      (∀ k v0, assocFind m0 k = some v0 →
        v0.pk ∉ (ts.foldl batchStep (m, cre, upd)).2.2 →
        assocFind (ts.foldl batchStep (m, cre, upd)).1 k = some v0) ∧
      (∀ t' ∈ (ts.foldl batchStep (m, cre, upd)).2.1,
        t' ∈ B ∧ assocFind (ts.foldl batchStep (m, cre, upd)).1 (tkey t') = none) ∧
      (∀ p ∈ (ts.foldl batchStep (m, cre, upd)).2.2,
        ∃ k, Option.map (fun v => v.pk) (assocFind m0 k) = some p) ∧
      (∀ u ∈ done ++ ts,
        (∃ v, assocFind (ts.foldl batchStep (m, cre, upd)).1 (tkey u) = some v ∧
          rowMatchesDefaults v u.defaults = true) ∨
        (assocFind (ts.foldl batchStep (m, cre, upd)).1 (tkey u) = none ∧
          ∃ t' ∈ (ts.foldl batchStep (m, cre, upd)).2.1, tkey t' = tkey u))
  | [], done, m, cre, upd, hts, hdoneB, hkeys, hpks, hkeyok, hI3, hI8, hcre, hupd, hdone => by
      simp only [List.foldl_nil]
      refine ⟨hkeys, hpks, hkeyok, hI3, hI8, hcre, hupd, ?_⟩
      intro u hu
      rw [List.append_nil] at hu
      exact hdone u hu
  | t :: ts, done, m, cre, upd, hts, hdoneB, hkeys, hpks, hkeyok, hI3, hI8, hcre, hupd, hdone => by
      have htB : t ∈ B := hts t (List.mem_cons_self t ts)
      have htsB : ∀ x ∈ ts, x ∈ B := fun x hx => hts x (List.mem_cons_of_mem t hx)
      have hdoneB' : ∀ u ∈ done ++ [t], u ∈ B := by
        intro u hu
        rcases List.mem_append.mp hu with h1 | h2
        · exact hdoneB u h1
        · rw [List.mem_singleton.mp h2]
          exact htB
      cases hfind : assocFind m (tkey t) with
      | some obj =>
          have hment : (tkey t, obj) ∈ m := assocFind_mem_entry (tkey t) obj m hfind
          have hkmem : tkey t ∈ m.map (fun e => e.1) :=
            List.mem_map.mpr ⟨(tkey t, obj), hment, rfl⟩
          have hrkobj : rkey obj = tkey t := hkeyok (tkey t, obj) hment
          cases hmatch : rowMatchesDefaults obj t.defaults with
          | true =>
              have hstep : batchStep (m, cre, upd) t = (m, cre, upd) := by
                simp [batchStep, hfind, hmatch]
              have hdone' : ∀ u ∈ done ++ [t],
                  (∃ v, assocFind m (tkey u) = some v ∧
                    rowMatchesDefaults v u.defaults = true) ∨
                  (assocFind m (tkey u) = none ∧ ∃ t' ∈ cre, tkey t' = tkey u) := by
                intro u hu
                rcases List.mem_append.mp hu with h1 | h2
                · exact hdone u h1
                · rw [List.mem_singleton.mp h2]
                  exact Or.inl ⟨obj, hfind, hmatch⟩
              rw [List.foldl_cons, hstep]
              obtain ⟨h1, h2, h3, h4, h5, h6, h7, h8⟩ :=
                batchFold_main B hcon m0 ts (done ++ [t]) m cre upd
                  htsB hdoneB' hkeys hpks hkeyok hI3 hI8 hcre hupd hdone'
              exact ⟨h1, h2, h3, h4, h5, h6, h7,
                fun u hu => h8 u (mem_snoc_append u t done ts hu)⟩
          | false =>
              have hstep : batchStep (m, cre, upd) t =
                  (assocUpsert (tkey t) (applyDefaultsRow obj t.defaults) m, cre,
                    upd ++ [obj.pk]) := by
                simp [batchStep, hfind, hmatch]
              have hkeys' : (assocUpsert (tkey t) (applyDefaultsRow obj t.defaults) m).map
                  (fun e => e.1) = m0.map (fun e => e.1) := by
                rw [assocUpsert_keys _ _ m hkmem]
                exact hkeys
              have hpks' : (assocUpsert (tkey t) (applyDefaultsRow obj t.defaults) m).map
                  (fun e => e.2.pk) = m0.map (fun e => e.2.pk) := by
                rw [assocUpsert_pks (tkey t) (applyDefaultsRow obj t.defaults) obj rfl m hfind]
                exact hpks
              have hkeyok' : ∀ e ∈ assocUpsert (tkey t) (applyDefaultsRow obj t.defaults) m,
                  rkey e.2 = e.1 := by
                intro e he
                rcases assocUpsert_mem _ _ m e he with heq | hmem
                · rw [heq]
                  exact hrkobj
                · exact hkeyok e hmem
              have hI3' : ∀ k, Option.map (fun v => v.pk)
                  (assocFind (assocUpsert (tkey t) (applyDefaultsRow obj t.defaults) m) k) =
                  Option.map (fun v => v.pk) (assocFind m0 k) := by
                intro k
                rw [assocFind_upsert]
                by_cases hk : k = tkey t
                · rw [if_pos hk, hk, ← hI3 (tkey t), hfind]
                  rfl
                · rw [if_neg hk]
                  exact hI3 k
              have hI8' : ∀ k v0, assocFind m0 k = some v0 → v0.pk ∉ upd ++ [obj.pk] →
                  assocFind (assocUpsert (tkey t) (applyDefaultsRow obj t.defaults) m) k =
                    some v0 := by
                intro k v0 h0 hnot
                simp only [List.mem_append, List.mem_singleton, not_or] at hnot
                have hm := hI8 k v0 h0 hnot.1
                rw [assocFind_upsert]
                by_cases hk : k = tkey t
                · exfalso
                  rw [hk] at hm
                  have hov : obj = v0 := Option.some.inj (hfind.symm.trans hm)
                  exact hnot.2 (congrArg FSRow.pk hov.symm)
                · rw [if_neg hk]
                  exact hm
              have hcre' : ∀ t' ∈ cre, t' ∈ B ∧
                  assocFind (assocUpsert (tkey t) (applyDefaultsRow obj t.defaults) m)
                    (tkey t') = none := by
                intro t' ht'
                obtain ⟨hB', hn⟩ := hcre t' ht'
                refine ⟨hB', ?_⟩
                have hne : ¬ (tkey t' = tkey t) := by
                  intro hc
                  rw [hc, hfind] at hn
                  cases hn
                rw [assocFind_upsert, if_neg hne]
                exact hn
              have hupd' : ∀ p ∈ upd ++ [obj.pk],
                  ∃ k, Option.map (fun v => v.pk) (assocFind m0 k) = some p := by
                intro p hp
                rcases List.mem_append.mp hp with hp1 | hp2
                · exact hupd p hp1
                · refine ⟨tkey t, ?_⟩
                  rw [← hI3 (tkey t), hfind, List.mem_singleton.mp hp2]
                  rfl
              have hdone' : ∀ u ∈ done ++ [t],
                  (∃ v, assocFind (assocUpsert (tkey t) (applyDefaultsRow obj t.defaults) m)
                    (tkey u) = some v ∧ rowMatchesDefaults v u.defaults = true) ∨
                  (assocFind (assocUpsert (tkey t) (applyDefaultsRow obj t.defaults) m)
                    (tkey u) = none ∧ ∃ t' ∈ cre, tkey t' = tkey u) := by
                intro u hu
                rcases List.mem_append.mp hu with hu1 | hu2
                · rcases hdone u hu1 with ⟨v, hv, hmv⟩ | ⟨hn, t', ht', hk'⟩
                  · by_cases hk : tkey u = tkey t
                    · left
                      refine ⟨applyDefaultsRow obj t.defaults, ?_, ?_⟩
                      · rw [hk, assocFind_upsert, if_pos rfl]
                      · have hud : u.defaults = t.defaults :=
                          hcon u (hdoneB u hu1) t htB hk
                        rw [hud]
                        exact rowMatches_applyDefaults obj t.defaults
                    · left
                      refine ⟨v, ?_, hmv⟩
                      rw [assocFind_upsert, if_neg hk]
                      exact hv
                  · right
                    have hne : ¬ (tkey u = tkey t) := by
                      intro hc
                      rw [hc, hfind] at hn
                      cases hn
                    refine ⟨?_, t', ht', hk'⟩
                    rw [assocFind_upsert, if_neg hne]
                    exact hn
                · left
                  rw [List.mem_singleton.mp hu2]
                  refine ⟨applyDefaultsRow obj t.defaults, ?_,
                    rowMatches_applyDefaults obj t.defaults⟩
                  rw [assocFind_upsert, if_pos rfl]
              rw [List.foldl_cons, hstep]
              obtain ⟨h1, h2, h3, h4, h5, h6, h7, h8⟩ :=
                batchFold_main B hcon m0 ts (done ++ [t])
                  (assocUpsert (tkey t) (applyDefaultsRow obj t.defaults) m) cre
                  (upd ++ [obj.pk])
                  htsB hdoneB' hkeys' hpks' hkeyok' hI3' hI8' hcre' hupd' hdone'
              exact ⟨h1, h2, h3, h4, h5, h6, h7,
                fun u hu => h8 u (mem_snoc_append u t done ts hu)⟩
      | none =>
          have hstep : batchStep (m, cre, upd) t = (m, cre ++ [t], upd) := by
            simp [batchStep, hfind]
          have hcre' : ∀ t' ∈ cre ++ [t], t' ∈ B ∧ assocFind m (tkey t') = none := by
            intro t' ht'
            rcases List.mem_append.mp ht' with h1 | h2
            · exact hcre t' h1
            · rw [List.mem_singleton.mp h2]
              exact ⟨htB, hfind⟩
          have hdone' : ∀ u ∈ done ++ [t],
              (∃ v, assocFind m (tkey u) = some v ∧
                rowMatchesDefaults v u.defaults = true) ∨
              (assocFind m (tkey u) = none ∧ ∃ t' ∈ cre ++ [t], tkey t' = tkey u) := by
            intro u hu
            rcases List.mem_append.mp hu with hu1 | hu2
            · rcases hdone u hu1 with ⟨v, hv, hmv⟩ | ⟨hn, t', ht', hk'⟩
              · exact Or.inl ⟨v, hv, hmv⟩
              · exact Or.inr ⟨hn, t', List.mem_append.mpr (Or.inl ht'), hk'⟩
            · rw [List.mem_singleton.mp hu2]
              exact Or.inr ⟨hfind, t, List.mem_append.mpr (Or.inr (List.mem_singleton_self t)),
                rfl⟩
          rw [List.foldl_cons, hstep]
          obtain ⟨h1, h2, h3, h4, h5, h6, h7, h8⟩ :=
            batchFold_main B hcon m0 ts (done ++ [t]) m (cre ++ [t]) upd
              htsB hdoneB' hkeys hpks hkeyok hI3 hI8 hcre' hupd hdone'
          exact ⟨h1, h2, h3, h4, h5, h6, h7,
            fun u hu => h8 u (mem_snoc_append u t done ts hu)⟩

theorem processBatch_main (st : FSState) (B prior : List FSTuple)
    (hwf : WFState st)
    (hcon : ∀ t1, (t1 ∈ B ∨ t1 ∈ prior) → ∀ t2, (t2 ∈ B ∨ t2 ∈ prior) →
      tkey t1 = tkey t2 → t1.defaults = t2.defaults)
    (href : Reflects st.rows prior) :
    WFState (processBatch st B).1 ∧ Reflects (processBatch st B).1.rows (prior ++ B) := by
  obtain ⟨hnd, hlt⟩ := hwf
  have hEcon : ∀ t1 ∈ B, ∀ t2 ∈ B, tkey t1 = tkey t2 → t1.defaults = t2.defaults :=
    fun t1 h1 t2 h2 => hcon t1 (Or.inl h1) t2 (Or.inl h2)
  have hEmem : ∀ r, r ∈ st.rows.filter (fun r => rkey r ∈ B.map tkey) →
      r ∈ st.rows ∧ rkey r ∈ B.map tkey := by
    intro r hr
    have h := List.mem_filter.mp hr
    exact ⟨h.1, of_decide_eq_true h.2⟩
  have hEfull : ∀ k, k ∈ B.map tkey →
      lastWith k (st.rows.filter (fun r => rkey r ∈ B.map tkey)) = lastWith k st.rows := by
    intro k hk
    refine lastWith_filter k _ ?_ st.rows
    intro r hr
    rw [hr]
    exact decide_eq_true hk
  have hEnd : (((st.rows.filter (fun r => rkey r ∈ B.map tkey)).map (fun r => r.pk)).Nodup) :=
    filter_pks_nodup st.rows _ hnd
  have hm0pks : (((buildExistingMap (st.rows.filter (fun r => rkey r ∈ B.map tkey))).map
      (fun e => e.2.pk)).Nodup) :=
    buildExistingMap_pksNodup _ hEnd
  obtain ⟨h1, h2, h3, h4, h5, h6, h7, h8⟩ :=
    batchFold_main B hEcon (buildExistingMap (st.rows.filter (fun r => rkey r ∈ B.map tkey)))
      B [] (buildExistingMap (st.rows.filter (fun r => rkey r ∈ B.map tkey))) [] []
      (fun t ht => ht) (fun t ht => absurd ht (List.not_mem_nil t))
      rfl rfl
      (buildExistingMap_keyOk _)
      (fun k => rfl)
      (fun k v0 h0 _ => h0)
      (fun t' ht' => absurd ht' (List.not_mem_nil t'))
      (fun p hp => absurd hp (List.not_mem_nil p))
      (fun u hu => absurd hu (List.not_mem_nil u))
  rcases hacc : B.foldl batchStep
      (buildExistingMap (st.rows.filter (fun r => rkey r ∈ B.map tkey)), [], []) with
    ⟨m, cre, upd⟩
  rw [hacc] at h1 h2 h3 h4 h5 h6 h7 h8
  dsimp only at h1 h2 h3 h4 h5 h6 h7 h8
  have hPB : processBatch st B = finishBatch st m cre upd := by
    simp only [processBatch]
    rw [hacc]
  have hrowseq : (finishBatch st m cre upd).1.rows =
      st.rows.map (fun r => if r.pk ∈ upd then
          match m.find? (fun e => e.2.pk == r.pk) with
          | some e => e.2
          | none => r
        else r) ++ mkCreatedRows st.nextPk cre := rfl
  have hnexteq : (finishBatch st m cre upd).1.nextPk = st.nextPk + cre.length := rfl
  have hfpk : ∀ r : FSRow,
      (if r.pk ∈ upd then
        match m.find? (fun e => e.2.pk == r.pk) with
        | some e => e.2
        | none => r
       else r).pk = r.pk := by
    intro r
    split
    · cases hfd : m.find? (fun e => e.2.pk == r.pk) with
      | some e =>
          dsimp only
          have hp := List.find?_some hfd
          simpa using hp
      | none => rfl
    · rfl
  have hfrkey : ∀ r ∈ st.rows,
      rkey (if r.pk ∈ upd then
        match m.find? (fun e => e.2.pk == r.pk) with
        | some e => e.2
        | none => r
       else r) = rkey r := by
    intro r hr
    split
    next hupdmem =>
      obtain ⟨k0, hk0⟩ := h7 r.pk hupdmem
      cases h0 : assocFind (buildExistingMap
          (st.rows.filter (fun r => rkey r ∈ B.map tkey))) k0 with
      | none =>
          rw [h0] at hk0
          cases hk0
      | some w0 =>
          rw [h0] at hk0
          have hw0pk : w0.pk = r.pk := by simpa using hk0
          obtain ⟨r1, hr1E, hv1⟩ :=
            buildExistingMap_mem _ (k0, w0) (assocFind_mem_entry k0 w0 _ h0)
          have hw0r1 : w0 = r1 := hv1
          have hw0R : w0 ∈ st.rows := by
            rw [hw0r1]
            exact (hEmem r1 hr1E).1
          have hw0r : w0 = r := pk_inj st.rows hnd w0 r hw0R hr hw0pk
          have hrk0 : rkey r = k0 := by
            rw [← hw0r]
            exact buildExistingMap_keyOk _ (k0, w0) (assocFind_mem_entry k0 w0 _ h0)
          have hmk0 : Option.map (fun v => v.pk) (assocFind m k0) = some r.pk := by
            rw [h4 k0, h0]
            simpa using hw0pk
          cases hm' : assocFind m k0 with
          | none =>
              rw [hm'] at hmk0
              cases hmk0
          | some v =>
              rw [hm'] at hmk0
              have hvpk : v.pk = r.pk := by simpa using hmk0
              have hfind := find_by_pk m (by rw [h2]; exact hm0pks) k0 v
                (assocFind_mem_entry k0 v m hm')
              rw [← hvpk, hfind]
              dsimp only
              rw [h3 (k0, v) (assocFind_mem_entry k0 v m hm')]
              exact hrk0.symm
    next => rfl
  have hBtuple : ∀ t ∈ B, ∃ r,
      lastWith (tkey t) (st.rows.map (fun r => if r.pk ∈ upd then
          match m.find? (fun e => e.2.pk == r.pk) with
          | some e => e.2
          | none => r
        else r) ++ mkCreatedRows st.nextPk cre) = some r ∧
      rowMatchesDefaults r t.defaults = true := by
    intro t ht
    have hkmem : tkey t ∈ B.map tkey := List.mem_map_of_mem tkey ht
    rcases h8 t (by rw [List.nil_append]; exact ht) with ⟨v, hv, hmv⟩ | ⟨hnone, t', ht', hk'⟩
    · have hcreated_none : lastWith (tkey t) (mkCreatedRows st.nextPk cre) = none := by
        rw [lastWith_eq_none]
        intro rc hrc
        obtain ⟨t'', ht'', hkeyc, _, _⟩ := mkCreatedRows_fields cre st.nextPk rc hrc
        rw [hkeyc]
        intro hc
        obtain ⟨_, hn⟩ := h6 t'' ht''
        rw [hc, hv] at hn
        cases hn
      rw [lastWith_append, hcreated_none]
      dsimp only
      rw [lastWith_map (tkey t) _ st.rows hfrkey]
      cases h0 : assocFind (buildExistingMap
          (st.rows.filter (fun r => rkey r ∈ B.map tkey))) (tkey t) with
      | none =>
          exfalso
          have h4t := h4 (tkey t)
          rw [h0, hv] at h4t
          cases h4t
      | some w0 =>
          have hw0pk : w0.pk = v.pk := by
            have h4t := h4 (tkey t)
            rw [hv, h0] at h4t
            simpa using h4t.symm
          have hlastE := buildExistingMap_lookup
            (st.rows.filter (fun r => rkey r ∈ B.map tkey)) (tkey t)
          rw [h0] at hlastE
          have hlastR : lastWith (tkey t) st.rows = some w0 := by
            rw [← hEfull (tkey t) hkmem, ← hlastE]
          rw [hlastR]
          refine ⟨v, ?_, hmv⟩
          by_cases hw0u : w0.pk ∈ upd
          · have hfind := find_by_pk m (by rw [h2]; exact hm0pks) (tkey t) v
              (assocFind_mem_entry (tkey t) v m hv)
            simp only [Option.map_some']
            rw [if_pos hw0u, hw0pk, hfind]
          · have hmw0 := h5 (tkey t) w0 h0 hw0u
            have hvw : w0 = v := Option.some.inj (hmw0.symm.trans hv)
            simp only [Option.map_some']
            rw [if_neg hw0u, hvw]
    · have hccon : ∀ u ∈ cre, tkey u = tkey t → u.defaults = t.defaults := by
        intro u hu hk
        exact hEcon u (h6 u hu).1 t ht hk
      obtain ⟨r, hr, hmr⟩ :=
        mkCreated_lastWith (tkey t) t.defaults cre st.nextPk ⟨t', ht', hk'⟩ hccon
      refine ⟨r, ?_, hmr⟩
      rw [lastWith_append, hr]
  rw [hPB]
  constructor
  · unfold WFState
    rw [hrowseq, hnexteq]
    have hmappks : ((st.rows.map (fun r => if r.pk ∈ upd then
          match m.find? (fun e => e.2.pk == r.pk) with
          | some e => e.2
          | none => r
        else r)).map (fun r => r.pk)) = st.rows.map (fun r => r.pk) := by
      rw [List.map_map]
      refine List.map_congr_left ?_
      intro r _
      exact hfpk r
    constructor
    · rw [List.map_append, hmappks, List.nodup_append]
      refine ⟨hnd, mkCreatedRows_pks_nodup cre st.nextPk, ?_⟩
      intro p hp1 hp2
      obtain ⟨r, hr, hpk⟩ := List.mem_map.mp hp1
      obtain ⟨r2, hr2, hpk2⟩ := List.mem_map.mp hp2
      have hb1 := hlt r hr
      obtain ⟨_, _, _, _, hge⟩ := mkCreatedRows_fields cre st.nextPk r2 hr2
      omega
    · intro r hr
      rcases List.mem_append.mp hr with hr1 | hr2
      · obtain ⟨r0, hr0, hfr⟩ := List.mem_map.mp hr1
        have hb := hlt r0 hr0
        have hpkeq : r.pk = r0.pk := by
          rw [← hfr]
          exact hfpk r0
        omega
      · have hb := mkCreatedRows_pk_lt cre st.nextPk r hr2
        omega
  · intro t ht
    rw [hrowseq]
    rcases List.mem_append.mp ht with htP | htB2
    · by_cases hkb : tkey t ∈ B.map tkey
      · obtain ⟨tb, htb, hkeq⟩ := List.mem_map.mp hkb
        obtain ⟨r, hr, hmr⟩ := hBtuple tb htb
        refine ⟨r, ?_, ?_⟩
        · rw [← hkeq]
          exact hr
        · have hdeq : tb.defaults = t.defaults := hcon tb (Or.inl htb) t (Or.inr htP) hkeq
          rw [← hdeq]
          exact hmr
      · obtain ⟨r0, hr0, hmr0⟩ := href t htP
        refine ⟨r0, ?_, hmr0⟩
        have hcnone : lastWith (tkey t) (mkCreatedRows st.nextPk cre) = none := by
          rw [lastWith_eq_none]
          intro rc hrc
          obtain ⟨t', ht', hkeyc, _, _⟩ := mkCreatedRows_fields cre st.nextPk rc hrc
          rw [hkeyc]
          intro hc
          exact hkb (hc ▸ List.mem_map_of_mem tkey (h6 t' ht').1)
        rw [lastWith_append, hcnone]
        dsimp only
        rw [lastWith_map (tkey t) _ st.rows hfrkey, hr0]
        have hr0R : r0 ∈ st.rows := (lastWith_mem (tkey t) st.rows r0 hr0).1
        have hr0k : rkey r0 = tkey t := (lastWith_mem (tkey t) st.rows r0 hr0).2
        have hr0nupd : r0.pk ∉ upd := by
          intro hin
          obtain ⟨k0, hk0⟩ := h7 r0.pk hin
          cases h0 : assocFind (buildExistingMap
              (st.rows.filter (fun r => rkey r ∈ B.map tkey))) k0 with
          | none =>
              rw [h0] at hk0
              cases hk0
          | some w0 =>
              rw [h0] at hk0
              have hw0pk : w0.pk = r0.pk := by simpa using hk0
              obtain ⟨r1, hr1E, hv1⟩ :=
                buildExistingMap_mem _ (k0, w0) (assocFind_mem_entry k0 w0 _ h0)
              have hw0r1 : w0 = r1 := hv1
              have hw0R : w0 ∈ st.rows := by
                rw [hw0r1]
                exact (hEmem r1 hr1E).1
              have hw0r0 : w0 = r0 := pk_inj st.rows hnd w0 r0 hw0R hr0R hw0pk
              have hkeyin : rkey w0 ∈ B.map tkey := by
                rw [hw0r1]
                exact (hEmem r1 hr1E).2
              rw [hw0r0, hr0k] at hkeyin
              exact hkb hkeyin
        simp only [Option.map_some']
        rw [if_neg hr0nupd]
    · exact hBtuple t htB2

theorem batchFold_noop (m0 : List ((String × String × Option String) × FSRow)) :
    ∀ ts : List FSTuple,
      (∀ t ∈ ts, ∃ v, assocFind m0 (tkey t) = some v ∧
        rowMatchesDefaults v t.defaults = true) →
      ts.foldl batchStep (m0, [], ([] : List Nat)) = (m0, [], [])
  | [], _ => rfl
  | t :: ts, h => by
      obtain ⟨v, hv, hm⟩ := h t (List.mem_cons_self t ts)
      have hstep : batchStep (m0, [], ([] : List Nat)) t = (m0, [], []) := by
        simp [batchStep, hv, hm]
      rw [List.foldl_cons, hstep]
      exact batchFold_noop m0 ts (fun u hu => h u (List.mem_cons_of_mem t hu))

theorem processBatch_noop (st : FSState) (B : List FSTuple)
    (href : Reflects st.rows B) :
    processBatch st B = (st, 0, 0) := by
  have hEfull : ∀ k, k ∈ B.map tkey →
      lastWith k (st.rows.filter (fun r => rkey r ∈ B.map tkey)) = lastWith k st.rows := by
    intro k hk
    refine lastWith_filter k _ ?_ st.rows
    intro r hr
    rw [hr]
    exact decide_eq_true hk
  have hfold : B.foldl batchStep
      (buildExistingMap (st.rows.filter (fun r => rkey r ∈ B.map tkey)), [], []) =
      (buildExistingMap (st.rows.filter (fun r => rkey r ∈ B.map tkey)), [], []) := by
    refine batchFold_noop _ B ?_
    intro t ht
    obtain ⟨r, hr, hm⟩ := href t ht
    refine ⟨r, ?_, hm⟩
    rw [buildExistingMap_lookup, hEfull (tkey t) (List.mem_map_of_mem tkey ht)]
    exact hr
  simp only [processBatch]
  rw [hfold]
  simp [finishBatch, mkCreatedRows]

theorem chunksOfAux_mem (n : Nat) :
    ∀ (fuel : Nat) (l : List FSTuple) (t : FSTuple), t ∈ l →
      ∃ b ∈ chunksOfAux n fuel l, t ∈ b
  | 0, [], t, ht => absurd ht (List.not_mem_nil t)
  | _ + 1, [], t, ht => absurd ht (List.not_mem_nil t)
  | 0, x :: l, t, ht => ⟨x :: l, by simp [chunksOfAux], ht⟩
  | fuel + 1, x :: l, t, ht => by
      have hsplit : t ∈ (x :: l).take n ++ (x :: l).drop n := by
        rw [List.take_append_drop]
        exact ht
      rcases List.mem_append.mp hsplit with h1 | h2
      · exact ⟨(x :: l).take n, by simp [chunksOfAux], h1⟩
      · obtain ⟨b, hb, htb⟩ := chunksOfAux_mem n fuel ((x :: l).drop n) t h2
        refine ⟨b, ?_, htb⟩
        simp only [chunksOfAux, List.mem_cons]
        exact Or.inr hb

theorem chunksOf_mem (n : Nat) (l : List FSTuple) (t : FSTuple) (ht : t ∈ l) :
    ∃ b ∈ chunksOf n l, t ∈ b :=
  chunksOfAux_mem n l.length l t ht

theorem foldBatches_main (tuples : List FSTuple)
    (hcon : KeyConsistent tuples) :
    ∀ (bs : List (List FSTuple)) (done : List FSTuple) (st : FSState) (c u : Nat),
      (∀ b ∈ bs, ∀ t ∈ b, t ∈ tuples) → (∀ t ∈ done, t ∈ tuples) →
      WFState st → Reflects st.rows done →
      WFState ((bs.foldl (fun acc b =>
        let r := processBatch acc.1 b
        (r.1, acc.2.1 + r.2.1, acc.2.2 + r.2.2)) (st, c, u))).1 ∧
      (∀ t, (t ∈ done ∨ ∃ b ∈ bs, t ∈ b) →
        ∃ r, lastWith (tkey t)
          ((bs.foldl (fun acc b =>
            let r := processBatch acc.1 b
            (r.1, acc.2.1 + r.2.1, acc.2.2 + r.2.2)) (st, c, u))).1.rows = some r ∧
          rowMatchesDefaults r t.defaults = true)
  | [], done, st, c, u, hbs, hdone, hwf, href => by
      simp only [List.foldl_nil]
      refine ⟨hwf, ?_⟩
      intro t hmem
      rcases hmem with h1 | ⟨b, hb, _⟩
      · exact href t h1
      · exact absurd hb (List.not_mem_nil b)
  | b :: bs, done, st, c, u, hbs, hdone, hwf, href => by
      have hbT : ∀ t ∈ b, t ∈ tuples := hbs b (List.mem_cons_self b bs)
      have hconb : ∀ t1, (t1 ∈ b ∨ t1 ∈ done) → ∀ t2, (t2 ∈ b ∨ t2 ∈ done) →
          tkey t1 = tkey t2 → t1.defaults = t2.defaults := by
        intro t1 h1 t2 h2 hk
        have m1 : t1 ∈ tuples := by
          rcases h1 with h | h
          · exact hbT t1 h
          · exact hdone t1 h
        have m2 : t2 ∈ tuples := by
          rcases h2 with h | h
          · exact hbT t2 h
          · exact hdone t2 h
        exact hcon t1 m1 t2 m2 hk
      obtain ⟨hwf', hrefl'⟩ := processBatch_main st b done hwf hconb href
      obtain ⟨hW, hR⟩ := foldBatches_main tuples hcon bs (done ++ b) (processBatch st b).1
        (c + (processBatch st b).2.1) (u + (processBatch st b).2.2)
        (fun b' hb' => hbs b' (List.mem_cons_of_mem b hb'))
        (fun t ht => by
          rcases List.mem_append.mp ht with h | h
          · exact hdone t h
          · exact hbT t h)
        hwf' hrefl'
      rw [List.foldl_cons]
      refine ⟨hW, ?_⟩
      intro t hmem
      refine hR t ?_
      rcases hmem with h1 | ⟨b', hb', htb'⟩
      · exact Or.inl (List.mem_append.mpr (Or.inl h1))
      · rcases List.mem_cons.mp hb' with rfl | hb2
        · exact Or.inl (List.mem_append.mpr (Or.inr htb'))
        · exact Or.inr ⟨b', hb2, htb'⟩

theorem foldBatches_noop :
    ∀ (bs : List (List FSTuple)) (st : FSState),
      (∀ b ∈ bs, Reflects st.rows b) →
      bs.foldl (fun acc b =>
        let r := processBatch acc.1 b
        (r.1, acc.2.1 + r.2.1, acc.2.2 + r.2.2)) (st, 0, 0) = (st, 0, 0)
  | [], _, _ => rfl
  | b :: bs, st, h => by
      have hnoop := processBatch_noop st b (h b (List.mem_cons_self b bs))
      rw [List.foldl_cons]
      simp only [hnoop, Nat.add_zero]
      exact foldBatches_noop bs st (fun b' hb' => h b' (List.mem_cons_of_mem b hb'))

theorem run_establishes (data : List ComplianceItemData) (cdb : List String)
    (st : FSState) (hwf : WFState st)
    (hcon : KeyConsistent (buildStandards data cdb)) :
    WFState (map_controls_to_standards data cdb st).1 ∧
    Reflects (map_controls_to_standards data cdb st).1.rows (buildStandards data cdb) := by
  obtain ⟨hW, hR⟩ := foldBatches_main (buildStandards data cdb) hcon
    (chunksOf 500 (buildStandards data cdb)) [] st 0 0
    (fun b hb t ht => chunksOf_subset 500 _ b hb ht)
    (fun t ht => absurd ht (List.not_mem_nil t))
    hwf
    (fun t ht => absurd ht (List.not_mem_nil t))
  refine ⟨hW, ?_⟩
  intro t ht
  exact hR t (Or.inr (chunksOf_mem 500 (buildStandards data cdb) t ht))

theorem run_noop (data : List ComplianceItemData) (cdb : List String)
    (st : FSState) (href : Reflects st.rows (buildStandards data cdb)) :
    map_controls_to_standards data cdb st = (st, 0, 0) := by
  refine foldBatches_noop (chunksOf 500 (buildStandards data cdb)) st ?_
  intro b hb t ht
  exact href t (chunksOf_subset 500 _ b hb ht)

/-- Counterexample to claim C4 as stated: the second run of the batcher
over the same captured payload and the state produced by the first run
is *not* write-free when the payload repeats one
`(control, framework, standard_id)` key with differing defaults and a
row for that key already exists.  Starting from a store holding one
row with the key, both same-key tuples resolve to that single row
through `existing_map`; each run mutates it to the first payload and
then to the second, queuing it for `bulk_update` both times, so every
run reports two updates (and zero creates: the table keeps exactly one
row per key throughout, so the `unique_together` constraint is never
touched).  The second run performs two updates instead of zero. -/
theorem C4_counterexample :
    (map_controls_to_standards exC4Data ["C1"]
      (map_controls_to_standards exC4Data ["C1"]
        { rows := [{ pk := 0, control := "C1", framework := "SOC2 (TSC 2017)",
                     standard_id := some "S1" }], nextPk := 1 }).1).2.1 = 0 ∧
    (map_controls_to_standards exC4Data ["C1"]
      (map_controls_to_standards exC4Data ["C1"]
        { rows := [{ pk := 0, control := "C1", framework := "SOC2 (TSC 2017)",
                     standard_id := some "S1" }], nextPk := 1 }).1).2.2 = 2 := by
  decide

/-- Claim C4 (amended): the standard-mapping batcher is idempotent for
inputs whose surviving work-list tuples carry pairwise-distinct
`(control, framework, standard_id)` keys: on a well-formed store the
second run over the same input and the state produced by the first run
performs zero creates and zero updates and leaves the state unchanged.
Distinct keys rule out the two failure modes of a duplicated key: a
duplicate with differing defaults oscillates the single retained
`existing_map` row and re-queues a `bulk_update` on every run (the
counterexample), and a duplicate absent from the store would put two
rows with the same key into one `bulk_create`, which the real
`unique_together` constraint rejects. -/
theorem C4_batcher_idempotent (data : List ComplianceItemData) (cdb : List String)
    (st : FSState) (hwf : WFState st)
    (hkeys : (((buildStandards data cdb).map tkey).Nodup)) :
    map_controls_to_standards data cdb (map_controls_to_standards data cdb st).1 =
      ((map_controls_to_standards data cdb st).1, 0, 0) := by
  have hcon : KeyConsistent (buildStandards data cdb) := by
    intro t1 h1 t2 h2 hk
    have ht12 : t1 = t2 := List.inj_on_of_nodup_map hkeys h1 h2 hk
    rw [ht12]
  obtain ⟨hW, hR⟩ := run_establishes data cdb st hwf hcon
  exact run_noop data cdb _ hR

/-- Witness for C4: on the duplicate-free payload the second run over
an initially empty store reports zero creates and zero updates. -/
theorem C4_witness :
    map_controls_to_standards exC4Data2 ["C1"]
      (map_controls_to_standards exC4Data2 ["C1"] { rows := [], nextPk := 0 }).1 =
      ((map_controls_to_standards exC4Data2 ["C1"] { rows := [], nextPk := 0 }).1, 0, 0) :=
  C4_batcher_idempotent exC4Data2 ["C1"] { rows := [], nextPk := 0 }
    ⟨List.nodup_nil, fun r hr => absurd hr (List.not_mem_nil r)⟩
    (by decide)
